import Mathlib

/-!
# Rewrite and transformation rules of the terrier optimizer

A shallow embedding of `src/optimizer/rules/rewrite_rules.cpp` and
`src/optimizer/rules/transformation_rules.cpp`, followed by the child property
deriver (`src/optimizer/child_property_deriver.cpp`), the column statistics
(`src/include/optimizer/statistics/column_stats.h`), the statistics storage
exercised by `test/optimizer/stats_storage_test.cpp`, and the equality and
hash of constant expressions
(`src/include/parser/expression/constant_value_expression.h`).

Conventions of the embedding:

* `std::vector<T>` is `List T`; `emplace_back` appends at the end.
* `std::unordered_set<std::string>` is `Finset String`.
* A rule `Transform(input, transformed, context)` appends to the caller owned
  vector `transformed`.  It is embedded as a function taking the vector before
  the call and returning the vector after the call.
* Undefined behaviour and aborts (a failed `TERRIER_ASSERT`, `As<T>()` on an
  operator of another kind followed by a dereference, an index past the end of
  a child vector, a group id unknown to the memo, the conversion to `size_t`
  of a `double` out of its range) are the result `none`.
* `size_t` and the oid types are `Nat`, with the arithmetic of `size_t`
  reduced modulo 2^64.  A `double` is an IEEE 754 binary64 number (`Double`):
  conversions and quotients round to nearest, ties to even; there are
  infinities and a NaN.
-/

namespace terrier

namespace parser

/-- Modelled from the spec: the kinds of scalar expression (`ExpressionType`,
declared in a header that is not among the sources).  The spec names column
references, constants, comparisons and aggregates. -/
inductive ExpressionType where
  | VALUE_CONSTANT
  | COLUMN_VALUE
  | COMPARE_EQUAL
  | COMPARE_NOT_EQUAL
  | COMPARE_LESS_THAN
  | COMPARE_GREATER_THAN
  | CONJUNCTION_AND
  | CONJUNCTION_OR
  | AGGREGATE_COUNT
  | AGGREGATE_SUM
  | AGGREGATE_MIN
  | AGGREGATE_MAX
  | AGGREGATE_AVG
  deriving DecidableEq, Repr

/-- Modelled from the spec: `AbstractExpression`, a scalar expression tree
carrying its kind, an alias string, a depth and its ordered children
(`abstract_expression.h` is not among the sources). -/
inductive AbstractExpression where
  | mk (expression_type : ExpressionType) (alias_name : String) (depth : Int)
      (children : List AbstractExpression)

namespace AbstractExpression

/-- Accessor `GetExpressionType()`. -/
def GetExpressionType : AbstractExpression → ExpressionType
  | .mk t _ _ _ => t

/-- Accessor `GetDepth()`. -/
def GetDepth : AbstractExpression → Int
  | .mk _ _ d _ => d

/-- Accessor `GetChildren()`. -/
def GetChildren : AbstractExpression → List AbstractExpression
  | .mk _ _ _ cs => cs

/-- Modelled from the spec: `GetChild(index)`, the child at `index` of the
child vector; an index past the end is the result `none`. -/
def GetChild (expr : AbstractExpression) (index : Nat) : Option AbstractExpression :=
  expr.GetChildren[index]?

end AbstractExpression

namespace ExpressionUtil

/-- Modelled from the spec: whether an expression kind is an aggregate
(`expression_util.h` is not among the sources). -/
def IsAggregateExpression : ExpressionType → Bool
  | .AGGREGATE_COUNT => true
  | .AGGREGATE_SUM => true
  | .AGGREGATE_MIN => true
  | .AGGREGATE_MAX => true
  | .AGGREGATE_AVG => true
  | _ => false

mutual
/-- Modelled from the spec: `ExpressionUtil::GetAggregateExprs` appends to
`aggr_exprs` the aggregate expressions contained in `expr`
(`expression_util.h` is not among the sources). -/
def GetAggregateExprs (aggr_exprs : List AbstractExpression) :
    AbstractExpression → List AbstractExpression
  | .mk t a d cs =>
    if IsAggregateExpression t then aggr_exprs ++ [AbstractExpression.mk t a d cs]
    else GetAggregateExprsOfChildren aggr_exprs cs
/-- The loop of `GetAggregateExprs` over the children of an expression. -/
def GetAggregateExprsOfChildren (aggr_exprs : List AbstractExpression) :
    List AbstractExpression → List AbstractExpression
  | [] => aggr_exprs
  | c :: cs => GetAggregateExprsOfChildren (GetAggregateExprs aggr_exprs c) cs
end

mutual
/-- Modelled from the spec: `ExpressionUtil::GetTupleValueExprs` adds to
`tuples` the column references contained in `expr` (`expression_util.h` is not
among the sources).  The set `ExprSet` it fills is a list here. -/
def GetTupleValueExprs (tuples : List AbstractExpression) :
    AbstractExpression → List AbstractExpression
  | .mk t a d cs =>
    let tuples := GetTupleValueExprsOfChildren tuples cs
    if t = ExpressionType.COLUMN_VALUE then tuples ++ [AbstractExpression.mk t a d cs]
    else tuples
/-- The loop of `GetTupleValueExprs` over the children of an expression. -/
def GetTupleValueExprsOfChildren (tuples : List AbstractExpression) :
    List AbstractExpression → List AbstractExpression
  | [] => tuples
  | c :: cs => GetTupleValueExprsOfChildren (GetTupleValueExprs tuples c) cs
end

end ExpressionUtil

/-- The type `common::hash_t` of hash values. -/
abbrev hash_t := Nat

/-- The functions `ConstantValueExpression` calls whose declarations are not
among the sources, taken as parameters: `AbstractExpression::operator==` and
`AbstractExpression::Hash` of the base class, `operator==` and `Hash` of the
held `type::TransientValue`, and `common::HashUtil::CombineHashes`.  The type
`TransientValue` of held values is a parameter as well. -/
structure ExpressionCollaborators (TransientValue : Type) where
  BaseEquals : AbstractExpression → AbstractExpression → Bool
  BaseHash : AbstractExpression → hash_t
  ValueEquals : TransientValue → TransientValue → Bool
  ValueHash : TransientValue → hash_t
  CombineHashes : hash_t → hash_t → hash_t

/-- The class `ConstantValueExpression` (constant_value_expression.h, lines
14-108): the members of the base class `AbstractExpression` and the held
value `value_`. -/
structure ConstantValueExpression (TransientValue : Type) where
  base : AbstractExpression
  value_ : TransientValue

/-- An object a `const AbstractExpression &` may refer to: a constant
expression, or an expression of another class, of which only the members of
the base class are read. -/
inductive ExpressionObject (TransientValue : Type) where
  | Constant (expr : ConstantValueExpression TransientValue)
  | Other (base : AbstractExpression)

/-- The base class part of the object a reference refers to. -/
def ExpressionObject.base {TransientValue : Type} :
    ExpressionObject TransientValue → AbstractExpression
  | .Constant expr => expr.base
  | .Other base => base

namespace ConstantValueExpression

/-- Accessor `GetValue()` (constant_value_expression.h, line 69). -/
def GetValue {TransientValue : Type} (expr : ConstantValueExpression TransientValue) :
    TransientValue :=
  expr.value_

/-- Embedding of `ConstantValueExpression::Hash` (constant_value_expression.h,
lines 30-32). -/
def Hash {TransientValue : Type} (collaborators : ExpressionCollaborators TransientValue)
    (expr : ConstantValueExpression TransientValue) : hash_t :=
  collaborators.CombineHashes (collaborators.BaseHash expr.base)
    (collaborators.ValueHash expr.value_)

/-- Embedding of `ConstantValueExpression::operator==`
(constant_value_expression.h, lines 34-38).  The `dynamic_cast` to a
reference throws on an object of another class, the result `none`. -/
def Equals {TransientValue : Type} (collaborators : ExpressionCollaborators TransientValue)
    (expr : ConstantValueExpression TransientValue) (other : ExpressionObject TransientValue) :
    Option Bool :=
  if !collaborators.BaseEquals expr.base other.base then some false
  else
    match other with
    | .Constant const_expr => some (collaborators.ValueEquals expr.value_ const_expr.GetValue)
    | .Other _ => none

end ConstantValueExpression

end parser

namespace optimizer

open parser

/-- Modelled from the spec: `AnnotatedExpression`, a predicate together with
the set of table aliases it references (`optimizer_defs.h` is not among the
sources). -/
structure AnnotatedExpression where
  expr : AbstractExpression
  table_alias_set : Finset String

namespace AnnotatedExpression

/-- Accessor `GetExpr()`. -/
def GetExpr (p : AnnotatedExpression) : AbstractExpression := p.expr

/-- Accessor `GetTableAliasSet()`. -/
def GetTableAliasSet (p : AnnotatedExpression) : Finset String := p.table_alias_set

end AnnotatedExpression

/-- Modelled from the spec: the join kinds carried by a `LogicalJoin`
(`logical_operators.h` is not among the sources). -/
inductive LogicalJoinType where
  | INNER
  | LEFT
  | RIGHT
  | OUTER
  | SEMI
  | MARK
  | SINGLE
  deriving DecidableEq, Repr

/-- Identifier of a memo group (`group_id_t`). -/
abbrev group_id_t := Nat

/-- Payload of `LeafOperator`: the group the pattern leaf was bound to. -/
structure LeafOperator where
  origin_group : group_id_t

/-- Payload of `LogicalGet`, with the fields `LogicalGet::Make` receives in
`RewriteEmbedFilterIntoGet::Transform`. -/
structure LogicalGet where
  database_oid : Nat
  namespace_oid : Nat
  table_oid : Nat
  predicates : List AnnotatedExpression
  table_alias : String
  is_for_update : Bool

/-- Payload of `LogicalFilter`. -/
structure LogicalFilter where
  predicates : List AnnotatedExpression

/-- Payload of `LogicalJoin`: the join type and the join predicates. -/
structure LogicalJoin where
  join_type : LogicalJoinType
  join_predicates : List AnnotatedExpression

/-- Payload of `LogicalAggregateAndGroupBy`: group-by columns and HAVING. -/
structure LogicalAggregateAndGroupBy where
  columns : List AbstractExpression
  having : List AnnotatedExpression

/-- Modelled from the spec: `Operator`, a tagged variant of operator kinds,
restricted to the logical kinds the rules of this development touch
(`operator_node.h` and `logical_operators.h` are not among the sources). -/
inductive Operator where
  | Leaf (op : LeafOperator)
  | Get (op : LogicalGet)
  | Filter (op : LogicalFilter)
  | Join (op : LogicalJoin)
  | AggregateAndGroupBy (op : LogicalAggregateAndGroupBy)

namespace Operator

/-- Cast `As<LeafOperator>()`: `none` stands for the null pointer. -/
def AsLeafOperator : Operator → Option LeafOperator
  | .Leaf op => some op
  | _ => none

/-- Cast `As<LogicalGet>()`. -/
def AsLogicalGet : Operator → Option LogicalGet
  | .Get op => some op
  | _ => none

/-- Cast `As<LogicalFilter>()`. -/
def AsLogicalFilter : Operator → Option LogicalFilter
  | .Filter op => some op
  | _ => none

/-- Cast `As<LogicalJoin>()`. -/
def AsLogicalJoin : Operator → Option LogicalJoin
  | .Join op => some op
  | _ => none

/-- Cast `As<LogicalAggregateAndGroupBy>()`. -/
def AsLogicalAggregateAndGroupBy : Operator → Option LogicalAggregateAndGroupBy
  | .AggregateAndGroupBy op => some op
  | _ => none

end Operator

/-- Factory `LogicalFilter::Make(predicates)`. -/
def LogicalFilter.Make (predicates : List AnnotatedExpression) : Operator :=
  Operator.Filter ⟨predicates⟩

/-- Factory `LogicalJoin::Make(type, predicates)`. -/
def LogicalJoin.Make (type : LogicalJoinType) (predicates : List AnnotatedExpression) :
    Operator :=
  Operator.Join ⟨type, predicates⟩

/-- Factory `LogicalAggregateAndGroupBy::Make(columns, having)`. -/
def LogicalAggregateAndGroupBy.Make (columns : List AbstractExpression)
    (having : List AnnotatedExpression) : Operator :=
  Operator.AggregateAndGroupBy ⟨columns, having⟩

/-- Modelled from the spec: `OperatorNode`, an operator plus an ordered list
of owned child nodes (`operator_node.h` is not among the sources). -/
inductive OperatorNode where
  | mk (op : Operator) (children : List OperatorNode)

namespace OperatorNode

/-- Accessor `GetOp()`. -/
def GetOp : OperatorNode → Operator
  | .mk op _ => op

/-- Accessor `GetChildren()`. -/
def GetChildren : OperatorNode → List OperatorNode
  | .mk _ cs => cs

mutual
/-- Modelled from the spec: `OperatorNode::Copy`, the deep copy of a plan:
the operator is copied and every child is copied in order. -/
def Copy : OperatorNode → OperatorNode
  | .mk op cs => .mk op (CopyChildren cs)
/-- The loop of `Copy` over the child vector. -/
def CopyChildren : List OperatorNode → List OperatorNode
  | [] => []
  | c :: cs => Copy c :: CopyChildren cs
end

end OperatorNode

/-- Modelled from the spec: a memo `Group`, of which the rules read only the
covered table-alias set (`group.h` is not among the sources). -/
structure Group where
  table_aliases : Finset String

/-- Accessor `GetTableAliases()`. -/
def Group.GetTableAliases (g : Group) : Finset String := g.table_aliases

/-- Modelled from the spec: the `Memo`, the store of groups indexed by group
id (`memo.h` is not among the sources). -/
structure Memo where
  groups : List Group

/-- Modelled from the spec: `Memo::GetGroupByID`; an unknown id is a fatal
programmer error, embedded as `none`. -/
def Memo.GetGroupByID (memo : Memo) (id : group_id_t) : Option Group :=
  memo.groups[id]?

namespace OptimizerUtil

/-- Modelled from the spec: `OptimizerUtil::IsSubset(super_set, child_set)`
tells whether `child_set` is a subset of `super_set` (`util.h` is not among
the sources). -/
def IsSubset (super_set child_set : Finset String) : Bool :=
  decide (child_set ⊆ super_set)

end OptimizerUtil

/-- The check `TERRIER_ASSERT(condition, message)`: a failed assertion aborts
the call, which is the result `none`. -/
def TERRIER_ASSERT (condition : Bool) : Option Unit :=
  if condition then some () else none

/-- The three local vectors `left_predicates`, `right_predicates` and
`join_predicates` the filter-push rules fill. -/
structure PushDownLists where
  left_predicates : List AnnotatedExpression
  right_predicates : List AnnotatedExpression
  join_predicates : List AnnotatedExpression

/-- One iteration of the loop `for (auto &predicate : predicates)` of the
filter-push rules (rewrite_rules.cpp, lines 68-76, 163-171 and 172-180). -/
def PushDownStep (left_group_aliases_set right_group_aliases_set : Finset String)
    (lists : PushDownLists) (predicate : AnnotatedExpression) : PushDownLists :=
  if OptimizerUtil.IsSubset left_group_aliases_set predicate.GetTableAliasSet then
    { lists with left_predicates := lists.left_predicates ++ [predicate] }
  else if OptimizerUtil.IsSubset right_group_aliases_set predicate.GetTableAliasSet then
    { lists with right_predicates := lists.right_predicates ++ [predicate] }
  else
    { lists with join_predicates := lists.join_predicates ++ [predicate] }

/-- The loop `for (auto &predicate : predicates)` of the filter-push rules,
run from the given contents of the three vectors. -/
def PushDownLoop (left_group_aliases_set right_group_aliases_set : Finset String)
    (predicates : List AnnotatedExpression) (lists : PushDownLists) : PushDownLists :=
  predicates.foldl (PushDownStep left_group_aliases_set right_group_aliases_set) lists

/-- The block "Construct left filter if any" / "Construct right filter if
any" of the filter-push rules (rewrite_rules.cpp, lines 83-91, 94-102, 186-193
and 196-203): a Filter carrying `predicates` over a copy of `child` when
`predicates` is not empty, the copy of `child` otherwise. -/
def FilterBranch (predicates : List AnnotatedExpression) (child : OperatorNode) :
    OperatorNode :=
  if !predicates.isEmpty then
    OperatorNode.mk (LogicalFilter.Make predicates) [child.Copy]
  else child.Copy

namespace RewritePushImplicitFilterThroughJoin

/-- Embedding of `RewritePushImplicitFilterThroughJoin::Check`. -/
def Check (_plan : OperatorNode) : Bool := true

/-- Embedding of `RewritePushImplicitFilterThroughJoin::Transform`
(rewrite_rules.cpp, lines 42-112). -/
def Transform (input : OperatorNode) (transformed : List OperatorNode) (memo : Memo) :
    Option (List OperatorNode) := do
  let join_op_expr := input
  let join_children := join_op_expr.GetChildren
  let some left_leaf_node := join_children[0]? | none
  let some left_leaf := left_leaf_node.GetOp.AsLeafOperator | none
  let left_group_id := left_leaf.origin_group
  let some right_leaf_node := join_children[1]? | none
  let some right_leaf := right_leaf_node.GetOp.AsLeafOperator | none
  let right_group_id := right_leaf.origin_group
  let some left_group := memo.GetGroupByID left_group_id | none
  let left_group_aliases_set := left_group.GetTableAliases
  let some right_group := memo.GetGroupByID right_group_id | none
  let right_group_aliases_set := right_group.GetTableAliases
  let some join := input.GetOp.AsLogicalJoin | none
  -- join type should be Inner
  let some _ := TERRIER_ASSERT (decide (join.join_type = LogicalJoinType.INNER)) | none
  let predicates := join.join_predicates
  let lists := PushDownLoop left_group_aliases_set right_group_aliases_set predicates ⟨[], [], []⟩
  -- Construct left filter if any
  let some left_child := join_op_expr.GetChildren[0]? | none
  let left_branch := FilterBranch lists.left_predicates left_child
  -- Construct right filter if any
  let some right_child := join_op_expr.GetChildren[1]? | none
  let right_branch := FilterBranch lists.right_predicates right_child
  let pushed_down := !lists.left_predicates.isEmpty || !lists.right_predicates.isEmpty
  -- Only construct the output if either filter has been pushed down
  if pushed_down then
    let output := OperatorNode.mk (LogicalJoin.Make LogicalJoinType.INNER lists.join_predicates)
      [left_branch, right_branch]
    pure (transformed ++ [output])
  else
    pure transformed

end RewritePushImplicitFilterThroughJoin

namespace RewritePushExplicitFilterThroughJoin

/-- Embedding of `RewritePushExplicitFilterThroughJoin::Check`. -/
def Check (_plan : OperatorNode) : Bool := true

/-- Embedding of `RewritePushExplicitFilterThroughJoin::Transform`
(rewrite_rules.cpp, lines 136-210). -/
def Transform (input : OperatorNode) (transformed : List OperatorNode) (memo : Memo) :
    Option (List OperatorNode) := do
  let some join_op_expr := input.GetChildren[0]? | none
  let join_children := join_op_expr.GetChildren
  let some left_leaf_node := join_children[0]? | none
  let some left_leaf := left_leaf_node.GetOp.AsLeafOperator | none
  let left_group_id := left_leaf.origin_group
  let some right_leaf_node := join_children[1]? | none
  let some right_leaf := right_leaf_node.GetOp.AsLeafOperator | none
  let right_group_id := right_leaf.origin_group
  let some left_group := memo.GetGroupByID left_group_id | none
  let left_group_aliases_set := left_group.GetTableAliases
  let some right_group := memo.GetGroupByID right_group_id | none
  let right_group_aliases_set := right_group.GetTableAliases
  let some join := join_op_expr.GetOp.AsLogicalJoin | none
  -- join type should be Inner
  let some _ := TERRIER_ASSERT (decide (join.join_type = LogicalJoinType.INNER)) | none
  let input_join_predicates := join.join_predicates
  let some filter := input.GetOp.AsLogicalFilter | none
  let filter_predicates := filter.predicates
  let lists := PushDownLoop left_group_aliases_set right_group_aliases_set input_join_predicates
    ⟨[], [], []⟩
  let lists := PushDownLoop left_group_aliases_set right_group_aliases_set filter_predicates lists
  -- Construct left filter if any
  let some left_child := join_op_expr.GetChildren[0]? | none
  let left_branch := FilterBranch lists.left_predicates left_child
  -- Construct right filter if any
  let some right_child := join_op_expr.GetChildren[1]? | none
  let right_branch := FilterBranch lists.right_predicates right_child
  let output := OperatorNode.mk (LogicalJoin.Make LogicalJoinType.INNER lists.join_predicates)
    [left_branch, right_branch]
  pure (transformed ++ [output])

end RewritePushExplicitFilterThroughJoin

namespace RewritePushFilterThroughAggregation

/-- Embedding of `RewritePushFilterThroughAggregation::Check`. -/
def Check (_plan : OperatorNode) : Bool := true

/-- One iteration of the loop over the filter predicates (rewrite_rules.cpp,
lines 245-255): the pair is (`embedded_predicates`, `pushdown_predicates`). -/
def SplitStep (lists : List AnnotatedExpression × List AnnotatedExpression)
    (predicate : AnnotatedExpression) : List AnnotatedExpression × List AnnotatedExpression :=
  let aggr_exprs := ExpressionUtil.GetAggregateExprs [] predicate.GetExpr
  -- No aggr_expr in the predicate -- pushdown to evaluate
  if aggr_exprs.isEmpty then (lists.1, lists.2 ++ [predicate])
  else (lists.1 ++ [predicate], lists.2)

/-- Embedding of `RewritePushFilterThroughAggregation::Transform`
(rewrite_rules.cpp, lines 235-284). -/
def Transform (input : OperatorNode) (transformed : List OperatorNode) :
    Option (List OperatorNode) := do
  let some aggregation_node := input.GetChildren[0]? | none
  let some aggregation_op := aggregation_node.GetOp.AsLogicalAggregateAndGroupBy | none
  let some filter := input.GetOp.AsLogicalFilter | none
  let predicates := filter.predicates
  let lists := predicates.foldl SplitStep ([], [])
  let pushdown_predicates := lists.2
  -- Add original having predicates
  let embedded_predicates := aggregation_op.having.foldl (fun acc predicate => acc ++ [predicate])
    lists.1
  -- Original leaf
  let some leaf_node := aggregation_node.GetChildren[0]? | none
  let leaf := leaf_node.Copy
  -- Construct filter if needed
  let pushdown : Option OperatorNode :=
    if !pushdown_predicates.isEmpty then
      some (OperatorNode.mk (LogicalFilter.Make pushdown_predicates) [leaf])
    else none
  let cols := aggregation_op.columns
  let c :=
    match pushdown with
    | some node => [node]
    | none => [leaf]
  let output := OperatorNode.mk (LogicalAggregateAndGroupBy.Make cols embedded_predicates) c
  pure (transformed ++ [output])

end RewritePushFilterThroughAggregation

namespace LogicalInnerJoinCommutativity

/-- Embedding of `LogicalInnerJoinCommutativity::Check`. -/
def Check (_plan : OperatorNode) : Bool := true

/-- Embedding of `LogicalInnerJoinCommutativity::Transform`
(transformation_rules.cpp, lines 43-62). -/
def Transform (input : OperatorNode) (transformed : List OperatorNode) :
    Option (List OperatorNode) := do
  let some join_op := input.GetOp.AsLogicalJoin | none
  -- Join type should be Inner
  let some _ := TERRIER_ASSERT (decide (join_op.join_type = LogicalJoinType.INNER)) | none
  let join_predicates := join_op.join_predicates
  let children := input.GetChildren
  -- There should be two children
  let some _ := TERRIER_ASSERT (decide (children.length = 2)) | none
  let some child1 := children[1]? | none
  let some child0 := children[0]? | none
  let new_child := [child1.Copy, child0.Copy]
  let result_plan := OperatorNode.mk (LogicalJoin.Make LogicalJoinType.INNER join_predicates)
    new_child
  pure (transformed ++ [result_plan])

end LogicalInnerJoinCommutativity

namespace LogicalInnerJoinAssociativity

/-- Embedding of `LogicalInnerJoinAssociativity::Check`. -/
def Check (_plan : OperatorNode) : Bool := true

/-- One iteration of the loop redistributing the predicates
(transformation_rules.cpp, lines 132-138): the pair is
(`new_child_join_predicates`, `new_parent_join_predicates`). -/
def RedistributeStep (right_join_aliases_set : Finset String)
    (lists : List AnnotatedExpression × List AnnotatedExpression)
    (predicate : AnnotatedExpression) : List AnnotatedExpression × List AnnotatedExpression :=
  if OptimizerUtil.IsSubset right_join_aliases_set predicate.GetTableAliasSet then
    (lists.1 ++ [predicate], lists.2)
  else
    (lists.1, lists.2 ++ [predicate])

/-- Embedding of `LogicalInnerJoinAssociativity::Transform`
(transformation_rules.cpp, lines 89-155). -/
def Transform (input : OperatorNode) (transformed : List OperatorNode) (memo : Memo) :
    Option (List OperatorNode) := do
  let some parent_join := input.GetOp.AsLogicalJoin | none
  -- Join type should be Inner
  let some _ := TERRIER_ASSERT (decide (parent_join.join_type = LogicalJoinType.INNER)) | none
  let children := input.GetChildren
  -- There should be 2 children
  let some _ := TERRIER_ASSERT (decide (children.length = 2)) | none
  let some child_node := children[0]? | none
  -- Left should be join; Left should be inner join
  let some child_join := child_node.GetOp.AsLogicalJoin | none
  let some _ := TERRIER_ASSERT (decide (child_join.join_type = LogicalJoinType.INNER)) | none
  -- Left join should have 2 children
  let some _ := TERRIER_ASSERT (decide (child_node.GetChildren.length = 2)) | none
  let some left := child_node.GetChildren[0]? | none
  let some middle := child_node.GetChildren[1]? | none
  let some right := children[1]? | none
  -- Get Alias sets
  let some middle_leaf := middle.GetOp.AsLeafOperator | none
  let middle_group_id := middle_leaf.origin_group
  let some right_leaf := right.GetOp.AsLeafOperator | none
  let right_group_id := right_leaf.origin_group
  let some middle_group := memo.GetGroupByID middle_group_id | none
  let middle_group_aliases_set := middle_group.GetTableAliases
  let some right_group := memo.GetGroupByID right_group_id | none
  let right_group_aliases_set := right_group.GetTableAliases
  -- Union Predicates into single alias set for new child join
  let right_join_aliases_set : Finset String := ∅
  let right_join_aliases_set := right_join_aliases_set ∪ middle_group_aliases_set
  let right_join_aliases_set := right_join_aliases_set ∪ right_group_aliases_set
  -- Redistribute predicates
  let predicates : List AnnotatedExpression := []
  let predicates := predicates ++ parent_join.join_predicates
  let predicates := predicates ++ child_join.join_predicates
  let lists := predicates.foldl (RedistributeStep right_join_aliases_set) ([], [])
  let new_child_join_predicates := lists.1
  let new_parent_join_predicates := lists.2
  -- Construct new child join operator
  let new_child_join := OperatorNode.mk
    (LogicalJoin.Make LogicalJoinType.INNER new_child_join_predicates) [middle.Copy, right.Copy]
  -- Construct new parent join operator
  let new_parent_join := OperatorNode.mk
    (LogicalJoin.Make LogicalJoinType.INNER new_parent_join_predicates)
    [left.Copy, new_child_join]
  pure (transformed ++ [new_parent_join])

end LogicalInnerJoinAssociativity

/-- Factory `LogicalGet::Make(database_oid, namespace_oid, table_oid,
predicates, table_alias, is_for_update)`. -/
def LogicalGet.Make (database_oid namespace_oid table_oid : Nat)
    (predicates : List AnnotatedExpression) (table_alias : String) (is_for_update : Bool) :
    Operator :=
  Operator.Get ⟨database_oid, namespace_oid, table_oid, predicates, table_alias, is_for_update⟩

/-- Modelled from the spec: the operator kinds a rule pattern names
(`OpType`, declared in a header that is not among the sources), restricted to
the kinds the rules of this development use. -/
inductive OpType where
  | LEAF
  | LOGICALGET
  | LOGICALFILTER
  | LOGICALJOIN
  | LOGICALAGGREGATEANDGROUPBY
  deriving DecidableEq, Repr

/-- Accessor `Operator::GetType()`. -/
def Operator.GetType : Operator → OpType
  | .Leaf _ => OpType.LEAF
  | .Get _ => OpType.LOGICALGET
  | .Filter _ => OpType.LOGICALFILTER
  | .Join _ => OpType.LOGICALJOIN
  | .AggregateAndGroupBy _ => OpType.LOGICALAGGREGATEANDGROUPBY

/-- Modelled from the spec: a rule `Pattern`, a tree of operator kinds
terminated by `LEAF`s (`pattern.h` is not among the sources). -/
inductive Pattern where
  | mk (type : OpType) (children : List Pattern)

/-- Method `Pattern::AddChild(child)`: appends a child pattern. -/
def Pattern.AddChild : Pattern → Pattern → Pattern
  | .mk type children, child => .mk type (children ++ [child])

mutual
/-- Modelled from the spec: pattern matching (section 4.2).  The root operator
kind must match, and the plan must have one child per child pattern, each
matching in turn; the pattern `LEAF` matches any subplan. -/
def Pattern.Matches : Pattern → OperatorNode → Bool
  | .mk type children, node =>
    if type = OpType.LEAF then true
    else decide (node.GetOp.GetType = type) && Pattern.MatchesChildren children node.GetChildren
/-- Matching of the child patterns against the children, slot by slot. -/
def Pattern.MatchesChildren : List Pattern → List OperatorNode → Bool
  | [], nodes => nodes.isEmpty
  | p :: ps, nodes =>
    match nodes with
    | [] => false
    | n :: ns => Pattern.Matches p n && Pattern.MatchesChildren ps ns
end

namespace RewriteCombineConsecutiveFilter

/-- The pattern built by the constructor `RewriteCombineConsecutiveFilter()`
(rewrite_rules.cpp, lines 289-297): Filter(Filter(LEAF)). -/
def match_pattern : Pattern :=
  let match_pattern_ := Pattern.mk OpType.LOGICALFILTER []
  let child := Pattern.mk OpType.LOGICALFILTER []
  let child := child.AddChild (Pattern.mk OpType.LEAF [])
  match_pattern_.AddChild child

/-- Embedding of `RewriteCombineConsecutiveFilter::Check`. -/
def Check (_plan : OperatorNode) : Bool := true

/-- Embedding of `RewriteCombineConsecutiveFilter::Transform`
(rewrite_rules.cpp, lines 306-319). -/
def Transform (input : OperatorNode) (transformed : List OperatorNode) :
    Option (List OperatorNode) := do
  let some child_filter := input.GetChildren[0]? | none
  let some root_filter := input.GetOp.AsLogicalFilter | none
  let root_predicates := root_filter.predicates
  let some child_filter_op := child_filter.GetOp.AsLogicalFilter | none
  let child_predicates := child_filter_op.predicates
  let root_predicates := root_predicates ++ child_predicates
  let some grandchild := child_filter.GetChildren[0]? | none
  let child := grandchild.Copy
  let output := OperatorNode.mk (LogicalFilter.Make root_predicates) [child]
  pure (transformed ++ [output])

/-- Modelled from the spec: one application of the rule at the root of a plan
(section 4.2; the rule engine is not among the sources).  When the plan matches
the pattern of the rule and `Check` accepts it, the plan is replaced by the
plan `Transform` emits; a plan that does not match, or for which `Transform`
emits nothing, is kept. -/
def ApplyAtRoot (plan : OperatorNode) : OperatorNode :=
  if match_pattern.Matches plan && Check plan then
    match Transform plan [] with
    | some (new_plan :: _) => new_plan
    | _ => plan
  else plan

mutual
/-- Modelled from the spec: the rule applied to a whole plan, children first
and then the root (the rewrite driver is not among the sources). -/
def Apply : OperatorNode → OperatorNode
  | .mk op cs => ApplyAtRoot (.mk op (ApplyChildren cs))
/-- The rule applied to every plan of a child list. -/
def ApplyChildren : List OperatorNode → List OperatorNode
  | [] => []
  | c :: cs => Apply c :: ApplyChildren cs
end

end RewriteCombineConsecutiveFilter

namespace RewriteEmbedFilterIntoGet

/-- The pattern built by the constructor `RewriteEmbedFilterIntoGet()`
(rewrite_rules.cpp, lines 324-331): Filter(Get). -/
def match_pattern : Pattern :=
  let match_pattern_ := Pattern.mk OpType.LOGICALFILTER []
  let child := Pattern.mk OpType.LOGICALGET []
  match_pattern_.AddChild child

/-- Embedding of `RewriteEmbedFilterIntoGet::Check`. -/
def Check (_plan : OperatorNode) : Bool := true

/-- Embedding of `RewriteEmbedFilterIntoGet::Transform` (rewrite_rules.cpp,
lines 339-351). -/
def Transform (input : OperatorNode) (transformed : List OperatorNode) :
    Option (List OperatorNode) := do
  let some get_node := input.GetChildren[0]? | none
  let some get := get_node.GetOp.AsLogicalGet | none
  let tbl_alias := get.table_alias
  let some filter := input.GetOp.AsLogicalFilter | none
  let predicates := filter.predicates
  let c : List OperatorNode := []
  let output := OperatorNode.mk
    (LogicalGet.Make get.database_oid get.namespace_oid get.table_oid predicates tbl_alias
      get.is_for_update) c
  pure (transformed ++ [output])

end RewriteEmbedFilterIntoGet

namespace RewritePullFilterThroughMarkJoin

/-- The pattern built by the constructor `RewritePullFilterThroughMarkJoin()`
(rewrite_rules.cpp, lines 356-364): Join(LEAF, Filter(LEAF)). -/
def match_pattern : Pattern :=
  let match_pattern_ := Pattern.mk OpType.LOGICALJOIN []
  let match_pattern_ := match_pattern_.AddChild (Pattern.mk OpType.LEAF [])
  let filter := Pattern.mk OpType.LOGICALFILTER []
  let filter := filter.AddChild (Pattern.mk OpType.LEAF [])
  match_pattern_.AddChild filter

/-- Embedding of `RewritePullFilterThroughMarkJoin::Check` (rewrite_rules.cpp,
lines 370-381). -/
def Check (plan : OperatorNode) : Option Bool := do
  let children := plan.GetChildren
  -- MarkJoin should have two children
  let some _ := TERRIER_ASSERT (decide (children.length = 2)) | none
  let some child0 := children[0]? | none
  let r_grandchildren := child0.GetChildren
  -- Filter should have only 1 child
  let some _ := TERRIER_ASSERT (decide (r_grandchildren.length = 1)) | none
  pure true

/-- Embedding of `RewritePullFilterThroughMarkJoin::Transform`
(rewrite_rules.cpp, lines 383-403). -/
def Transform (input : OperatorNode) (transformed : List OperatorNode) :
    Option (List OperatorNode) := do
  let some mark_join := input.GetOp.AsLogicalJoin | none
  -- Join type should be Mark
  let some _ := TERRIER_ASSERT (decide (mark_join.join_type = LogicalJoinType.MARK)) | none
  -- MarkJoin should have zero children
  let some _ := TERRIER_ASSERT mark_join.join_predicates.isEmpty | none
  let join_children := input.GetChildren
  let some filter_node := join_children[1]? | none
  let filter_children := filter_node.GetChildren
  let some left := join_children[0]? | none
  let some filter_child := filter_children[0]? | none
  let c := [left.Copy, filter_child.Copy]
  let join := OperatorNode.mk input.GetOp c
  let cc := [join]
  let output := OperatorNode.mk filter_node.GetOp cc
  pure (transformed ++ [output])

end RewritePullFilterThroughMarkJoin

namespace RewritePullFilterThroughAggregation

/-- The pattern built by the constructor
`RewritePullFilterThroughAggregation()` (rewrite_rules.cpp, lines 408-415):
AggregateAndGroupBy(Filter(LEAF)). -/
def match_pattern : Pattern :=
  let filter := Pattern.mk OpType.LOGICALFILTER []
  let filter := filter.AddChild (Pattern.mk OpType.LEAF [])
  let match_pattern_ := Pattern.mk OpType.LOGICALAGGREGATEANDGROUPBY []
  match_pattern_.AddChild filter

/-- Embedding of `RewritePullFilterThroughAggregation::Check`
(rewrite_rules.cpp, lines 421-432). -/
def Check (plan : OperatorNode) : Option Bool := do
  let children := plan.GetChildren
  -- AggregateAndGroupBy should have 1 child
  let some _ := TERRIER_ASSERT (decide (children.length = 1)) | none
  let some child1 := children[1]? | none
  let r_grandchildren := child1.GetChildren
  -- Filter should have 1 child
  let some _ := TERRIER_ASSERT (decide (r_grandchildren.length = 1)) | none
  pure true

/-- The three local vectors `correlated_predicates`, `normal_predicates` and
`new_groupby_cols` of the rule. -/
structure PullLists where
  correlated_predicates : List AnnotatedExpression
  normal_predicates : List AnnotatedExpression
  new_groupby_cols : List AbstractExpression

/-- The expression a correlated predicate adds to `new_groupby_cols`
(rewrite_rules.cpp, lines 454-459): child 1 when the depth of child 0 is less
than the depth of the predicate, child 0 otherwise. -/
def NewGroupByCol (root_expr : AbstractExpression) : Option AbstractExpression :=
  match root_expr.GetChild 0 with
  | none => none
  | some child0 =>
    if child0.GetDepth < root_expr.GetDepth then root_expr.GetChild 1
    else root_expr.GetChild 0

/-- One iteration of the loop over the filter predicates (rewrite_rules.cpp,
lines 447-461). -/
def PullStep (child_group_aliases_set : Finset String) (lists : PullLists)
    (predicate : AnnotatedExpression) : Option PullLists :=
  if OptimizerUtil.IsSubset child_group_aliases_set predicate.GetTableAliasSet then
    some { lists with normal_predicates := lists.normal_predicates ++ [predicate] }
  else
    -- Correlated predicate, already in the form of (outer_relation.a = (expr))
    let root_expr := predicate.GetExpr
    match NewGroupByCol root_expr with
    | none => none
    | some col =>
      some { lists with
        correlated_predicates := lists.correlated_predicates ++ [predicate]
        new_groupby_cols := lists.new_groupby_cols ++ [col] }

/-- The loop over the filter predicates (rewrite_rules.cpp, lines 447-461),
run from the given contents of the three vectors. -/
def PullLoop (child_group_aliases_set : Finset String) :
    List AnnotatedExpression → PullLists → Option PullLists
  | [], lists => some lists
  | predicate :: predicates, lists =>
    match PullStep child_group_aliases_set lists predicate with
    | none => none
    | some lists => PullLoop child_group_aliases_set predicates lists

/-- Embedding of `RewritePullFilterThroughAggregation::Transform`
(rewrite_rules.cpp, lines 434-491). -/
def Transform (input : OperatorNode) (transformed : List OperatorNode) (memo : Memo) :
    Option (List OperatorNode) := do
  let some filter_expr := input.GetChildren[0]? | none
  let some leaf_node := filter_expr.GetChildren[0]? | none
  let some leaf := leaf_node.GetOp.AsLeafOperator | none
  let child_group_id := leaf.origin_group
  let some child_group := memo.GetGroupByID child_group_id | none
  let child_group_aliases_set := child_group.GetTableAliases
  let some filter := filter_expr.GetOp.AsLogicalFilter | none
  let predicates := filter.predicates
  let some lists := PullLoop child_group_aliases_set predicates ⟨[], [], []⟩ | none
  if lists.correlated_predicates.isEmpty then
    -- No need to pull
    pure transformed
  else
    let some aggregation := input.GetOp.AsLogicalAggregateAndGroupBy | none
    let new_groupby_cols := aggregation.columns.foldl (fun acc col => acc ++ [col])
      lists.new_groupby_cols
    let some aggr_child_node := filter_expr.GetChildren[0]? | none
    let aggr_child := aggr_child_node.Copy
    let aggr_child :=
      if !lists.normal_predicates.isEmpty then
        OperatorNode.mk (LogicalFilter.Make lists.normal_predicates) [aggr_child]
      else aggr_child
    let c := [aggr_child]
    let new_having := aggregation.having
    let new_aggr := OperatorNode.mk
      (LogicalAggregateAndGroupBy.Make new_groupby_cols new_having) c
    let ca := [new_aggr]
    let output := OperatorNode.mk (LogicalFilter.Make lists.correlated_predicates) ca
    pure (transformed ++ [output])

end RewritePullFilterThroughAggregation

/-- The pattern built by the constructor
`RewritePushImplicitFilterThroughJoin()` (rewrite_rules.cpp, lines 26-33):
Join(LEAF, LEAF). -/
def RewritePushImplicitFilterThroughJoin.match_pattern : Pattern :=
  -- Make join for pattern matching
  let match_pattern_ := Pattern.mk OpType.LOGICALJOIN []
  let match_pattern_ := match_pattern_.AddChild (Pattern.mk OpType.LEAF [])
  match_pattern_.AddChild (Pattern.mk OpType.LEAF [])

/-- The pattern built by the constructor
`RewritePushExplicitFilterThroughJoin()` (rewrite_rules.cpp, lines 117-127):
Filter(Join(LEAF, LEAF)). -/
def RewritePushExplicitFilterThroughJoin.match_pattern : Pattern :=
  -- Make join for pattern matching
  let join_pattern := Pattern.mk OpType.LOGICALJOIN []
  let join_pattern := join_pattern.AddChild (Pattern.mk OpType.LEAF [])
  let join_pattern := join_pattern.AddChild (Pattern.mk OpType.LEAF [])
  let match_pattern_ := Pattern.mk OpType.LOGICALFILTER []
  match_pattern_.AddChild join_pattern

/-- The pattern built by the constructor
`RewritePushFilterThroughAggregation()` (rewrite_rules.cpp, lines 215-226):
Filter(AggregateAndGroupBy(LEAF)). -/
def RewritePushFilterThroughAggregation.match_pattern : Pattern :=
  let child := Pattern.mk OpType.LOGICALAGGREGATEANDGROUPBY []
  let child := child.AddChild (Pattern.mk OpType.LEAF [])
  -- Initialize a pattern for optimizer to match
  let match_pattern_ := Pattern.mk OpType.LOGICALFILTER []
  -- Add node - we match (filter)->(aggregation)->(leaf)
  match_pattern_.AddChild child

/-- The pattern built by the constructor `LogicalInnerJoinCommutativity()`
(transformation_rules.cpp, lines 26-34): Join(LEAF, LEAF). -/
def LogicalInnerJoinCommutativity.match_pattern : Pattern :=
  let left_child := Pattern.mk OpType.LEAF []
  let right_child := Pattern.mk OpType.LEAF []
  let match_pattern_ := Pattern.mk OpType.LOGICALJOIN []
  let match_pattern_ := match_pattern_.AddChild left_child
  match_pattern_.AddChild right_child

/-- The pattern built by the constructor `LogicalInnerJoinAssociativity()`
(transformation_rules.cpp, lines 67-80): Join(Join(LEAF, LEAF), LEAF). -/
def LogicalInnerJoinAssociativity.match_pattern : Pattern :=
  -- Create left nested join
  let left_child := Pattern.mk OpType.LOGICALJOIN []
  let left_child := left_child.AddChild (Pattern.mk OpType.LEAF [])
  let left_child := left_child.AddChild (Pattern.mk OpType.LEAF [])
  let right_child := Pattern.mk OpType.LEAF []
  let match_pattern_ := Pattern.mk OpType.LOGICALJOIN []
  let match_pattern_ := match_pattern_.AddChild left_child
  match_pattern_.AddChild right_child

/-! ## The child property deriver (`child_property_deriver.cpp`) -/

/-- Modelled from the spec: the direction of a sort column
(`planner::OrderByOrderingType`, declared in a header that is not among the
sources). -/
inductive OrderByOrderingType where
  | ASC
  | DESC
  deriving DecidableEq, Repr

/-- Modelled from the spec: the property `Sort(columns[], ascending[])`
(`properties.h` is not among the sources). -/
structure PropertySort where
  sort_columns : List AbstractExpression
  sort_ascending : List OrderByOrderingType

/-- Modelled from the spec: the kinds of property, of which the only
intrinsic one is the sort. -/
inductive PropertyType where
  | SORT
  deriving DecidableEq, Repr

/-- Modelled from the spec: a `Property`, a tagged variant whose only
intrinsic kind is the sort. -/
inductive Property where
  | Sort (sort : PropertySort)

/-- Accessor `Property::Type()`. -/
def Property.Type : Property → PropertyType
  | .Sort _ => PropertyType.SORT

/-- Cast `As<PropertySort>()`. -/
def Property.AsPropertySort : Property → Option PropertySort
  | .Sort sort => some sort

/-- Modelled from the spec: a `PropertySet`, a collection of properties
(`property_set.h` is not among the sources); `new PropertySet()` is the set
without properties. -/
structure PropertySet where
  properties : List Property

namespace PropertySet

/-- Accessor `Properties()`. -/
def Properties (set : PropertySet) : List Property := set.properties

/-- Modelled from the spec: `PropertySet::Copy`, a copy holding copies of the
same properties. -/
def Copy (set : PropertySet) : PropertySet := ⟨set.properties⟩

/-- Modelled from the spec: `PropertySet::AddProperty`, adding a property to
the set. -/
def AddProperty (set : PropertySet) (property : Property) : PropertySet :=
  ⟨set.properties ++ [property]⟩

end PropertySet

/-- Modelled from the spec: the physical operator kinds for which
`ChildPropertyDeriver` defines a `Visit`, each with the payload the deriver
reads (`physical_operators.h` is not among the sources). -/
inductive PhysicalOperator where
  | SeqScan
  | IndexScan (namespace_oid : Nat) (table_alias : String)
  | ExternalFileScan
  | QueryDerivedScan
  | HashGroupBy
  | SortGroupBy (columns : List AbstractExpression)
  | Aggregate
  | Limit (sort_exprs : List AbstractExpression) (sort_ascending : List OrderByOrderingType)
  | Distinct
  | OrderBy
  | InnerNLJoin
  | LeftNLJoin
  | RightNLJoin
  | OuterNLJoin
  | InnerHashJoin
  | LeftHashJoin
  | RightHashJoin
  | OuterHashJoin
  | Insert
  | InsertSelect
  | Update
  | Delete
  | TableFreeScan
  | ExportExternalFile

/-- Modelled from the spec: a `GroupExpression`, an operator plus an ordered
list of child group ids (`group_expression.h` is not among the sources). -/
structure GroupExpression where
  op : PhysicalOperator
  child_groups : List group_id_t

/-- Accessor `GroupExpression::GetChildGroupId(idx)`; an index past the end
is the result `none`. -/
def GroupExpression.GetChildGroupId (gexpr : GroupExpression) (idx : Nat) :
    Option group_id_t :=
  gexpr.child_groups[idx]?

/-- Modelled from the spec: the catalog capability the deriver consumes,
`GetTableOid(namespace, alias)` and `GetIndexes(table_oid)`
(`catalog_accessor.h` is not among the sources). -/
structure CatalogAccessor where
  GetTableOid : Nat → String → Nat
  GetIndexes : Nat → List Nat

/-- The functions the deriver calls whose declarations are not among the
sources, taken as parameters: `IndexUtil::CheckSortProperty`,
`IndexUtil::SatisfiesSortWithIndex(sort_prop, tbl_id, index, accessor)` and
`ColumnValueExpression::GetTableName`. -/
structure DeriverCollaborators where
  CheckSortProperty : PropertySort → Bool
  SatisfiesSortWithIndex : PropertySort → Nat → Nat → CatalogAccessor → Bool
  GetTableName : AbstractExpression → String

/-- Modelled from the spec: `dynamic_cast<const ColumnValueExpression *>`,
which succeeds exactly on the column references; `none` is the null
pointer. -/
def AsColumnValueExpression (expr : AbstractExpression) : Option AbstractExpression :=
  if expr.GetExpressionType = ExpressionType.COLUMN_VALUE then some expr else none

/-- An entry of the output of the deriver: a provided property set and the
property sets required of each child. -/
abbrev PropertyEntry := PropertySet × List PropertySet

/-- The fields of a `ChildPropertyDeriver` object; a pointer field not yet
assigned is `none`. -/
structure ChildPropertyDeriver where
  requirements_ : Option PropertySet
  output_ : List PropertyEntry
  memo_ : Option Memo
  gexpr_ : Option GroupExpression
  accessor_ : Option CatalogAccessor

namespace ChildPropertyDeriver

/-- The loop `for (auto &index : tbl_indexes)` of `Visit(const IndexScan *)`
(child_property_deriver.cpp, lines 47-53): whether it appends an entry. -/
def IndexLoop (collaborators : DeriverCollaborators) (accessor : CatalogAccessor)
    (sort_prop : PropertySort) (tbl_id : Nat) : List Nat → Bool
  | [] => false
  | index :: tbl_indexes =>
    if collaborators.SatisfiesSortWithIndex sort_prop tbl_id index accessor then true
    else IndexLoop collaborators accessor sort_prop tbl_id tbl_indexes

/-- One iteration of the loop over the required properties of
`Visit(const IndexScan *)` (child_property_deriver.cpp, lines 38-55). -/
def IndexScanStep (collaborators : DeriverCollaborators) (accessor : CatalogAccessor)
    (requirements : PropertySet) (tbl_id : Nat) (tbl_indexes : List Nat)
    (output : List PropertyEntry) (prop : Property) : Option (List PropertyEntry) :=
  if prop.Type = PropertyType.SORT then
    match prop.AsPropertySort with
    | none => none
    | some sort_prop =>
      if !collaborators.CheckSortProperty sort_prop then some output
      else if IndexLoop collaborators accessor sort_prop tbl_id tbl_indexes then
        some (output ++ [(requirements.Copy, [])])
      else some output
  else some output

/-- The loop over the required properties of `Visit(const IndexScan *)`. -/
def IndexScanLoop (collaborators : DeriverCollaborators) (accessor : CatalogAccessor)
    (requirements : PropertySet) (tbl_id : Nat) (tbl_indexes : List Nat) :
    List Property → List PropertyEntry → Option (List PropertyEntry)
  | [], output => some output
  | prop :: props, output =>
    match IndexScanStep collaborators accessor requirements tbl_id tbl_indexes output prop with
    | none => none
    | some output =>
      IndexScanLoop collaborators accessor requirements tbl_id tbl_indexes props output

/-- The loop `for (auto &expr : tuples)` of `DeriveForJoin`
(child_property_deriver.cpp, lines 176-186): the value of `can_pass_down`
after it; a failed `TERRIER_ASSERT(tv_expr)` is `none`. -/
def TupleLoop (collaborators : DeriverCollaborators) (probe_group : Group) :
    List AbstractExpression → Option Bool
  | [] => some true
  | expr :: tuples =>
    match AsColumnValueExpression expr with
    | none => none
    | some tv_expr =>
      -- If a column is not in the prob table, we cannot fulfill the sort
      -- property in the requirement
      if collaborators.GetTableName tv_expr ∉ probe_group.GetTableAliases then some false
      else TupleLoop collaborators probe_group tuples

/-- The loop over the sort columns of `DeriveForJoin`
(child_property_deriver.cpp, lines 173-191): the value of `can_pass_down`
after it. -/
def SortColumnLoop (collaborators : DeriverCollaborators) (probe_group : Group) :
    List AbstractExpression → Option Bool
  | [] => some true
  | sort_column :: sort_columns =>
    let tuples := ExpressionUtil.GetTupleValueExprs [] sort_column
    match TupleLoop collaborators probe_group tuples with
    | none => none
    | some false => some false
    | some true => SortColumnLoop collaborators probe_group sort_columns

/-- One iteration of the loop over the required properties of `DeriveForJoin`
(child_property_deriver.cpp, lines 166-198); `memo_` and `gexpr_` are the
pointer fields of the deriver, dereferenced for a sort property only. -/
def DeriveForJoinStep (collaborators : DeriverCollaborators) (requirements : PropertySet)
    (memo_ : Option Memo) (gexpr_ : Option GroupExpression) (output : List PropertyEntry)
    (prop : Property) : Option (List PropertyEntry) := do
  if prop.Type = PropertyType.SORT then
    let some sort_prop := prop.AsPropertySort | none
    let some gexpr := gexpr_ | none
    let some probe_group_id := gexpr.GetChildGroupId 1 | none
    let some memo := memo_ | none
    let some probe_group := memo.GetGroupByID probe_group_id | none
    let some can_pass_down :=
      SortColumnLoop collaborators probe_group sort_prop.sort_columns | none
    if can_pass_down then
      let children := [PropertySet.mk [], requirements.Copy]
      pure (output ++ [(requirements.Copy, children)])
    else pure output
  else pure output

/-- The loop over the required properties of `DeriveForJoin`. -/
def DeriveForJoinLoop (collaborators : DeriverCollaborators) (requirements : PropertySet)
    (memo_ : Option Memo) (gexpr_ : Option GroupExpression) :
    List Property → List PropertyEntry → Option (List PropertyEntry)
  | [], output => some output
  | prop :: props, output =>
    match DeriveForJoinStep collaborators requirements memo_ gexpr_ output prop with
    | none => none
    | some output => DeriveForJoinLoop collaborators requirements memo_ gexpr_ props output

/-- Embedding of `ChildPropertyDeriver::DeriveForJoin`
(child_property_deriver.cpp, lines 161-199). -/
def DeriveForJoin (collaborators : DeriverCollaborators) (deriver : ChildPropertyDeriver) :
    Option ChildPropertyDeriver := do
  let output := deriver.output_ ++
    [(PropertySet.mk [], [PropertySet.mk [], PropertySet.mk []])]
  -- If there is sort property and all the sort columns are from the probe
  -- table (currently right table), we can push down the sort property
  let some requirements := deriver.requirements_ | none
  let some output :=
    DeriveForJoinLoop collaborators requirements deriver.memo_ deriver.gexpr_
      requirements.Properties output | none
  pure { deriver with output_ := output }

/-- Embedding of `ChildPropertyDeriver::Visit(const IndexScan *)`
(child_property_deriver.cpp, lines 33-61). -/
def VisitIndexScan (collaborators : DeriverCollaborators) (deriver : ChildPropertyDeriver)
    (namespace_oid : Nat) (table_alias : String) : Option ChildPropertyDeriver := do
  -- Use GetIndexes() to get all indexes on table_alias
  let some accessor := deriver.accessor_ | none
  let tbl_id := accessor.GetTableOid namespace_oid table_alias
  let tbl_indexes := accessor.GetIndexes tbl_id
  let some requirements := deriver.requirements_ | none
  let some output :=
    IndexScanLoop collaborators accessor requirements tbl_id tbl_indexes
      requirements.Properties deriver.output_ | none
  if output.isEmpty then
    -- No index can be used, so output provides no properties
    pure { deriver with output_ := output ++ [(PropertySet.mk [], [])] }
  else
    pure { deriver with output_ := output }

/-- Embedding of the `Visit` overloads that pass the requirement through to
one child: Distinct, InsertSelect, Update, Delete and ExportExternalFile
(child_property_deriver.cpp, lines 110-114, 132-148 and 155-159), and
QueryDerivedScan (lines 68-72). -/
def VisitPassThrough (deriver : ChildPropertyDeriver) : Option ChildPropertyDeriver := do
  -- Let child fulfil all the required properties
  let some requirements := deriver.requirements_ | none
  let child_input_properties := [requirements.Copy]
  pure { deriver with
    output_ := deriver.output_ ++ [(requirements.Copy, child_input_properties)] }

/-- Embedding of the dispatch `gexpr->Op().Accept(this)` to the `Visit`
overloads of `ChildPropertyDeriver` (child_property_deriver.cpp, lines
28-159). -/
def Visit (collaborators : DeriverCollaborators) (deriver : ChildPropertyDeriver) :
    PhysicalOperator → Option ChildPropertyDeriver
  | .SeqScan =>
    -- Seq Scan does not provide any property
    some { deriver with output_ := deriver.output_ ++ [(PropertySet.mk [], [])] }
  | .IndexScan namespace_oid table_alias =>
    VisitIndexScan collaborators deriver namespace_oid table_alias
  | .ExternalFileScan =>
    -- External file scans (like sequential scans) do not provide properties
    some { deriver with output_ := deriver.output_ ++ [(PropertySet.mk [], [])] }
  | .QueryDerivedScan => VisitPassThrough deriver
  | .HashGroupBy =>
    some { deriver with
      output_ := deriver.output_ ++ [(PropertySet.mk [], [PropertySet.mk []])] }
  | .SortGroupBy columns =>
    -- Child must provide sort for Groupby columns
    let sort_ascending := List.replicate columns.length OrderByOrderingType.ASC
    let sort_prop := Property.Sort ⟨columns, sort_ascending⟩
    let prop_set := PropertySet.mk [sort_prop]
    some { deriver with output_ := deriver.output_ ++ [(prop_set, [prop_set.Copy])] }
  | .Aggregate =>
    some { deriver with
      output_ := deriver.output_ ++ [(PropertySet.mk [], [PropertySet.mk []])] }
  | .Limit sort_exprs sort_ascending =>
    -- Limit fulfill the internal sort property
    let child_input_properties := [PropertySet.mk []]
    let provided_prop := PropertySet.mk []
    let provided_prop :=
      if !sort_exprs.isEmpty then
        provided_prop.AddProperty (Property.Sort ⟨sort_exprs, sort_ascending⟩)
      else provided_prop
    some { deriver with output_ := deriver.output_ ++ [(provided_prop, child_input_properties)] }
  | .Distinct => VisitPassThrough deriver
  | .OrderBy => some deriver
  | .InnerNLJoin => DeriveForJoin collaborators deriver
  | .LeftNLJoin => some deriver
  | .RightNLJoin => some deriver
  | .OuterNLJoin => some deriver
  | .InnerHashJoin => DeriveForJoin collaborators deriver
  | .LeftHashJoin => some deriver
  | .RightHashJoin => some deriver
  | .OuterHashJoin => some deriver
  | .Insert =>
    match deriver.requirements_ with
    | none => none
    | some requirements =>
      some { deriver with output_ := deriver.output_ ++ [(requirements.Copy, [])] }
  | .InsertSelect => VisitPassThrough deriver
  | .Update => VisitPassThrough deriver
  | .Delete => VisitPassThrough deriver
  | .TableFreeScan =>
    -- Provide nothing
    some { deriver with output_ := deriver.output_ ++ [(PropertySet.mk [], [])] }
  | .ExportExternalFile => VisitPassThrough deriver

/-- Embedding of `ChildPropertyDeriver::GetProperties`
(child_property_deriver.cpp, lines 17-26): the returned vector and the
deriver after the call, whose `output_` has been moved from and is empty. -/
def GetProperties (collaborators : DeriverCollaborators) (deriver : ChildPropertyDeriver)
    (gexpr : GroupExpression) (requirements : PropertySet) (memo : Memo)
    (accessor : CatalogAccessor) : Option (List PropertyEntry × ChildPropertyDeriver) := do
  let deriver := { deriver with requirements_ := some requirements }
  let deriver := { deriver with output_ := [] }
  let deriver := { deriver with memo_ := some memo }
  let deriver := { deriver with gexpr_ := some gexpr }
  let deriver := { deriver with accessor_ := some accessor }
  let some deriver := Visit collaborators deriver gexpr.op | none
  pure (deriver.output_, { deriver with output_ := [] })

end ChildPropertyDeriver

/-- The predicates held by one operator: Get predicates, Filter predicates,
join predicates, HAVING predicates; a leaf holds none. -/
def Operator.predicates : Operator → List AnnotatedExpression
  | .Leaf _ => []
  | .Get op => op.predicates
  | .Filter op => op.predicates
  | .Join op => op.join_predicates
  | .AggregateAndGroupBy op => op.having

mutual
/-- The predicates held by the operators of a plan, in pre-order. -/
def OperatorNode.planPredicates : OperatorNode → List AnnotatedExpression
  | .mk op cs => op.predicates ++ OperatorNode.planPredicatesOfChildren cs
/-- The predicates held by the operators of a list of plans. -/
def OperatorNode.planPredicatesOfChildren : List OperatorNode → List AnnotatedExpression
  | [] => []
  | c :: cs => OperatorNode.planPredicates c ++ OperatorNode.planPredicatesOfChildren cs
end

/-- A pattern leaf bound to group `g`: a `LeafOperator` node without children. -/
def LeafNode (g : group_id_t) : OperatorNode :=
  OperatorNode.mk (Operator.Leaf ⟨g⟩) []

/-! ## Column statistics (`column_stats.h`) -/

/-- The type `double` of the code: an IEEE 754 binary64 number.  A finite
value is held as the rational number it denotes; the rationals are a superset
of the finite doubles, and every operation of the embedding returns a rounded
result.  The sign of a zero is not represented (it is observed by no
operation of the embedding other than a division by zero, and the only
divisor the code forms is the conversion of a `size_t`, a positive zero). -/
inductive Double where
  | finite (value : ℚ)
  | pos_inf
  | neg_inf
  | nan
  deriving DecidableEq

namespace Double

/-- Rounding of a rational number to the nearest integer, a tie going to the
even one. -/
def roundHalfEven (t : ℚ) : ℤ :=
  let lower : ℤ := ⌊t⌋
  if t - lower < 1 / 2 then lower
  else if 1 / 2 < t - lower then lower + 1
  else if lower % 2 = 0 then lower
  else lower + 1

/-- The binary exponent of the doubles around `x`: the exponent of the power
of two at or below the magnitude of `x`, and -1022 in the subnormal range. -/
def exponent (x : ℚ) : ℤ := max (Int.log 2 |x|) (-1022)

/-- The distance between neighbouring doubles around `x`: a double has 53
significant bits. -/
def spacing (x : ℚ) : ℚ := (2 : ℚ) ^ (exponent x - 52)

/-- Rounding of a rational number to a double in the default rounding mode
(to nearest, ties to even); a magnitude that rounds to 2^1024 overflows to an
infinity. -/
def ofRat (x : ℚ) : Double :=
  let rounded : ℚ := (roundHalfEven (x / spacing x) : ℚ) * spacing x
  if (2 : ℚ) ^ (1024 : ℕ) ≤ rounded then pos_inf
  else if rounded ≤ -(2 : ℚ) ^ (1024 : ℕ) then neg_inf
  else finite rounded

/-- The conversion of an unsigned integer to `double`; a number of more than
53 significant bits is rounded. -/
def ofNat (n : Nat) : Double := ofRat (n : ℚ)

/-- The comparison `a < b` of two doubles: false when either is a NaN. -/
def lt : Double → Double → Bool
  | finite x, finite y => decide (x < y)
  | finite _, pos_inf => true
  | neg_inf, finite _ => true
  | neg_inf, pos_inf => true
  | _, _ => false

/-- The comparison `a <= b` of two doubles: false when either is a NaN. -/
def le : Double → Double → Bool
  | finite x, finite y => decide (x ≤ y)
  | finite _, pos_inf => true
  | neg_inf, finite _ => true
  | neg_inf, pos_inf => true
  | pos_inf, pos_inf => true
  | neg_inf, neg_inf => true
  | _, _ => false

/-- The quotient `a / b` of two doubles, rounded. -/
def div : Double → Double → Double
  | finite x, finite y =>
    if y = 0 then (if x = 0 then nan else if 0 < x then pos_inf else neg_inf)
    else ofRat (x / y)
  | finite _, pos_inf => finite 0
  | finite _, neg_inf => finite 0
  | pos_inf, finite y => if 0 ≤ y then pos_inf else neg_inf
  | neg_inf, finite y => if 0 ≤ y then neg_inf else pos_inf
  | _, _ => nan

/-- The conversion `(size_t) x` of a double: the value truncated toward zero.
The behaviour is undefined, the result `none`, when the truncated value is
outside the range of `size_t` and when `x` is an infinity or a NaN. -/
def toSizeT : Double → Option Nat
  | finite x =>
    let truncated : ℤ := if 0 ≤ x then ⌊x⌋ else ⌈x⌉
    if 0 ≤ truncated ∧ truncated < 2 ^ 64 then some truncated.toNat else none
  | _ => none

end Double

/-- Modelled from the spec: a value of the JSON library (`nlohmann::json`,
an external library), restricted to the kinds `ColumnStats::ToJson` writes:
unsigned numbers, floating-point numbers, strings, booleans, arrays and
objects.  A floating-point number is stored as the `double` it was built
from. -/
inductive Json where
  | null
  | boolean (b : Bool)
  | number_unsigned (n : Nat)
  | number_float (x : Double)
  | string (s : String)
  | array (elements : List Json)
  | object (members : List (String × Json))

namespace Json

/-- The assignment `j[key] = value` on the members of an object: the member
`key` is replaced when present and added otherwise. -/
def setMember (key : String) (value : Json) : List (String × Json) → List (String × Json)
  | [] => [(key, value)]
  | (k, v) :: members =>
    if k = key then (key, value) :: members else (k, v) :: setMember key value members

/-- The assignment `j[key] = value`; a null value becomes an object, and a
value of another kind is a type error, the result `none`. -/
def set (j : Json) (key : String) (value : Json) : Option Json :=
  match j with
  | .null => some (.object [(key, value)])
  | .object members => some (.object (setMember key value members))
  | _ => none

/-- The lookup of `key` among the members of an object. -/
def findMember (key : String) : List (String × Json) → Option Json
  | [] => none
  | (k, v) :: members => if k = key then some v else findMember key members

/-- The access `j.at(key)`; a missing key or a value that is not an object
throws, the result `none`. -/
def at_ (j : Json) (key : String) : Option Json :=
  match j with
  | .object members => findMember key members
  | _ => none

/-- The conversion `get<T>()` to an unsigned integer type (`size_t` and the
oid types). -/
def getUnsigned : Json → Option Nat
  | .number_unsigned n => some n
  | _ => none

/-- The conversion `get<double>()`. -/
def getDouble : Json → Option Double
  | .number_float x => some x
  | .number_unsigned n => some (Double.ofNat n)
  | _ => none

/-- The conversion `get<std::string>()`. -/
def getString : Json → Option String
  | .string s => some s
  | _ => none

/-- The conversion `get<bool>()`. -/
def getBool : Json → Option Bool
  | .boolean b => some b
  | _ => none

/-- The conversion `get<std::vector<double>>()`. -/
def getDoubleVector : Json → Option (List Double)
  | .array elements => elements.mapM getDouble
  | _ => none

/-- The JSON value of a `std::vector<double>`: the array of its numbers. -/
def ofDoubleVector (xs : List Double) : Json :=
  .array (xs.map Json.number_float)

end Json

/-- The fields of a `ColumnStats` object (column_stats.h, lines 81-95).  The
oids and `size_t` are natural numbers. -/
structure ColumnStats where
  namespace_id_ : Nat
  database_id_ : Nat
  table_id_ : Nat
  column_id_ : Nat
  column_name_ : String
  num_rows_ : Nat
  cardinality_ : Double
  frac_null_ : Double
  most_common_vals_ : List Double
  most_common_freqs_ : List Double
  histogram_bounds_ : List Double
  is_base_table_ : Bool

namespace ColumnStats

/-- The number of values of `size_t`. -/
def SIZE_MAX_PLUS_ONE : Nat := 2 ^ 64

/-- Embedding of `ColumnStats::UpdateJoinStats` (column_stats.h, lines 32-41).
The product `sample_card * num_rows_` is computed in `size_t` and converted to
`double` for the division by `(double) sample_size`; the quotient is converted
to `size_t`, which truncates it and is undefined, the result `none`, when the
quotient is out of the range of `size_t`, an infinity or a NaN (as for a
`sample_size` of zero).  In the comparison and in the assignment the estimate
is converted to `double` again. -/
def UpdateJoinStats (stats : ColumnStats) (table_num_rows sample_size sample_card : Nat) :
    Option ColumnStats :=
  let stats := { stats with num_rows_ := table_num_rows }
  let product : Nat := (sample_card * stats.num_rows_) % SIZE_MAX_PLUS_ONE
  match ((Double.ofNat product).div (Double.ofNat sample_size)).toSizeT with
  | none => none
  | some estimated_card =>
    some { stats with
      cardinality_ :=
        if stats.cardinality_.lt (Double.ofNat estimated_card) then stats.cardinality_
        else Double.ofNat estimated_card }

/-- Embedding of `ColumnStats::ToJson` (column_stats.h, lines 49-64). -/
def ToJson (stats : ColumnStats) : Option Json := do
  let j := Json.null
  let some j := j.set "namespace_id" (Json.number_unsigned stats.namespace_id_) | none
  let some j := j.set "database_id" (Json.number_unsigned stats.database_id_) | none
  let some j := j.set "table_id" (Json.number_unsigned stats.table_id_) | none
  let some j := j.set "column_id" (Json.number_unsigned stats.column_id_) | none
  let some j := j.set "column_name" (Json.string stats.column_name_) | none
  let some j := j.set "num_rows" (Json.number_unsigned stats.num_rows_) | none
  let some j := j.set "cardinality" (Json.number_float stats.cardinality_) | none
  let some j := j.set "frac_null" (Json.number_float stats.frac_null_) | none
  let some j := j.set "most_common_vals" (Json.ofDoubleVector stats.most_common_vals_) | none
  let some j := j.set "most_common_freqs" (Json.ofDoubleVector stats.most_common_freqs_) | none
  let some j := j.set "histogram_bounds" (Json.ofDoubleVector stats.histogram_bounds_) | none
  let some j := j.set "is_basetable" (Json.boolean stats.is_base_table_) | none
  pure j

/-- Embedding of `ColumnStats::FromJson` (column_stats.h, lines 66-79); an
exception thrown by `at` or `get` is the result `none`. -/
def FromJson (stats : ColumnStats) (j : Json) : Option ColumnStats := do
  let some v := j.at_ "namespace_id" | none
  let some namespace_id := v.getUnsigned | none
  let stats := { stats with namespace_id_ := namespace_id }
  let some v := j.at_ "database_id" | none
  let some database_id := v.getUnsigned | none
  let stats := { stats with database_id_ := database_id }
  let some v := j.at_ "table_id" | none
  let some table_id := v.getUnsigned | none
  let stats := { stats with table_id_ := table_id }
  let some v := j.at_ "column_id" | none
  let some column_id := v.getUnsigned | none
  let stats := { stats with column_id_ := column_id }
  let some v := j.at_ "column_name" | none
  let some column_name := v.getString | none
  let stats := { stats with column_name_ := column_name }
  let some v := j.at_ "num_rows" | none
  let some num_rows := v.getUnsigned | none
  let stats := { stats with num_rows_ := num_rows }
  let some v := j.at_ "cardinality" | none
  let some cardinality := v.getDouble | none
  let stats := { stats with cardinality_ := cardinality }
  let some v := j.at_ "frac_null" | none
  let some frac_null := v.getDouble | none
  let stats := { stats with frac_null_ := frac_null }
  let some v := j.at_ "most_common_vals" | none
  let some most_common_vals := v.getDoubleVector | none
  let stats := { stats with most_common_vals_ := most_common_vals }
  let some v := j.at_ "most_common_freqs" | none
  let some most_common_freqs := v.getDoubleVector | none
  let stats := { stats with most_common_freqs_ := most_common_freqs }
  let some v := j.at_ "histogram_bounds" | none
  let some histogram_bounds := v.getDoubleVector | none
  let stats := { stats with histogram_bounds_ := histogram_bounds }
  let some v := j.at_ "is_basetable" | none
  let some is_base_table := v.getBool | none
  let stats := { stats with is_base_table_ := is_base_table }
  pure stats

end ColumnStats

/-! ## Statistics storage (`stats_storage_test.cpp`) -/

/-- Modelled from the spec: `TableStats`, the record
`{ db, table, num_rows, is_base_table, [ColumnStats] }` (`table_stats.h` is
not among the sources; the test builds one from these five values). -/
structure TableStats where
  database_id_ : Nat
  table_id_ : Nat
  num_rows_ : Nat
  is_base_table_ : Bool
  column_stats_ : List ColumnStats

/-- The key of the statistics storage: a database oid and a table oid. -/
abbrev StatsStorageKey := Nat × Nat

/-- Modelled from the spec: `StatsStorage`, a mapping
`(db_oid, table_oid) → TableStats` (`stats_storage.h` is not among the
sources, only its test is).  The mapping is held as the list of its entries;
`StatsStorage()` is the storage without entries. -/
structure StatsStorage where
  table_stats_storage : List (StatsStorageKey × TableStats)

namespace StatsStorage

/-- Modelled from the spec: the contains-check of the storage. -/
def Contains (storage : StatsStorage) (database_id table_id : Nat) : Bool :=
  storage.table_stats_storage.any (fun entry => decide (entry.1 = (database_id, table_id)))

/-- Modelled from the spec: `GetTableStats(database_id, table_id)`, the
statistics stored under the key; `none` is the null pointer. -/
def GetTableStats (storage : StatsStorage) (database_id table_id : Nat) : Option TableStats :=
  (storage.table_stats_storage.find?
    (fun entry => decide (entry.1 = (database_id, table_id)))).map Prod.snd

/-- Modelled from the spec: `InsertTableStats(database_id, table_id, stats)`:
insert returns false if the key is already present, and otherwise stores the
statistics under the key and returns true.  The result is the returned value
and the storage after the call. -/
def InsertTableStats (storage : StatsStorage) (database_id table_id : Nat)
    (table_stats : TableStats) : Bool × StatsStorage :=
  if storage.Contains database_id table_id then (false, storage)
  else (true, ⟨((database_id, table_id), table_stats) :: storage.table_stats_storage⟩)

/-- Modelled from the spec: `DeleteTableStats(database_id, table_id)`: delete
returns false if the key is absent, and otherwise removes the entry of the key
and returns true.  The result is the returned value and the storage after the
call. -/
def DeleteTableStats (storage : StatsStorage) (database_id table_id : Nat) :
    Bool × StatsStorage :=
  if storage.Contains database_id table_id then
    (true, ⟨storage.table_stats_storage.filter
      (fun entry => !decide (entry.1 = (database_id, table_id)))⟩)
  else (false, storage)

end StatsStorage

/-! ## Vocabulary of the properties -/

/-- The left list: the predicates of `predicates`, in order, whose alias set
is a subset of the alias set `ls` of the left child group. -/
def specLeftList (ls : Finset String) (predicates : List AnnotatedExpression) :
    List AnnotatedExpression :=
  predicates.filter (fun p => decide (p.table_alias_set ⊆ ls))

/-- The right list: the predicates of `predicates`, in order, whose alias set
is not a subset of `ls` and is a subset of the alias set `rs` of the right
child group. -/
def specRightList (ls rs : Finset String) (predicates : List AnnotatedExpression) :
    List AnnotatedExpression :=
  predicates.filter (fun p => decide (¬ p.table_alias_set ⊆ ls ∧ p.table_alias_set ⊆ rs))

/-- The remaining list: the predicates of `predicates`, in order, whose alias
set is a subset of neither `ls` nor `rs`. -/
def specJoinList (ls rs : Finset String) (predicates : List AnnotatedExpression) :
    List AnnotatedExpression :=
  predicates.filter (fun p => decide (¬ p.table_alias_set ⊆ ls ∧ ¬ p.table_alias_set ⊆ rs))

/-- The child `maybe-Filter(child)`: a Filter carrying `predicates` over
`child` when `predicates` is not empty, and `child` itself otherwise. -/
def specMaybeFilter (predicates : List AnnotatedExpression) (child : OperatorNode) :
    OperatorNode :=
  match predicates with
  | [] => child
  | p :: ps => OperatorNode.mk (Operator.Filter ⟨p :: ps⟩) [child]

/-- The plan `InnerJoin(maybe-Filter(L), maybe-Filter(R))` over the two leaves
bound to the groups `gl` and `gr`, for the partition of `predicates` by the
alias sets `ls` and `rs`. -/
def specPushedJoin (ls rs : Finset String) (gl gr : group_id_t)
    (predicates : List AnnotatedExpression) : OperatorNode :=
  OperatorNode.mk (Operator.Join ⟨LogicalJoinType.INNER, specJoinList ls rs predicates⟩)
    [specMaybeFilter (specLeftList ls predicates) (LeafNode gl),
     specMaybeFilter (specRightList ls rs predicates) (LeafNode gr)]

/-- Alias subset soundness of an emitted join for the alias sets `ls` and
`rs` of the left and right child groups: the plan has exactly two children,
and when the left (right) child is a Filter every predicate it carries has an
alias set that is a subset of `ls` (`rs`). -/
def specAliasSubsetSound (ls rs : Finset String) (plan : OperatorNode) : Prop :=
  ∃ left_branch right_branch : OperatorNode,
    plan.GetChildren = [left_branch, right_branch] ∧
    (∀ f : LogicalFilter, left_branch.GetOp.AsLogicalFilter = some f →
      ∀ p ∈ f.predicates, p.table_alias_set ⊆ ls) ∧
    (∀ f : LogicalFilter, right_branch.GetOp.AsLogicalFilter = some f →
      ∀ p ∈ f.predicates, p.table_alias_set ⊆ rs)

/-- Whether a predicate contains an aggregate expression, as tested by
`RewritePushFilterThroughAggregation::Transform`. -/
def ContainsAggregate (predicate : AnnotatedExpression) : Bool :=
  !(ExpressionUtil.GetAggregateExprs [] predicate.GetExpr).isEmpty

/-- The predicates of `predicates`, in order, whose alias set is a subset of
the union of the alias sets `ms` and `rs` of the middle and right groups. -/
def specInnerList (ms rs : Finset String) (predicates : List AnnotatedExpression) :
    List AnnotatedExpression :=
  predicates.filter (fun p => decide (p.table_alias_set ⊆ ms ∪ rs))

/-- The predicates of `predicates`, in order, whose alias set is not a subset
of the union of the alias sets `ms` and `rs` of the middle and right groups. -/
def specOuterList (ms rs : Finset String) (predicates : List AnnotatedExpression) :
    List AnnotatedExpression :=
  predicates.filter (fun p => decide (¬ p.table_alias_set ⊆ ms ∪ rs))

mutual
/-- Whether an expression contains an aggregate expression: it is one, or
one of its children contains one. -/
def specHasAggregate : AbstractExpression → Bool
  | .mk t _ _ cs => ExpressionUtil.IsAggregateExpression t || specHasAggregateAny cs
/-- Whether some expression of a list contains an aggregate expression. -/
def specHasAggregateAny : List AbstractExpression → Bool
  | [] => false
  | c :: cs => specHasAggregate c || specHasAggregateAny cs
end

mutual
/-- Whether a plan contains no Filter whose direct child is a Filter. -/
def specNoConsecutiveFilter : OperatorNode → Bool
  | .mk op cs =>
    !(decide (op.GetType = OpType.LOGICALFILTER) &&
        cs.any (fun c => decide (c.GetOp.GetType = OpType.LOGICALFILTER))) &&
      specNoConsecutiveFilterAll cs
/-- Whether no plan of a list contains a Filter whose direct child is a
Filter. -/
def specNoConsecutiveFilterAll : List OperatorNode → Bool
  | [] => true
  | c :: cs => specNoConsecutiveFilter c && specNoConsecutiveFilterAll cs
end

/-- The non-correlated predicates: the predicates of `predicates`, in order,
whose alias set is a subset of the covered aliases `aliases` of the leaf
group. -/
def specNormalList (aliases : Finset String) (predicates : List AnnotatedExpression) :
    List AnnotatedExpression :=
  predicates.filter (fun p => decide (p.table_alias_set ⊆ aliases))

/-- The correlated predicates: the predicates of `predicates`, in order,
whose alias set is not a subset of the covered aliases `aliases` of the leaf
group. -/
def specCorrelatedList (aliases : Finset String) (predicates : List AnnotatedExpression) :
    List AnnotatedExpression :=
  predicates.filter (fun p => decide (¬ p.table_alias_set ⊆ aliases))

/-- Whether every column reference of every sort column of `sort` names a
table alias covered by the probe group. -/
def specSortFromProbe (collaborators : DeriverCollaborators) (probe_group : Group)
    (sort : PropertySort) : Bool :=
  sort.sort_columns.all (fun sort_column =>
    (ExpressionUtil.GetTupleValueExprs [] sort_column).all (fun expr =>
      decide (collaborators.GetTableName expr ∈ probe_group.table_aliases)))

/-- Whether a required property is a Sort all of whose column references name
a table alias covered by the probe group. -/
def specPropertyFromProbe (collaborators : DeriverCollaborators) (probe_group : Group) :
    Property → Bool
  | .Sort sort => specSortFromProbe collaborators probe_group sort

/-- Whether a required property is a Sort that passes
`IndexUtil::CheckSortProperty` and is satisfied by at least one index of the
table the catalog resolves `table_alias` of `namespace_oid` to. -/
def specSatisfiedByIndex (collaborators : DeriverCollaborators) (accessor : CatalogAccessor)
    (namespace_oid : Nat) (table_alias : String) : Property → Bool
  | .Sort sort =>
    collaborators.CheckSortProperty sort &&
      (accessor.GetIndexes (accessor.GetTableOid namespace_oid table_alias)).any
        (fun index => collaborators.SatisfiesSortWithIndex sort
          (accessor.GetTableOid namespace_oid table_alias) index accessor)

/-- The group a `LeafOperator` is bound to, as a list; an operator of another
kind is bound to none. -/
def Operator.leafGroups : Operator → List group_id_t
  | .Leaf op => [op.origin_group]
  | _ => []

mutual
/-- The origin-group ids of the `LeafOperator`s of a plan, from left to
right. -/
def OperatorNode.leafGroups : OperatorNode → List group_id_t
  | .mk op cs => op.leafGroups ++ OperatorNode.leafGroupsOfChildren cs
/-- The origin-group ids of the `LeafOperator`s of a list of plans, from left
to right. -/
def OperatorNode.leafGroupsOfChildren : List OperatorNode → List group_id_t
  | [] => []
  | c :: cs => OperatorNode.leafGroups c ++ OperatorNode.leafGroupsOfChildren cs
end

/-- Conservation of the leaf groups by one run of a rule: when the run
returns, the vector it returns is the vector `transformed` it received followed
by the plans it emitted, and the origin-group ids of the leaves of every
emitted plan are, from left to right, `groups`. -/
def specEmitsOver (groups : List group_id_t) (transformed : List OperatorNode)
    (result : Option (List OperatorNode)) : Prop :=
  ∀ plans : List OperatorNode, result = some plans →
    ∃ emitted : List OperatorNode,
      plans = transformed ++ emitted ∧ ∀ out ∈ emitted, out.leafGroups = groups

/-- The arguments of one call of `ChildPropertyDeriver::GetProperties`. -/
structure DeriverCall where
  gexpr : GroupExpression
  requirements : PropertySet
  memo : Memo
  accessor : CatalogAccessor

/-- The deriver object after a sequence of calls of `GetProperties` made one
after the other on the same object; `none` when one of the calls aborts. -/
def specAfterCalls (collaborators : DeriverCollaborators) :
    ChildPropertyDeriver → List DeriverCall → Option ChildPropertyDeriver
  | deriver, [] => some deriver
  | deriver, call :: calls =>
    match ChildPropertyDeriver.GetProperties collaborators deriver call.gexpr
        call.requirements call.memo call.accessor with
    | none => none
    | some result => specAfterCalls collaborators result.2 calls

/-- Whether every Sort property of the provided set of every entry has all of
its column references drawn from the covered aliases of the probe group. -/
def specOnlyProbeOrderings (collaborators : DeriverCollaborators) (probe_group : Group)
    (entries : List PropertyEntry) : Bool :=
  entries.all (fun entry =>
    entry.1.properties.all (specPropertyFromProbe collaborators probe_group))

/-- A cell of a row of the reference semantics: the value of one column of
one table alias. -/
structure Cell where
  table_alias : String
  column_name : String
  value : Int
  deriving DecidableEq, Repr

/-- A row of the reference semantics: the cells it holds, in order. -/
abbrev Row := List Cell

/-- The cells of a row that belong to the table aliases of `aliases`. -/
def specCellsOf (aliases : Finset String) (row : Row) : Row :=
  row.filter (fun cell => decide (cell.table_alias ∈ aliases))

/-- Reference semantics, the condition on predicates: the predicate reads
only columns of the aliases in its alias set, that is, its value on a row is
determined by the cells of the row that belong to those aliases. -/
def specReadsOnly (holds : AbstractExpression → Row → Bool) (p : AnnotatedExpression) :
    Prop :=
  ∀ row other : Row,
    specCellsOf p.table_alias_set row = specCellsOf p.table_alias_set other →
    holds p.expr row = holds p.expr other

/-- No row of `rows` holds a column of a table alias of `aliases`. -/
def specRowsAvoid (aliases : Finset String) (rows : List Row) : Prop :=
  ∀ row ∈ rows, ∀ cell ∈ row, cell.table_alias ∉ aliases

/-- Reference semantics of an inner join: the combined rows of its two inputs
(a row of the left input followed by a row of the right input) that satisfy
all of its predicates. -/
def specInnerJoinRows (holds : AbstractExpression → Row → Bool)
    (predicates : List AnnotatedExpression) (left_rows right_rows : List Row) : List Row :=
  (left_rows.flatMap (fun left_row =>
      right_rows.map (fun right_row => left_row ++ right_row))).filter
    (fun row => predicates.all (fun p => holds p.expr row))

/-- Reference semantics of one operator over the rows of its children: a leaf
returns the rows `leaf_rows` gives its group, an inner join over two inputs
returns `specInnerJoinRows`.  The reference semantics fixes no other
operator; those return no rows. -/
def specOperatorRows (leaf_rows : group_id_t → List Row)
    (holds : AbstractExpression → Row → Bool) : Operator → List (List Row) → List Row
  | .Leaf op, _ => leaf_rows op.origin_group
  | .Join op, [left_rows, right_rows] =>
    if op.join_type = LogicalJoinType.INNER then
      specInnerJoinRows holds op.join_predicates left_rows right_rows
    else []
  | _, _ => []

mutual
/-- Reference semantics of a plan: the rows it returns, given the rows of
each leaf group and the evaluation of predicates on rows. -/
def specRows (leaf_rows : group_id_t → List Row) (holds : AbstractExpression → Row → Bool) :
    OperatorNode → List Row
  | .mk op cs => specOperatorRows leaf_rows holds op (specRowsOfChildren leaf_rows holds cs)
/-- The rows returned by each plan of a child list. -/
def specRowsOfChildren (leaf_rows : group_id_t → List Row)
    (holds : AbstractExpression → Row → Bool) : List OperatorNode → List (List Row)
  | [] => []
  | c :: cs => specRows leaf_rows holds c :: specRowsOfChildren leaf_rows holds cs
end

/-! ## Sample data -/

/-- A memo with three groups covering the aliases a, b and c. -/
def sampleMemo : Memo := ⟨[⟨{"a"}⟩, ⟨{"b"}⟩, ⟨{"c"}⟩]⟩

/-- A column reference of table `t`. -/
def sampleColumn (t : String) : AbstractExpression :=
  AbstractExpression.mk ExpressionType.COLUMN_VALUE t 0 []

/-- The predicate `a.x = 5`, referencing the alias a only. -/
def samplePredA : AnnotatedExpression :=
  ⟨AbstractExpression.mk ExpressionType.COMPARE_EQUAL "" 0
    [sampleColumn "a", AbstractExpression.mk ExpressionType.VALUE_CONSTANT "5" 0 []], {"a"}⟩

/-- The predicate `b.y < 7`, referencing the alias b only. -/
def samplePredB : AnnotatedExpression :=
  ⟨AbstractExpression.mk ExpressionType.COMPARE_LESS_THAN "" 0
    [sampleColumn "b", AbstractExpression.mk ExpressionType.VALUE_CONSTANT "7" 0 []], {"b"}⟩

/-- The predicate `a.x = b.y`, referencing the aliases a and b. -/
def samplePredAB : AnnotatedExpression :=
  ⟨AbstractExpression.mk ExpressionType.COMPARE_EQUAL "" 0
    [sampleColumn "a", sampleColumn "b"], {"a", "b"}⟩

/-- The predicate `b.y = c.z`, referencing the aliases b and c. -/
def samplePredBC : AnnotatedExpression :=
  ⟨AbstractExpression.mk ExpressionType.COMPARE_EQUAL "" 0
    [sampleColumn "b", sampleColumn "c"], {"b", "c"}⟩

/-- The predicate `count(a.x) > 3`, containing an aggregate expression. -/
def samplePredAgg : AnnotatedExpression :=
  ⟨AbstractExpression.mk ExpressionType.COMPARE_GREATER_THAN "" 0
    [AbstractExpression.mk ExpressionType.AGGREGATE_COUNT "" 0 [sampleColumn "a"],
     AbstractExpression.mk ExpressionType.VALUE_CONSTANT "3" 0 []], {"a"}⟩

/-- The predicate `1 = 1`, referencing no alias. -/
def samplePredConst : AnnotatedExpression :=
  ⟨AbstractExpression.mk ExpressionType.COMPARE_EQUAL "" 0
    [AbstractExpression.mk ExpressionType.VALUE_CONSTANT "1" 0 [],
     AbstractExpression.mk ExpressionType.VALUE_CONSTANT "1" 0 []], ∅⟩

/-- The predicate `a.z < 7`, referencing the alias a only. -/
def samplePredA2 : AnnotatedExpression :=
  ⟨AbstractExpression.mk ExpressionType.COMPARE_LESS_THAN "" 0
    [AbstractExpression.mk ExpressionType.COLUMN_VALUE "a.z" 0 [],
     AbstractExpression.mk ExpressionType.VALUE_CONSTANT "7" 0 []], {"a"}⟩

/-- A column reference of table `t` at depth `d`. -/
def sampleColumnAt (t : String) (d : Int) : AbstractExpression :=
  AbstractExpression.mk ExpressionType.COLUMN_VALUE t d []

/-- The predicate `a.x = b.y` of a subquery at depth 1 over b, in which `a.x`
refers to the outer query (depth 0) and `b.y` to the subquery (depth 1). -/
def samplePredOuterLeft : AnnotatedExpression :=
  ⟨AbstractExpression.mk ExpressionType.COMPARE_EQUAL "" 1
    [sampleColumnAt "a" 0, sampleColumnAt "b" 1], {"a", "b"}⟩

/-- The predicate `a.x = b.y` at depth 1 whose two children both have
depth 1. -/
def samplePredEqualDepth : AnnotatedExpression :=
  ⟨AbstractExpression.mk ExpressionType.COMPARE_EQUAL "" 1
    [sampleColumnAt "a" 1, sampleColumnAt "b" 1], {"a", "b"}⟩

/-- The predicate `a.flag`, a bare column reference (an expression without
children) to the alias a. -/
def samplePredBare : AnnotatedExpression :=
  ⟨sampleColumnAt "a" 0, {"a"}⟩

/-- A scan of table 3 of namespace 2 of database 1 under the alias a that
already carries the predicate `a.x = 5`. -/
def sampleGet : LogicalGet :=
  ⟨1, 2, 3, [samplePredA], "a", false⟩

/-- A plan with three Filters none of which is the direct child of another:
Filter(Join(Filter(LEAF), Filter(LEAF))). -/
def samplePlanSeparateFilters : OperatorNode :=
  OperatorNode.mk (Operator.Filter ⟨[samplePredAB]⟩)
    [OperatorNode.mk (Operator.Join ⟨LogicalJoinType.INNER, []⟩)
      [OperatorNode.mk (Operator.Filter ⟨[samplePredA]⟩) [LeafNode 0],
       OperatorNode.mk (Operator.Filter ⟨[samplePredB]⟩) [LeafNode 1]]]

/-- The predicate `a.x = c.z` of a subquery at depth 1, both of whose
children refer to outer queries (depth 0). -/
def samplePredBothOuter : AnnotatedExpression :=
  ⟨AbstractExpression.mk ExpressionType.COMPARE_EQUAL "" 1
    [sampleColumnAt "a" 0, sampleColumnAt "c" 0], {"a", "c"}⟩

/-- Collaborators for the samples: every sort property passes the check, the
index 7 satisfies every sort property, and the table name of a column
reference is the string it carries. -/
def sampleCollaborators : DeriverCollaborators :=
  ⟨fun _ => true, fun _ _ index _ => decide (index = 7),
    fun expr => match expr with | AbstractExpression.mk _ name _ _ => name⟩

/-- A catalog for the samples: every alias names table 3, whose indexes are 6
and 7. -/
def sampleAccessor : CatalogAccessor :=
  ⟨fun _ _ => 3, fun tbl_id => if tbl_id = 3 then [6, 7] else []⟩

/-- The requirement `ORDER BY b.y ASC`. -/
def sampleSortB : PropertySet :=
  ⟨[Property.Sort ⟨[sampleColumn "b"], [OrderByOrderingType.ASC]⟩]⟩

/-- The requirement `ORDER BY a.x DESC`. -/
def sampleSortA : PropertySet :=
  ⟨[Property.Sort ⟨[sampleColumn "a"], [OrderByOrderingType.DESC]⟩]⟩

/-- A deriver object that has not been used yet. -/
def sampleFreshDeriver : ChildPropertyDeriver :=
  ⟨none, [], none, none, none⟩

/-- The requirement holding `ORDER BY a.x DESC`, `ORDER BY b.y ASC` and
`ORDER BY b.y ASC, c.z ASC` as three sort properties. -/
def sampleSortThree : PropertySet :=
  ⟨[Property.Sort ⟨[sampleColumn "a"], [OrderByOrderingType.DESC]⟩,
    Property.Sort ⟨[sampleColumn "b"], [OrderByOrderingType.ASC]⟩,
    Property.Sort ⟨[sampleColumn "b", sampleColumn "c"],
      [OrderByOrderingType.ASC, OrderByOrderingType.ASC]⟩]⟩

/-- Column statistics of a column of 100 rows with cardinality 10. -/
def sampleColumnStats : ColumnStats :=
  ⟨2, 1, 3, 4, "o_id", 100, Double.finite 10, Double.finite (1 / 4),
    [Double.finite 1, Double.finite 2], [Double.finite (1 / 2), Double.finite (1 / 4)],
    [Double.finite 0, Double.finite 5, Double.finite 10], true⟩

/-- Column statistics of a column of 100 rows whose cardinality is 2^60, a
double above every estimate of the examples. -/
def sampleLargeColumnStats : ColumnStats :=
  { sampleColumnStats with cardinality_ := Double.finite (2 ^ 60) }

/-- Column statistics of a column of 100 rows whose cardinality is a NaN. -/
def sampleNanColumnStats : ColumnStats :=
  { sampleColumnStats with cardinality_ := Double.nan }

/-- The column statistics the test of the storage builds for column
`column_id`: 5 rows, cardinality 4, a fifth of the values null (the literal
`0.2`, rounded to a double). -/
def sampleTestColumnStats (column_id : Nat) : ColumnStats :=
  ⟨0, 1, 1, column_id, "", 5, Double.finite 4, Double.ofRat (1 / 5),
    [Double.finite 3, Double.finite 4, Double.finite 5],
    [Double.finite 2, Double.finite 2, Double.finite 2],
    [Double.finite 1, Double.finite 5], true⟩

/-- The table statistics the test of the storage builds: table 1 of database
1 with 5 rows and five columns. -/
def sampleTableStats : TableStats :=
  ⟨1, 1, 5, true,
    [sampleTestColumnStats 1, sampleTestColumnStats 2, sampleTestColumnStats 3,
     sampleTestColumnStats 4, sampleTestColumnStats 5]⟩

/-- Collaborators of constant expressions for the samples: held values are
integers, two base parts are equal when their depths are, and hashes are
absolute values combined by `31 * h1 + h2`. -/
def sampleExpressionCollaborators : ExpressionCollaborators Int :=
  ⟨fun first second => decide (first.GetDepth = second.GetDepth),
    fun expr => expr.GetDepth.natAbs,
    fun first second => decide (first = second),
    fun value => value.natAbs,
    fun first second => 31 * first + second⟩

/-- The constant expression holding the integer `value`. -/
def sampleConstant (value : Int) : ConstantValueExpression Int :=
  ⟨AbstractExpression.mk ExpressionType.VALUE_CONSTANT "" 0 [], value⟩

/-- A LEFT join over two pattern leaves, carrying the predicate `a.x = b.y`. -/
def sampleLeftJoin : OperatorNode :=
  OperatorNode.mk (Operator.Join ⟨LogicalJoinType.LEFT, [samplePredAB]⟩)
    [LeafNode 0, LeafNode 1]

/-- A binding of the pattern Join(LEAF, Filter(LEAF)): a MARK join without
predicates over a leaf and a Filter with the predicate `b.y < 7` over a
leaf. -/
def sampleMarkJoinBinding : OperatorNode :=
  OperatorNode.mk (Operator.Join ⟨LogicalJoinType.MARK, []⟩)
    [LeafNode 0, OperatorNode.mk (Operator.Filter ⟨[samplePredB]⟩) [LeafNode 1]]

/-- A binding of the pattern AggregateAndGroupBy(Filter(LEAF)): an
aggregation over a Filter with the correlated predicate `a.x = b.y` over a
leaf. -/
def sampleAggregationBinding : OperatorNode :=
  OperatorNode.mk (Operator.AggregateAndGroupBy ⟨[], []⟩)
    [OperatorNode.mk (Operator.Filter ⟨[samplePredOuterLeft]⟩) [LeafNode 1]]

/-- The requirement holding `ORDER BY a.x DESC` and `ORDER BY b.y ASC` as two
sort properties. -/
def sampleSortTwo : PropertySet :=
  ⟨[Property.Sort ⟨[sampleColumn "a"], [OrderByOrderingType.DESC]⟩,
    Property.Sort ⟨[sampleColumn "b"], [OrderByOrderingType.ASC]⟩]⟩

/-- The one-cell row holding `value` in the column `column_name` of the table
alias `table_alias`. -/
def sampleRow (table_alias column_name : String) (value : Int) : Row :=
  [⟨table_alias, column_name, value⟩]

/-- Rows of the three groups of `sampleMemo`: `a.x` is 1 or 2, `b.y` is 1 or
2, `c.z` is 2 or 3. -/
def sampleLeafRows : group_id_t → List Row
  | 0 => [sampleRow "a" "x" 1, sampleRow "a" "x" 2]
  | 1 => [sampleRow "b" "y" 1, sampleRow "b" "y" 2]
  | 2 => [sampleRow "c" "z" 2, sampleRow "c" "z" 3]
  | _ => []

/-- A memo with three groups in which the second and the third both cover the
alias b. -/
def sampleOverlapMemo : Memo := ⟨[⟨{"a"}⟩, ⟨{"b"}⟩, ⟨{"b"}⟩]⟩

/-- Rows of the three groups of `sampleOverlapMemo`: `a.x` is 1 or 2, `b.y`
of the second group is 1 or 2, `b.y` of the third group is 2 or 3. -/
def sampleOverlapRows : group_id_t → List Row
  | 0 => [sampleRow "a" "x" 1, sampleRow "a" "x" 2]
  | 1 => [sampleRow "b" "y" 1, sampleRow "b" "y" 2]
  | 2 => [sampleRow "b" "y" 2, sampleRow "b" "y" 3]
  | _ => []

/-- The table names of the column references of an expression. -/
def sampleTableNames (expr : AbstractExpression) : List String :=
  (ExpressionUtil.GetTupleValueExprs [] expr).map sampleCollaborators.GetTableName

/-- A toy evaluation of equality predicates: the predicate holds on a row
when the cells of the tables it references all carry the same value. -/
def sampleHolds (expr : AbstractExpression) (row : Row) : Bool :=
  let cells := row.filter (fun cell => decide (cell.table_alias ∈ sampleTableNames expr))
  cells.all (fun cell => cells.all (fun other => decide (cell.value = other.value)))

/-- A three-way inner join whose inner join carries `b.y = c.z`, a predicate
over the alias c, which is not among the aliases a and b of its inputs. -/
def sampleIllScopedJoin : OperatorNode :=
  OperatorNode.mk (Operator.Join ⟨LogicalJoinType.INNER, []⟩)
    [OperatorNode.mk (Operator.Join ⟨LogicalJoinType.INNER, [samplePredBC]⟩)
      [LeafNode 0, LeafNode 1], LeafNode 2]

/-! ## Auxiliary lemmas -/

mutual
/-- A deep copy is equal to the plan it copies. -/
theorem OperatorNode.Copy_eq : ∀ node : OperatorNode, node.Copy = node
  | .mk op cs => by rw [OperatorNode.Copy, OperatorNode.CopyChildren_eq cs]
/-- Copying every child gives back the child list. -/
theorem OperatorNode.CopyChildren_eq : ∀ nodes : List OperatorNode,
    OperatorNode.CopyChildren nodes = nodes
  | [] => by rw [OperatorNode.CopyChildren]
  | c :: cs => by
    rw [OperatorNode.CopyChildren, OperatorNode.Copy_eq c, OperatorNode.CopyChildren_eq cs]
end

/-- The loop of the filter-push rules appends to the three vectors, in order,
the predicates passing the left test, those failing it and passing the right
test, and those failing both. -/
theorem PushDownLoop_eq (ls rs : Finset String) (predicates : List AnnotatedExpression)
    (lists : PushDownLists) :
    PushDownLoop ls rs predicates lists =
      ⟨lists.left_predicates ++
          predicates.filter (fun p => decide (p.table_alias_set ⊆ ls)),
        lists.right_predicates ++
          predicates.filter
            (fun p => decide (¬ p.table_alias_set ⊆ ls ∧ p.table_alias_set ⊆ rs)),
        lists.join_predicates ++
          predicates.filter
            (fun p => decide (¬ p.table_alias_set ⊆ ls ∧ ¬ p.table_alias_set ⊆ rs))⟩ := by
  induction predicates generalizing lists with
  | nil => simp [PushDownLoop]
  | cons p ps ih =>
    have hstep : PushDownLoop ls rs (p :: ps) lists =
        PushDownLoop ls rs ps (PushDownStep ls rs lists p) := rfl
    rw [hstep, ih]
    unfold PushDownStep OptimizerUtil.IsSubset AnnotatedExpression.GetTableAliasSet
    by_cases h1 : p.table_alias_set ⊆ ls
    · simp [h1, List.filter_cons]
    · by_cases h2 : p.table_alias_set ⊆ rs
      · simp [h1, h2, List.filter_cons]
      · simp [h1, h2, List.filter_cons]

/-- The loop of the filter-push rules, from empty vectors, computes the
partition of the properties. -/
theorem PushDownLoop_nil (ls rs : Finset String) (predicates : List AnnotatedExpression) :
    PushDownLoop ls rs predicates ⟨[], [], []⟩ =
      ⟨specLeftList ls predicates, specRightList ls rs predicates,
        specJoinList ls rs predicates⟩ := by
  rw [PushDownLoop_eq]; simp [specLeftList, specRightList, specJoinList]

/-- The block building a branch of the pushed join agrees with
`specMaybeFilter`. -/
theorem FilterBranch_eq (predicates : List AnnotatedExpression) (child : OperatorNode) :
    FilterBranch predicates child = specMaybeFilter predicates child := by
  cases predicates <;> simp [FilterBranch, specMaybeFilter, LogicalFilter.Make,
    OperatorNode.Copy_eq]

/-- The vector after `RewritePushImplicitFilterThroughJoin::Transform` on an
inner join over two bound leaves. -/
theorem PushImplicit_Transform_eq
    (memo : Memo) (gl gr : group_id_t) (Gl Gr : Group)
    (hl : memo.GetGroupByID gl = some Gl) (hr : memo.GetGroupByID gr = some Gr)
    (predicates : List AnnotatedExpression) (transformed : List OperatorNode) :
    RewritePushImplicitFilterThroughJoin.Transform
        (OperatorNode.mk (Operator.Join ⟨LogicalJoinType.INNER, predicates⟩)
          [LeafNode gl, LeafNode gr]) transformed memo =
      some (if (specLeftList Gl.table_aliases predicates).isEmpty ∧
            (specRightList Gl.table_aliases Gr.table_aliases predicates).isEmpty
        then transformed
        else transformed ++
          [specPushedJoin Gl.table_aliases Gr.table_aliases gl gr predicates]) := by
  by_cases h1 : (specLeftList Gl.table_aliases predicates).isEmpty <;>
  by_cases h2 : (specRightList Gl.table_aliases Gr.table_aliases predicates).isEmpty <;>
  simp [RewritePushImplicitFilterThroughJoin.Transform, OperatorNode.GetChildren,
    OperatorNode.GetOp, LeafNode, Operator.AsLeafOperator, Operator.AsLogicalJoin, hl, hr,
    TERRIER_ASSERT, PushDownLoop_nil, FilterBranch_eq, LogicalJoin.Make, specPushedJoin,
    Group.GetTableAliases, h1, h2]

/-- The two runs of the loop in the explicit filter-push rule amount to one
run over the join predicates followed by the filter predicates. -/
theorem PushDownLoop_append (ls rs : Finset String)
    (join_predicates filter_predicates : List AnnotatedExpression) :
    PushDownLoop ls rs filter_predicates (PushDownLoop ls rs join_predicates ⟨[], [], []⟩) =
      ⟨specLeftList ls (join_predicates ++ filter_predicates),
        specRightList ls rs (join_predicates ++ filter_predicates),
        specJoinList ls rs (join_predicates ++ filter_predicates)⟩ := by
  rw [PushDownLoop_eq, PushDownLoop_eq]
  simp [specLeftList, specRightList, specJoinList]

/-- The vector after `RewritePushExplicitFilterThroughJoin::Transform` on a
filter over an inner join over two bound leaves. -/
theorem PushExplicit_Transform_eq
    (memo : Memo) (gl gr : group_id_t) (Gl Gr : Group)
    (hl : memo.GetGroupByID gl = some Gl) (hr : memo.GetGroupByID gr = some Gr)
    (join_predicates filter_predicates : List AnnotatedExpression)
    (transformed : List OperatorNode) :
    RewritePushExplicitFilterThroughJoin.Transform
        (OperatorNode.mk (Operator.Filter ⟨filter_predicates⟩)
          [OperatorNode.mk (Operator.Join ⟨LogicalJoinType.INNER, join_predicates⟩)
            [LeafNode gl, LeafNode gr]]) transformed memo =
      some (transformed ++
        [specPushedJoin Gl.table_aliases Gr.table_aliases gl gr
          (join_predicates ++ filter_predicates)]) := by
  simp [RewritePushExplicitFilterThroughJoin.Transform, OperatorNode.GetChildren,
    OperatorNode.GetOp, LeafNode, Operator.AsLeafOperator, Operator.AsLogicalJoin,
    Operator.AsLogicalFilter, hl, hr, TERRIER_ASSERT, PushDownLoop_append, FilterBranch_eq,
    LogicalJoin.Make, specPushedJoin, Group.GetTableAliases]

/-! ## Filter push through an inner join -/

/-- C1: for an inner join over two pattern leaves whose groups are in the
memo, RewritePushImplicitFilterThroughJoin::Transform splits the join
predicates, in order, into the left list (alias set a subset of the aliases of
the left group), the right list (not so, and a subset of the aliases of the
right group) and the remaining list.  It leaves the output vector unchanged
when the left and right lists are both empty, and otherwise appends the INNER
join carrying the remaining list whose left (right) child is a Filter with the
left (right) list over the leaf when that list is not empty, and the bare leaf
otherwise. -/
theorem PushImplicit_Transform_partitions
    (memo : Memo) (gl gr : group_id_t) (Gl Gr : Group)
    (hl : memo.GetGroupByID gl = some Gl) (hr : memo.GetGroupByID gr = some Gr)
    (predicates : List AnnotatedExpression) (transformed : List OperatorNode) :
    RewritePushImplicitFilterThroughJoin.Transform
        (OperatorNode.mk (Operator.Join ⟨LogicalJoinType.INNER, predicates⟩)
          [LeafNode gl, LeafNode gr]) transformed memo =
      some (if (specLeftList Gl.table_aliases predicates).isEmpty ∧
            (specRightList Gl.table_aliases Gr.table_aliases predicates).isEmpty
        then transformed
        else transformed ++
          [OperatorNode.mk
            (Operator.Join ⟨LogicalJoinType.INNER,
              specJoinList Gl.table_aliases Gr.table_aliases predicates⟩)
            [specMaybeFilter (specLeftList Gl.table_aliases predicates) (LeafNode gl),
             specMaybeFilter (specRightList Gl.table_aliases Gr.table_aliases predicates)
               (LeafNode gr)]]) :=
  PushImplicit_Transform_eq memo gl gr Gl Gr hl hr predicates transformed

/-- Witness of C1: on the join of the groups a and b with the predicates
`a.x = 5`, `a.x = b.y`, `b.y < 7`, the rule emits the join keeping `a.x = b.y`
over a Filter `a.x = 5` on the left and a Filter `b.y < 7` on the right. -/
theorem PushImplicit_Transform_partitions_witness :
    RewritePushImplicitFilterThroughJoin.Transform
        (OperatorNode.mk
          (Operator.Join ⟨LogicalJoinType.INNER, [samplePredA, samplePredAB, samplePredB]⟩)
          [LeafNode 0, LeafNode 1]) [] sampleMemo =
      some [OperatorNode.mk (Operator.Join ⟨LogicalJoinType.INNER, [samplePredAB]⟩)
        [OperatorNode.mk (Operator.Filter ⟨[samplePredA]⟩) [LeafNode 0],
         OperatorNode.mk (Operator.Filter ⟨[samplePredB]⟩) [LeafNode 1]]] :=
  (PushImplicit_Transform_partitions sampleMemo 0 1 ⟨{"a"}⟩ ⟨{"b"}⟩
    rfl rfl [samplePredA, samplePredAB, samplePredB] []).trans (by rfl)

/-- Both the left and the right list are empty exactly when no predicate has
an alias set contained in the alias set of either child group. -/
theorem specLists_isEmpty_iff (ls rs : Finset String) (predicates : List AnnotatedExpression) :
    ((specLeftList ls predicates).isEmpty ∧ (specRightList ls rs predicates).isEmpty) ↔
      ∀ p ∈ predicates, ¬ p.table_alias_set ⊆ ls ∧ ¬ p.table_alias_set ⊆ rs := by
  simp only [specLeftList, specRightList, List.isEmpty_iff, List.filter_eq_nil_iff,
    decide_eq_true_eq]
  constructor
  · rintro ⟨h1, h2⟩ p hp
    exact ⟨h1 p hp, fun h => h2 p hp ⟨h1 p hp, h⟩⟩
  · intro h
    exact ⟨fun p hp => (h p hp).1, fun p hp hh => (h p hp).2 hh.2⟩

/-- C2: RewritePushImplicitFilterThroughJoin::Transform leaves the output
vector unchanged exactly when no join predicate has an alias set contained in
the alias set of the left or of the right child group (in particular when the
join has no predicates), and appends exactly one plan exactly when some
predicate has. -/
theorem PushImplicit_Transform_emits_iff_moved
    (memo : Memo) (gl gr : group_id_t) (Gl Gr : Group)
    (hl : memo.GetGroupByID gl = some Gl) (hr : memo.GetGroupByID gr = some Gr)
    (predicates : List AnnotatedExpression) (transformed : List OperatorNode) :
    (RewritePushImplicitFilterThroughJoin.Transform
          (OperatorNode.mk (Operator.Join ⟨LogicalJoinType.INNER, predicates⟩)
            [LeafNode gl, LeafNode gr]) transformed memo = some transformed ↔
        ∀ p ∈ predicates,
          ¬ p.table_alias_set ⊆ Gl.table_aliases ∧ ¬ p.table_alias_set ⊆ Gr.table_aliases) ∧
    ((∃ plan : OperatorNode,
        RewritePushImplicitFilterThroughJoin.Transform
          (OperatorNode.mk (Operator.Join ⟨LogicalJoinType.INNER, predicates⟩)
            [LeafNode gl, LeafNode gr]) transformed memo = some (transformed ++ [plan])) ↔
        ∃ p ∈ predicates,
          p.table_alias_set ⊆ Gl.table_aliases ∨ p.table_alias_set ⊆ Gr.table_aliases) := by
  rw [PushImplicit_Transform_eq memo gl gr Gl Gr hl hr]
  have key := specLists_isEmpty_iff Gl.table_aliases Gr.table_aliases predicates
  by_cases h : (specLeftList Gl.table_aliases predicates).isEmpty ∧
      (specRightList Gl.table_aliases Gr.table_aliases predicates).isEmpty
  · have hall := key.mp h
    rw [if_pos h]
    refine ⟨⟨fun _ => hall, fun _ => rfl⟩, ⟨?_, ?_⟩⟩
    · rintro ⟨plan, hplan⟩
      have hlen := congrArg List.length (Option.some.inj hplan)
      simp at hlen
    · rintro ⟨p, hp, hor⟩
      rcases hor with h1 | h2
      · exact absurd h1 (hall p hp).1
      · exact absurd h2 (hall p hp).2
  · have hnot : ¬ ∀ p ∈ predicates,
        ¬ p.table_alias_set ⊆ Gl.table_aliases ∧ ¬ p.table_alias_set ⊆ Gr.table_aliases :=
      fun hall => h (key.mpr hall)
    rw [if_neg h]
    refine ⟨⟨?_, fun hall => absurd hall hnot⟩, ⟨fun _ => ?_, fun _ => ⟨_, rfl⟩⟩⟩
    · intro heq
      have hlen := congrArg List.length (Option.some.inj heq)
      simp at hlen
    · by_contra hex
      apply hnot
      intro p hp
      constructor
      · intro h1; exact hex ⟨p, hp, Or.inl h1⟩
      · intro h2; exact hex ⟨p, hp, Or.inr h2⟩

/-- Witness of C2: with the single predicate `a.x = b.y` over the groups a
and b nothing is emitted; with no predicate nothing is emitted; with the
predicates `a.x = b.y`, `b.y < 7` exactly one plan is appended. -/
theorem PushImplicit_Transform_emits_iff_moved_witness :
    RewritePushImplicitFilterThroughJoin.Transform
        (OperatorNode.mk (Operator.Join ⟨LogicalJoinType.INNER, [samplePredAB]⟩)
          [LeafNode 0, LeafNode 1]) [] sampleMemo = some [] ∧
    RewritePushImplicitFilterThroughJoin.Transform
        (OperatorNode.mk (Operator.Join ⟨LogicalJoinType.INNER, []⟩)
          [LeafNode 0, LeafNode 1]) [] sampleMemo = some [] ∧
    ∃ plan : OperatorNode,
      RewritePushImplicitFilterThroughJoin.Transform
        (OperatorNode.mk (Operator.Join ⟨LogicalJoinType.INNER, [samplePredAB, samplePredB]⟩)
          [LeafNode 0, LeafNode 1]) [] sampleMemo = some ([] ++ [plan]) :=
  ⟨(PushImplicit_Transform_emits_iff_moved sampleMemo 0 1
      ⟨{"a"}⟩ ⟨{"b"}⟩ rfl rfl [samplePredAB] []).1.mpr (by decide),
   (PushImplicit_Transform_emits_iff_moved sampleMemo 0 1
      ⟨{"a"}⟩ ⟨{"b"}⟩ rfl rfl [] []).1.mpr (by decide),
   (PushImplicit_Transform_emits_iff_moved sampleMemo 0 1
      ⟨{"a"}⟩ ⟨{"b"}⟩ rfl rfl [samplePredAB, samplePredB] []).2.mpr (by decide)⟩

/-- C3: for a Filter over an inner join over two pattern leaves whose groups
are in the memo, RewritePushExplicitFilterThroughJoin::Transform always
appends exactly one plan, an INNER join: the join predicates followed by the
filter predicates are split by the left-subset / right-subset / neither test,
each child is a Filter over the leaf exactly when its list is not empty, and
the predicates assigned to neither side are the new join predicates. -/
theorem PushExplicit_Transform_always_emits_join
    (memo : Memo) (gl gr : group_id_t) (Gl Gr : Group)
    (hl : memo.GetGroupByID gl = some Gl) (hr : memo.GetGroupByID gr = some Gr)
    (join_predicates filter_predicates : List AnnotatedExpression)
    (transformed : List OperatorNode) :
    RewritePushExplicitFilterThroughJoin.Transform
        (OperatorNode.mk (Operator.Filter ⟨filter_predicates⟩)
          [OperatorNode.mk (Operator.Join ⟨LogicalJoinType.INNER, join_predicates⟩)
            [LeafNode gl, LeafNode gr]]) transformed memo =
      some (transformed ++
        [OperatorNode.mk
          (Operator.Join ⟨LogicalJoinType.INNER,
            specJoinList Gl.table_aliases Gr.table_aliases
              (join_predicates ++ filter_predicates)⟩)
          [specMaybeFilter
             (specLeftList Gl.table_aliases (join_predicates ++ filter_predicates))
             (LeafNode gl),
           specMaybeFilter
             (specRightList Gl.table_aliases Gr.table_aliases
               (join_predicates ++ filter_predicates))
             (LeafNode gr)]]) :=
  PushExplicit_Transform_eq memo gl gr Gl Gr hl hr join_predicates
    filter_predicates transformed

/-- Witness of C3: a Filter `b.y < 7`, `a.x = b.y` over the join of a and b on
`a.x = 5` becomes the join on `a.x = b.y` of Filter `a.x = 5` and Filter
`b.y < 7`; a Filter `a.x = b.y` over a join without predicates becomes the
join on `a.x = b.y` of the two bare leaves. -/
theorem PushExplicit_Transform_always_emits_join_witness :
    RewritePushExplicitFilterThroughJoin.Transform
        (OperatorNode.mk (Operator.Filter ⟨[samplePredB, samplePredAB]⟩)
          [OperatorNode.mk (Operator.Join ⟨LogicalJoinType.INNER, [samplePredA]⟩)
            [LeafNode 0, LeafNode 1]]) [] sampleMemo =
      some [OperatorNode.mk (Operator.Join ⟨LogicalJoinType.INNER, [samplePredAB]⟩)
        [OperatorNode.mk (Operator.Filter ⟨[samplePredA]⟩) [LeafNode 0],
         OperatorNode.mk (Operator.Filter ⟨[samplePredB]⟩) [LeafNode 1]]] ∧
    RewritePushExplicitFilterThroughJoin.Transform
        (OperatorNode.mk (Operator.Filter ⟨[samplePredAB]⟩)
          [OperatorNode.mk (Operator.Join ⟨LogicalJoinType.INNER, []⟩)
            [LeafNode 0, LeafNode 1]]) [] sampleMemo =
      some [OperatorNode.mk (Operator.Join ⟨LogicalJoinType.INNER, [samplePredAB]⟩)
        [LeafNode 0, LeafNode 1]] :=
  ⟨(PushExplicit_Transform_always_emits_join sampleMemo 0 1
      ⟨{"a"}⟩ ⟨{"b"}⟩ rfl rfl [samplePredA] [samplePredB, samplePredAB] []).trans (by rfl),
   (PushExplicit_Transform_always_emits_join sampleMemo 0 1
      ⟨{"a"}⟩ ⟨{"b"}⟩ rfl rfl [] [samplePredAB] []).trans (by rfl)⟩

/-- The operator of `maybe-Filter(child)` is a Filter only when it carries the
given predicates. -/
theorem specMaybeFilter_AsLogicalFilter (predicates : List AnnotatedExpression)
    (g : group_id_t) (f : LogicalFilter)
    (h : (specMaybeFilter predicates (LeafNode g)).GetOp.AsLogicalFilter = some f) :
    f.predicates = predicates := by
  cases predicates with
  | nil => simp [specMaybeFilter, LeafNode, OperatorNode.GetOp, Operator.AsLogicalFilter] at h
  | cons p ps =>
    simp [specMaybeFilter, OperatorNode.GetOp, Operator.AsLogicalFilter] at h
    rw [← h]

/-- The pushed join is sound for the alias sets it was split by. -/
theorem specPushedJoin_sound (ls rs : Finset String) (gl gr : group_id_t)
    (predicates : List AnnotatedExpression) :
    specAliasSubsetSound ls rs (specPushedJoin ls rs gl gr predicates) := by
  refine ⟨_, _, rfl, ?_, ?_⟩
  · intro f hf p hp
    rw [specMaybeFilter_AsLogicalFilter _ _ _ hf] at hp
    simpa using (List.mem_filter.mp hp).2
  · intro f hf p hp
    rw [specMaybeFilter_AsLogicalFilter _ _ _ hf] at hp
    have := (List.mem_filter.mp hp).2
    simp only [decide_eq_true_eq] at this
    exact this.2

/-- C4: alias subset soundness.  In every plan emitted by
RewritePushImplicitFilterThroughJoin::Transform on InnerJoin(LEAF, LEAF) and
by RewritePushExplicitFilterThroughJoin::Transform on
Filter(InnerJoin(LEAF, LEAF)), every predicate carried by the Filter above the
left (right) leaf has an alias set that is a subset of the covered alias set
of the left (right) child group. -/
theorem filter_push_alias_subset_soundness
    (memo : Memo) (gl gr : group_id_t) (Gl Gr : Group)
    (hl : memo.GetGroupByID gl = some Gl) (hr : memo.GetGroupByID gr = some Gr)
    (join_predicates filter_predicates : List AnnotatedExpression)
    (transformed : List OperatorNode) :
    (∃ out : List OperatorNode,
      RewritePushImplicitFilterThroughJoin.Transform
        (OperatorNode.mk (Operator.Join ⟨LogicalJoinType.INNER, join_predicates⟩)
          [LeafNode gl, LeafNode gr]) transformed memo = some (transformed ++ out) ∧
      ∀ plan ∈ out, specAliasSubsetSound Gl.table_aliases Gr.table_aliases plan) ∧
    (∃ out : List OperatorNode,
      RewritePushExplicitFilterThroughJoin.Transform
        (OperatorNode.mk (Operator.Filter ⟨filter_predicates⟩)
          [OperatorNode.mk (Operator.Join ⟨LogicalJoinType.INNER, join_predicates⟩)
            [LeafNode gl, LeafNode gr]]) transformed memo = some (transformed ++ out) ∧
      out ≠ [] ∧
      ∀ plan ∈ out, specAliasSubsetSound Gl.table_aliases Gr.table_aliases plan) := by
  constructor
  · rw [PushImplicit_Transform_eq memo gl gr Gl Gr hl hr]
    by_cases h : (specLeftList Gl.table_aliases join_predicates).isEmpty ∧
        (specRightList Gl.table_aliases Gr.table_aliases join_predicates).isEmpty
    · exact ⟨[], by rw [if_pos h, List.append_nil], by simp⟩
    · refine ⟨[specPushedJoin Gl.table_aliases Gr.table_aliases gl gr join_predicates],
        by rw [if_neg h], ?_⟩
      intro plan hplan
      rw [List.mem_singleton.mp hplan]
      exact specPushedJoin_sound _ _ _ _ _
  · rw [PushExplicit_Transform_eq memo gl gr Gl Gr hl hr]
    refine ⟨[specPushedJoin Gl.table_aliases Gr.table_aliases gl gr
      (join_predicates ++ filter_predicates)], rfl, by simp, ?_⟩
    intro plan hplan
    rw [List.mem_singleton.mp hplan]
    exact specPushedJoin_sound _ _ _ _ _

/-- Witness of C4: on the sample join and on the sample Filter over it, the
groups a and b are in the memo and every emitted plan is sound. -/
theorem filter_push_alias_subset_soundness_witness :
    (∃ out : List OperatorNode,
      RewritePushImplicitFilterThroughJoin.Transform
        (OperatorNode.mk
          (Operator.Join ⟨LogicalJoinType.INNER, [samplePredA, samplePredAB, samplePredB]⟩)
          [LeafNode 0, LeafNode 1]) [] sampleMemo = some ([] ++ out) ∧
      ∀ plan ∈ out, specAliasSubsetSound {"a"} {"b"} plan) ∧
    (∃ out : List OperatorNode,
      RewritePushExplicitFilterThroughJoin.Transform
        (OperatorNode.mk (Operator.Filter ⟨[samplePredB]⟩)
          [OperatorNode.mk
            (Operator.Join ⟨LogicalJoinType.INNER, [samplePredA, samplePredAB, samplePredB]⟩)
            [LeafNode 0, LeafNode 1]]) [] sampleMemo = some ([] ++ out) ∧
      out ≠ [] ∧
      ∀ plan ∈ out, specAliasSubsetSound {"a"} {"b"} plan) :=
  filter_push_alias_subset_soundness sampleMemo 0 1 ⟨{"a"}⟩ ⟨{"b"}⟩ rfl rfl
    [samplePredA, samplePredAB, samplePredB] [samplePredB] []

/-- The three lists of the split hold, as a multiset, the predicates that
were split. -/
theorem specLists_multiset (ls rs : Finset String) (predicates : List AnnotatedExpression) :
    Multiset.ofList (specLeftList ls predicates) +
        Multiset.ofList (specRightList ls rs predicates) +
        Multiset.ofList (specJoinList ls rs predicates) =
      Multiset.ofList predicates := by
  induction predicates with
  | nil => rfl
  | cons p ps ih =>
    simp only [specLeftList, specRightList, specJoinList] at ih ⊢
    by_cases h1 : p.table_alias_set ⊆ ls
    · simp only [List.filter_cons, h1, decide_True, decide_False, not_true_eq_false,
        false_and, if_true, if_false, Bool.false_eq_true]
      rw [← Multiset.cons_coe, ← Multiset.cons_coe, Multiset.cons_add, Multiset.cons_add, ih]
    · by_cases h2 : p.table_alias_set ⊆ rs
      · simp only [List.filter_cons, h1, h2, decide_True, decide_False, not_true_eq_false,
          not_false_eq_true, and_true, and_false, true_and, if_true, if_false,
          Bool.false_eq_true]
        rw [← Multiset.cons_coe, ← Multiset.cons_coe, Multiset.add_cons, Multiset.cons_add, ih]
      · simp only [List.filter_cons, h1, h2, decide_True, decide_False, not_true_eq_false,
          not_false_eq_true, and_true, and_false, true_and, and_self, if_true, if_false,
          Bool.false_eq_true]
        rw [← Multiset.cons_coe, ← Multiset.cons_coe, Multiset.add_cons, ih]

/-- The predicates held by `maybe-Filter(child)` are the given predicates
followed by those of the child. -/
theorem planPredicates_specMaybeFilter (predicates : List AnnotatedExpression)
    (child : OperatorNode) :
    (specMaybeFilter predicates child).planPredicates = predicates ++ child.planPredicates := by
  cases predicates with
  | nil => rfl
  | cons p ps =>
    simp [specMaybeFilter, OperatorNode.planPredicates, OperatorNode.planPredicatesOfChildren,
      Operator.predicates]

/-- A pattern leaf holds no predicate. -/
theorem planPredicates_LeafNode (g : group_id_t) : (LeafNode g).planPredicates = [] := rfl

/-- The pushed join holds, as a multiset, the predicates that were split. -/
theorem planPredicates_specPushedJoin (ls rs : Finset String) (gl gr : group_id_t)
    (predicates : List AnnotatedExpression) :
    Multiset.ofList (specPushedJoin ls rs gl gr predicates).planPredicates =
      Multiset.ofList predicates := by
  have h : (specPushedJoin ls rs gl gr predicates).planPredicates =
      specJoinList ls rs predicates ++
        (specLeftList ls predicates ++ specRightList ls rs predicates) := by
    unfold specPushedJoin
    rw [OperatorNode.planPredicates, OperatorNode.planPredicatesOfChildren,
      OperatorNode.planPredicatesOfChildren, OperatorNode.planPredicatesOfChildren,
      planPredicates_specMaybeFilter, planPredicates_specMaybeFilter, planPredicates_LeafNode,
      planPredicates_LeafNode]
    simp [Operator.predicates]
  rw [h, ← specLists_multiset ls rs predicates, Multiset.coe_add, Multiset.coe_add,
    Multiset.coe_eq_coe]
  exact List.perm_append_comm

/-- The loop over the filter predicates of the push through aggregation
appends, in order, the predicates containing an aggregate to the first vector
and the others to the second. -/
theorem SplitStep_foldl (predicates : List AnnotatedExpression)
    (lists : List AnnotatedExpression × List AnnotatedExpression) :
    predicates.foldl RewritePushFilterThroughAggregation.SplitStep lists =
      (lists.1 ++ predicates.filter ContainsAggregate,
        lists.2 ++ predicates.filter (fun p => !ContainsAggregate p)) := by
  induction predicates generalizing lists with
  | nil => simp
  | cons p ps ih =>
    rw [List.foldl_cons, ih]
    unfold RewritePushFilterThroughAggregation.SplitStep
    by_cases h : (ExpressionUtil.GetAggregateExprs [] p.GetExpr).isEmpty
    · simp [h, ContainsAggregate, List.filter_cons]
    · simp [h, ContainsAggregate, List.filter_cons]

/-- Appending the elements of a vector one by one appends the vector. -/
theorem emplace_back_foldl (init having : List AnnotatedExpression) :
    having.foldl (fun acc predicate => acc ++ [predicate]) init = init ++ having := by
  induction having generalizing init with
  | nil => simp
  | cons p ps ih => rw [List.foldl_cons, ih]; simp

/-- The vector after `RewritePushFilterThroughAggregation::Transform` on a
Filter over an aggregation over one child. -/
theorem PushAggregation_Transform_eq (filter_predicates having : List AnnotatedExpression)
    (columns : List AbstractExpression) (child : OperatorNode)
    (transformed : List OperatorNode) :
    RewritePushFilterThroughAggregation.Transform
        (OperatorNode.mk (Operator.Filter ⟨filter_predicates⟩)
          [OperatorNode.mk (Operator.AggregateAndGroupBy ⟨columns, having⟩) [child]])
        transformed =
      some (transformed ++
        [OperatorNode.mk
          (Operator.AggregateAndGroupBy
            ⟨columns, filter_predicates.filter ContainsAggregate ++ having⟩)
          [specMaybeFilter (filter_predicates.filter (fun p => !ContainsAggregate p))
            child]]) := by
  cases hp : filter_predicates.filter (fun p => !ContainsAggregate p) <;>
  simp [RewritePushFilterThroughAggregation.Transform, OperatorNode.GetChildren,
    OperatorNode.GetOp, Operator.AsLogicalAggregateAndGroupBy, Operator.AsLogicalFilter,
    SplitStep_foldl, emplace_back_foldl, OperatorNode.Copy_eq, specMaybeFilter,
    LogicalAggregateAndGroupBy.Make, LogicalFilter.Make, hp]

/-- The plan emitted by the push through aggregation holds, as a multiset,
the predicates of its input. -/
theorem planPredicates_PushAggregation (filter_predicates having : List AnnotatedExpression)
    (columns : List AbstractExpression) (child : OperatorNode) :
    Multiset.ofList
        (OperatorNode.mk
          (Operator.AggregateAndGroupBy
            ⟨columns, filter_predicates.filter ContainsAggregate ++ having⟩)
          [specMaybeFilter (filter_predicates.filter (fun p => !ContainsAggregate p))
            child]).planPredicates =
      Multiset.ofList
        (OperatorNode.mk (Operator.Filter ⟨filter_predicates⟩)
          [OperatorNode.mk (Operator.AggregateAndGroupBy ⟨columns, having⟩)
            [child]]).planPredicates := by
  have hsplit : Multiset.ofList filter_predicates =
      Multiset.ofList (filter_predicates.filter ContainsAggregate) +
        Multiset.ofList (filter_predicates.filter (fun p => !ContainsAggregate p)) := by
    rw [Multiset.coe_add, Multiset.coe_eq_coe]
    exact (List.filter_append_perm ContainsAggregate filter_predicates).symm
  rw [OperatorNode.planPredicates, OperatorNode.planPredicatesOfChildren,
    OperatorNode.planPredicatesOfChildren, planPredicates_specMaybeFilter,
    OperatorNode.planPredicates, OperatorNode.planPredicatesOfChildren,
    OperatorNode.planPredicates, OperatorNode.planPredicatesOfChildren,
    OperatorNode.planPredicatesOfChildren, OperatorNode.planPredicatesOfChildren]
  simp only [Operator.predicates, List.append_nil, ← Multiset.coe_add]
  rw [hsplit]
  abel

/-- The predicates held by a join over two pattern leaves are its join
predicates. -/
theorem planPredicates_join_of_leaves (type : LogicalJoinType)
    (join_predicates : List AnnotatedExpression) (gl gr : group_id_t) :
    (OperatorNode.mk (Operator.Join ⟨type, join_predicates⟩)
      [LeafNode gl, LeafNode gr]).planPredicates = join_predicates := by
  show join_predicates ++ ([] ++ ([] ++ [])) = join_predicates
  simp

/-- The predicates held by a Filter over a join over two pattern leaves are
the filter predicates followed by the join predicates. -/
theorem planPredicates_filter_join_of_leaves (type : LogicalJoinType)
    (filter_predicates join_predicates : List AnnotatedExpression) (gl gr : group_id_t) :
    (OperatorNode.mk (Operator.Filter ⟨filter_predicates⟩)
      [OperatorNode.mk (Operator.Join ⟨type, join_predicates⟩)
        [LeafNode gl, LeafNode gr]]).planPredicates =
      filter_predicates ++ join_predicates := by
  show filter_predicates ++ ((join_predicates ++ ([] ++ ([] ++ []))) ++ []) =
    filter_predicates ++ join_predicates
  simp

/-- C5: predicate conservation of the filter-push rules.  For every plan
emitted by RewritePushImplicitFilterThroughJoin::Transform,
RewritePushExplicitFilterThroughJoin::Transform and
RewritePushFilterThroughAggregation::Transform on an input matching the
pattern of the rule, the multiset of the predicates held by the operators of
the emitted plan (Filter, join and HAVING predicates) equals the multiset of
the predicates held by the operators of the input plan; the last two rules
always emit a plan. -/
theorem filter_push_predicate_conservation
    (memo : Memo) (gl gr : group_id_t) (Gl Gr : Group)
    (hl : memo.GetGroupByID gl = some Gl) (hr : memo.GetGroupByID gr = some Gr)
    (join_predicates filter_predicates having : List AnnotatedExpression)
    (columns : List AbstractExpression) (g : group_id_t)
    (transformed : List OperatorNode) :
    (∃ out : List OperatorNode,
      RewritePushImplicitFilterThroughJoin.Transform
        (OperatorNode.mk (Operator.Join ⟨LogicalJoinType.INNER, join_predicates⟩)
          [LeafNode gl, LeafNode gr]) transformed memo = some (transformed ++ out) ∧
      ∀ plan ∈ out, Multiset.ofList plan.planPredicates =
        Multiset.ofList
          (OperatorNode.mk (Operator.Join ⟨LogicalJoinType.INNER, join_predicates⟩)
            [LeafNode gl, LeafNode gr]).planPredicates) ∧
    (∃ out : List OperatorNode,
      RewritePushExplicitFilterThroughJoin.Transform
        (OperatorNode.mk (Operator.Filter ⟨filter_predicates⟩)
          [OperatorNode.mk (Operator.Join ⟨LogicalJoinType.INNER, join_predicates⟩)
            [LeafNode gl, LeafNode gr]]) transformed memo = some (transformed ++ out) ∧
      out ≠ [] ∧
      ∀ plan ∈ out, Multiset.ofList plan.planPredicates =
        Multiset.ofList
          (OperatorNode.mk (Operator.Filter ⟨filter_predicates⟩)
            [OperatorNode.mk (Operator.Join ⟨LogicalJoinType.INNER, join_predicates⟩)
              [LeafNode gl, LeafNode gr]]).planPredicates) ∧
    (∃ out : List OperatorNode,
      RewritePushFilterThroughAggregation.Transform
        (OperatorNode.mk (Operator.Filter ⟨filter_predicates⟩)
          [OperatorNode.mk (Operator.AggregateAndGroupBy ⟨columns, having⟩) [LeafNode g]])
        transformed = some (transformed ++ out) ∧
      out ≠ [] ∧
      ∀ plan ∈ out, Multiset.ofList plan.planPredicates =
        Multiset.ofList
          (OperatorNode.mk (Operator.Filter ⟨filter_predicates⟩)
            [OperatorNode.mk (Operator.AggregateAndGroupBy ⟨columns, having⟩)
              [LeafNode g]]).planPredicates) := by
  refine ⟨?_, ?_, ?_⟩
  · rw [PushImplicit_Transform_eq memo gl gr Gl Gr hl hr]
    by_cases h : (specLeftList Gl.table_aliases join_predicates).isEmpty ∧
        (specRightList Gl.table_aliases Gr.table_aliases join_predicates).isEmpty
    · exact ⟨[], by rw [if_pos h, List.append_nil], by simp⟩
    · refine ⟨[specPushedJoin Gl.table_aliases Gr.table_aliases gl gr join_predicates],
        by rw [if_neg h], ?_⟩
      intro plan hplan
      rw [List.mem_singleton.mp hplan, planPredicates_specPushedJoin,
        planPredicates_join_of_leaves]
  · rw [PushExplicit_Transform_eq memo gl gr Gl Gr hl hr]
    refine ⟨[specPushedJoin Gl.table_aliases Gr.table_aliases gl gr
      (join_predicates ++ filter_predicates)], rfl, by simp, ?_⟩
    intro plan hplan
    rw [List.mem_singleton.mp hplan, planPredicates_specPushedJoin,
      planPredicates_filter_join_of_leaves, Multiset.coe_eq_coe]
    exact List.perm_append_comm
  · rw [PushAggregation_Transform_eq]
    refine ⟨_, rfl, by simp, ?_⟩
    intro plan hplan
    rw [List.mem_singleton.mp hplan]
    exact planPredicates_PushAggregation filter_predicates having columns (LeafNode g)

/-- Witness of C5: conservation on the sample inputs, whose join predicates
include `1 = 1`, a predicate whose (empty) alias set is a subset of the alias
sets of both children. -/
theorem filter_push_predicate_conservation_witness :
    (∃ out : List OperatorNode,
      RewritePushImplicitFilterThroughJoin.Transform
        (OperatorNode.mk
          (Operator.Join ⟨LogicalJoinType.INNER, [samplePredConst, samplePredAB, samplePredB]⟩)
          [LeafNode 0, LeafNode 1]) [] sampleMemo = some ([] ++ out) ∧
      ∀ plan ∈ out, Multiset.ofList plan.planPredicates =
        Multiset.ofList
          (OperatorNode.mk
            (Operator.Join
              ⟨LogicalJoinType.INNER, [samplePredConst, samplePredAB, samplePredB]⟩)
            [LeafNode 0, LeafNode 1]).planPredicates) ∧
    (∃ out : List OperatorNode,
      RewritePushExplicitFilterThroughJoin.Transform
        (OperatorNode.mk (Operator.Filter ⟨[samplePredA, samplePredAgg]⟩)
          [OperatorNode.mk
            (Operator.Join
              ⟨LogicalJoinType.INNER, [samplePredConst, samplePredAB, samplePredB]⟩)
            [LeafNode 0, LeafNode 1]]) [] sampleMemo = some ([] ++ out) ∧
      out ≠ [] ∧
      ∀ plan ∈ out, Multiset.ofList plan.planPredicates =
        Multiset.ofList
          (OperatorNode.mk (Operator.Filter ⟨[samplePredA, samplePredAgg]⟩)
            [OperatorNode.mk
              (Operator.Join
                ⟨LogicalJoinType.INNER, [samplePredConst, samplePredAB, samplePredB]⟩)
              [LeafNode 0, LeafNode 1]]).planPredicates) ∧
    (∃ out : List OperatorNode,
      RewritePushFilterThroughAggregation.Transform
        (OperatorNode.mk (Operator.Filter ⟨[samplePredA, samplePredAgg]⟩)
          [OperatorNode.mk (Operator.AggregateAndGroupBy ⟨[sampleColumn "a"], [samplePredAgg]⟩)
            [LeafNode 2]])
        [] = some ([] ++ out) ∧
      out ≠ [] ∧
      ∀ plan ∈ out, Multiset.ofList plan.planPredicates =
        Multiset.ofList
          (OperatorNode.mk (Operator.Filter ⟨[samplePredA, samplePredAgg]⟩)
            [OperatorNode.mk
              (Operator.AggregateAndGroupBy ⟨[sampleColumn "a"], [samplePredAgg]⟩)
              [LeafNode 2]]).planPredicates) :=
  filter_push_predicate_conservation sampleMemo 0 1 ⟨{"a"}⟩ ⟨{"b"}⟩ rfl rfl
    [samplePredConst, samplePredAB, samplePredB] [samplePredA, samplePredAgg] [samplePredAgg]
    [sampleColumn "a"] 2 []

/-! ## Join commutativity and associativity -/

/-- The vector after `LogicalInnerJoinCommutativity::Transform` on an INNER
join with two children. -/
theorem Commutativity_Transform_eq (predicates : List AnnotatedExpression)
    (first second : OperatorNode) (transformed : List OperatorNode) :
    LogicalInnerJoinCommutativity.Transform
        (OperatorNode.mk (Operator.Join ⟨LogicalJoinType.INNER, predicates⟩) [first, second])
        transformed =
      some (transformed ++
        [OperatorNode.mk (Operator.Join ⟨LogicalJoinType.INNER, predicates⟩)
          [second, first]]) := by
  simp [LogicalInnerJoinCommutativity.Transform, OperatorNode.GetChildren, OperatorNode.GetOp,
    Operator.AsLogicalJoin, TERRIER_ASSERT, OperatorNode.Copy_eq, LogicalJoin.Make]

/-- The loop redistributing the predicates of the associativity rule appends,
in order, the predicates passing the subset test to the first vector and the
others to the second. -/
theorem RedistributeStep_foldl (aliases : Finset String)
    (predicates : List AnnotatedExpression)
    (lists : List AnnotatedExpression × List AnnotatedExpression) :
    predicates.foldl (LogicalInnerJoinAssociativity.RedistributeStep aliases) lists =
      (lists.1 ++ predicates.filter (fun p => decide (p.table_alias_set ⊆ aliases)),
        lists.2 ++ predicates.filter (fun p => decide (¬ p.table_alias_set ⊆ aliases))) := by
  induction predicates generalizing lists with
  | nil => simp
  | cons p ps ih =>
    rw [List.foldl_cons, ih]
    unfold LogicalInnerJoinAssociativity.RedistributeStep OptimizerUtil.IsSubset
      AnnotatedExpression.GetTableAliasSet
    by_cases h : p.table_alias_set ⊆ aliases
    · simp [h, List.filter_cons]
    · simp [h, List.filter_cons]

/-- The vector after `LogicalInnerJoinAssociativity::Transform` on
Join(Join(left, middle), right) with both joins INNER and the middle and right
leaves bound to groups of the memo. -/
theorem Associativity_Transform_eq
    (memo : Memo) (gm gr : group_id_t) (Gm Gr : Group)
    (hm : memo.GetGroupByID gm = some Gm) (hr : memo.GetGroupByID gr = some Gr)
    (parent_predicates child_predicates : List AnnotatedExpression) (left : OperatorNode)
    (transformed : List OperatorNode) :
    LogicalInnerJoinAssociativity.Transform
        (OperatorNode.mk (Operator.Join ⟨LogicalJoinType.INNER, parent_predicates⟩)
          [OperatorNode.mk (Operator.Join ⟨LogicalJoinType.INNER, child_predicates⟩)
            [left, LeafNode gm], LeafNode gr]) transformed memo =
      some (transformed ++
        [OperatorNode.mk
          (Operator.Join ⟨LogicalJoinType.INNER,
            specOuterList Gm.table_aliases Gr.table_aliases
              (parent_predicates ++ child_predicates)⟩)
          [left,
           OperatorNode.mk
            (Operator.Join ⟨LogicalJoinType.INNER,
              specInnerList Gm.table_aliases Gr.table_aliases
                (parent_predicates ++ child_predicates)⟩)
            [LeafNode gm, LeafNode gr]]]) := by
  simp [LogicalInnerJoinAssociativity.Transform, OperatorNode.GetChildren, OperatorNode.GetOp,
    Operator.AsLogicalJoin, Operator.AsLeafOperator, LeafNode, TERRIER_ASSERT, hm, hr,
    RedistributeStep_foldl, OperatorNode.Copy_eq, LogicalJoin.Make, Group.GetTableAliases,
    specOuterList, specInnerList]

/-- The two lists of the redistribution hold, as a multiset, the predicates
that were redistributed. -/
theorem specOuterInner_multiset (ms rs : Finset String)
    (predicates : List AnnotatedExpression) :
    Multiset.ofList (specOuterList ms rs predicates) +
        Multiset.ofList (specInnerList ms rs predicates) =
      Multiset.ofList predicates := by
  rw [Multiset.coe_add, Multiset.coe_eq_coe]
  have h := List.filter_append_perm (fun p : AnnotatedExpression =>
    decide (p.table_alias_set ⊆ ms ∪ rs)) predicates
  refine List.perm_append_comm.trans ?_
  simpa [specOuterList, specInnerList] using h

/-- C6: for every input Join(Join(left, middle), right) with both joins INNER
and the middle and right pattern leaves bound to groups of the memo,
LogicalInnerJoinAssociativity::Transform appends exactly one plan, of the
shape Join(left, Join(middle, right)) with both joins INNER, in which left,
middle and right are the three subplans of the input in that order. -/
theorem Associativity_Transform_shape
    (memo : Memo) (gm gr : group_id_t) (Gm Gr : Group)
    (hm : memo.GetGroupByID gm = some Gm) (hr : memo.GetGroupByID gr = some Gr)
    (parent_predicates child_predicates : List AnnotatedExpression) (left : OperatorNode)
    (transformed : List OperatorNode) :
    ∃ new_parent_join_predicates new_child_join_predicates : List AnnotatedExpression,
      LogicalInnerJoinAssociativity.Transform
        (OperatorNode.mk (Operator.Join ⟨LogicalJoinType.INNER, parent_predicates⟩)
          [OperatorNode.mk (Operator.Join ⟨LogicalJoinType.INNER, child_predicates⟩)
            [left, LeafNode gm], LeafNode gr]) transformed memo =
      some (transformed ++
        [OperatorNode.mk (Operator.Join ⟨LogicalJoinType.INNER, new_parent_join_predicates⟩)
          [left,
           OperatorNode.mk (Operator.Join ⟨LogicalJoinType.INNER, new_child_join_predicates⟩)
            [LeafNode gm, LeafNode gr]]]) :=
  ⟨_, _, Associativity_Transform_eq memo gm gr Gm Gr hm hr parent_predicates child_predicates
    left transformed⟩

/-- Witness of C6: the join ((a JOIN b ON a.x = b.y) JOIN c ON b.y = c.z)
becomes a join of a with the join of b and c. -/
theorem Associativity_Transform_shape_witness :
    ∃ new_parent_join_predicates new_child_join_predicates : List AnnotatedExpression,
      LogicalInnerJoinAssociativity.Transform
        (OperatorNode.mk (Operator.Join ⟨LogicalJoinType.INNER, [samplePredBC]⟩)
          [OperatorNode.mk (Operator.Join ⟨LogicalJoinType.INNER, [samplePredAB]⟩)
            [LeafNode 0, LeafNode 1], LeafNode 2]) [] sampleMemo =
      some ([] ++
        [OperatorNode.mk (Operator.Join ⟨LogicalJoinType.INNER, new_parent_join_predicates⟩)
          [LeafNode 0,
           OperatorNode.mk (Operator.Join ⟨LogicalJoinType.INNER, new_child_join_predicates⟩)
            [LeafNode 1, LeafNode 2]]]) :=
  Associativity_Transform_shape sampleMemo 1 2 ⟨{"b"}⟩ ⟨{"c"}⟩ rfl rfl [samplePredBC]
    [samplePredAB] (LeafNode 0) []

/-- C7: LogicalInnerJoinAssociativity::Transform redistributes the predicates
of the parent join followed by those of the child join: the new inner join
(middle JOIN right) carries, in order, exactly the predicates whose alias set
is a subset of the union of the covered aliases of the middle and right
groups, and the new outer join carries, in order, every other predicate. -/
theorem Associativity_Transform_redistributes
    (memo : Memo) (gm gr : group_id_t) (Gm Gr : Group)
    (hm : memo.GetGroupByID gm = some Gm) (hr : memo.GetGroupByID gr = some Gr)
    (parent_predicates child_predicates : List AnnotatedExpression) (left : OperatorNode)
    (transformed : List OperatorNode) :
    LogicalInnerJoinAssociativity.Transform
        (OperatorNode.mk (Operator.Join ⟨LogicalJoinType.INNER, parent_predicates⟩)
          [OperatorNode.mk (Operator.Join ⟨LogicalJoinType.INNER, child_predicates⟩)
            [left, LeafNode gm], LeafNode gr]) transformed memo =
      some (transformed ++
        [OperatorNode.mk
          (Operator.Join ⟨LogicalJoinType.INNER,
            (parent_predicates ++ child_predicates).filter
              (fun p => decide (¬ p.table_alias_set ⊆ Gm.table_aliases ∪ Gr.table_aliases))⟩)
          [left,
           OperatorNode.mk
            (Operator.Join ⟨LogicalJoinType.INNER,
              (parent_predicates ++ child_predicates).filter
                (fun p => decide (p.table_alias_set ⊆ Gm.table_aliases ∪ Gr.table_aliases))⟩)
            [LeafNode gm, LeafNode gr]]]) :=
  Associativity_Transform_eq memo gm gr Gm Gr hm hr parent_predicates child_predicates
    left transformed

/-- Witness of C7: in ((a JOIN b ON a.x = b.y, b.y < 7) JOIN c ON b.y = c.z)
the predicates `b.y = c.z` and `b.y < 7` move to the new inner join of b and
c, and `a.x = b.y` stays at the new outer join. -/
theorem Associativity_Transform_redistributes_witness :
    LogicalInnerJoinAssociativity.Transform
        (OperatorNode.mk (Operator.Join ⟨LogicalJoinType.INNER, [samplePredBC]⟩)
          [OperatorNode.mk
            (Operator.Join ⟨LogicalJoinType.INNER, [samplePredAB, samplePredB]⟩)
            [LeafNode 0, LeafNode 1], LeafNode 2]) [] sampleMemo =
      some [OperatorNode.mk (Operator.Join ⟨LogicalJoinType.INNER, [samplePredAB]⟩)
        [LeafNode 0,
         OperatorNode.mk (Operator.Join ⟨LogicalJoinType.INNER, [samplePredBC, samplePredB]⟩)
          [LeafNode 1, LeafNode 2]]] :=
  (Associativity_Transform_redistributes sampleMemo 1 2 ⟨{"b"}⟩ ⟨{"c"}⟩ rfl rfl
    [samplePredBC] [samplePredAB, samplePredB] (LeafNode 0) []).trans (by rfl)

/-- C8: predicate conservation for join associativity.  The plan emitted by
LogicalInnerJoinAssociativity::Transform on a three-way inner join is
Join(left, Join(middle, right)) where the multiset union of the predicates of
the new outer join and of the new inner join equals the multiset union of the
predicates of the input parent join and of the input child join. -/
theorem Associativity_predicate_conservation
    (memo : Memo) (gm gr : group_id_t) (Gm Gr : Group)
    (hm : memo.GetGroupByID gm = some Gm) (hr : memo.GetGroupByID gr = some Gr)
    (parent_predicates child_predicates : List AnnotatedExpression) (left : OperatorNode)
    (transformed : List OperatorNode) :
    ∃ new_parent_join_predicates new_child_join_predicates : List AnnotatedExpression,
      LogicalInnerJoinAssociativity.Transform
        (OperatorNode.mk (Operator.Join ⟨LogicalJoinType.INNER, parent_predicates⟩)
          [OperatorNode.mk (Operator.Join ⟨LogicalJoinType.INNER, child_predicates⟩)
            [left, LeafNode gm], LeafNode gr]) transformed memo =
      some (transformed ++
        [OperatorNode.mk (Operator.Join ⟨LogicalJoinType.INNER, new_parent_join_predicates⟩)
          [left,
           OperatorNode.mk (Operator.Join ⟨LogicalJoinType.INNER, new_child_join_predicates⟩)
            [LeafNode gm, LeafNode gr]]]) ∧
      Multiset.ofList new_parent_join_predicates + Multiset.ofList new_child_join_predicates =
        Multiset.ofList parent_predicates + Multiset.ofList child_predicates := by
  refine ⟨_, _, Associativity_Transform_eq memo gm gr Gm Gr hm hr parent_predicates
    child_predicates left transformed, ?_⟩
  rw [specOuterInner_multiset, Multiset.coe_add]

/-- Witness of C8: conservation on the sample three-way join. -/
theorem Associativity_predicate_conservation_witness :
    ∃ new_parent_join_predicates new_child_join_predicates : List AnnotatedExpression,
      LogicalInnerJoinAssociativity.Transform
        (OperatorNode.mk (Operator.Join ⟨LogicalJoinType.INNER, [samplePredBC, samplePredConst]⟩)
          [OperatorNode.mk
            (Operator.Join ⟨LogicalJoinType.INNER, [samplePredAB, samplePredB]⟩)
            [LeafNode 0, LeafNode 1], LeafNode 2]) [] sampleMemo =
      some ([] ++
        [OperatorNode.mk (Operator.Join ⟨LogicalJoinType.INNER, new_parent_join_predicates⟩)
          [LeafNode 0,
           OperatorNode.mk (Operator.Join ⟨LogicalJoinType.INNER, new_child_join_predicates⟩)
            [LeafNode 1, LeafNode 2]]]) ∧
      Multiset.ofList new_parent_join_predicates + Multiset.ofList new_child_join_predicates =
        Multiset.ofList [samplePredBC, samplePredConst] +
          Multiset.ofList [samplePredAB, samplePredB] :=
  Associativity_predicate_conservation sampleMemo 1 2 ⟨{"b"}⟩ ⟨{"c"}⟩ rfl rfl
    [samplePredBC, samplePredConst] [samplePredAB, samplePredB] (LeafNode 0) []

/-- C9: for every INNER join with two children,
LogicalInnerJoinCommutativity::Transform appends exactly one plan: an INNER
join whose first child is the second child of the input, whose second child is
the first child of the input, and whose predicate list is the predicate list
of the input join in the same order. -/
theorem Commutativity_Transform_swaps (predicates : List AnnotatedExpression)
    (first second : OperatorNode) (transformed : List OperatorNode) :
    LogicalInnerJoinCommutativity.Transform
        (OperatorNode.mk (Operator.Join ⟨LogicalJoinType.INNER, predicates⟩) [first, second])
        transformed =
      some (transformed ++
        [OperatorNode.mk (Operator.Join ⟨LogicalJoinType.INNER, predicates⟩)
          [second, first]]) :=
  Commutativity_Transform_eq predicates first second transformed

/-- C10: commutativity is an involution.  For every INNER join with two
children, LogicalInnerJoinCommutativity::Transform emits one plan, and applied
to that plan it emits the original join: same join type, same predicates,
same children in the original order. -/
theorem Commutativity_Transform_involution (predicates : List AnnotatedExpression)
    (first second : OperatorNode) (transformed transformed_again : List OperatorNode) :
    ∃ plan : OperatorNode,
      LogicalInnerJoinCommutativity.Transform
        (OperatorNode.mk (Operator.Join ⟨LogicalJoinType.INNER, predicates⟩) [first, second])
        transformed = some (transformed ++ [plan]) ∧
      LogicalInnerJoinCommutativity.Transform plan transformed_again =
        some (transformed_again ++
          [OperatorNode.mk (Operator.Join ⟨LogicalJoinType.INNER, predicates⟩)
            [first, second]]) :=
  ⟨_, Commutativity_Transform_eq predicates first second transformed,
    Commutativity_Transform_eq predicates second first transformed_again⟩

/-! ## Filter push through an aggregation -/

mutual
/-- The vector `GetAggregateExprs` fills is empty exactly when it was empty
and the expression contains no aggregate expression. -/
theorem GetAggregateExprs_isEmpty : ∀ (expr : AbstractExpression)
    (aggr_exprs : List AbstractExpression),
    (ExpressionUtil.GetAggregateExprs aggr_exprs expr).isEmpty =
      (aggr_exprs.isEmpty && !specHasAggregate expr)
  | .mk t a d cs, aggr_exprs => by
    rw [ExpressionUtil.GetAggregateExprs, specHasAggregate]
    by_cases h : ExpressionUtil.IsAggregateExpression t = true
    · simp [h]
    · simp [h, GetAggregateExprsOfChildren_isEmpty cs aggr_exprs]
/-- The vector the loop over the children fills is empty exactly when it was
empty and no child contains an aggregate expression. -/
theorem GetAggregateExprsOfChildren_isEmpty : ∀ (exprs : List AbstractExpression)
    (aggr_exprs : List AbstractExpression),
    (ExpressionUtil.GetAggregateExprsOfChildren aggr_exprs exprs).isEmpty =
      (aggr_exprs.isEmpty && !specHasAggregateAny exprs)
  | [], aggr_exprs => by
    simp [ExpressionUtil.GetAggregateExprsOfChildren, specHasAggregateAny]
  | c :: cs, aggr_exprs => by
    rw [ExpressionUtil.GetAggregateExprsOfChildren, GetAggregateExprsOfChildren_isEmpty cs,
      GetAggregateExprs_isEmpty c aggr_exprs, specHasAggregateAny]
    simp [Bool.and_assoc]
end

/-- The test of the push through aggregation holds exactly for the predicates
that contain an aggregate expression. -/
theorem ContainsAggregate_eq (predicate : AnnotatedExpression) :
    ContainsAggregate predicate = specHasAggregate predicate.expr := by
  simp [ContainsAggregate, AnnotatedExpression.GetExpr, GetAggregateExprs_isEmpty]

/-- C11: for every input Filter(AggregateAndGroupBy(LEAF)),
RewritePushFilterThroughAggregation::Transform appends exactly one plan, an
AggregateAndGroupBy with the group-by columns of the input aggregation.  Its
HAVING list is the filter predicates that contain an aggregate expression, in
order, followed by the HAVING list of the input.  Its child is a Filter
carrying the filter predicates that contain no aggregate expression over the
leaf, or the bare leaf when there is no such predicate. -/
theorem PushAggregation_Transform_splits_by_aggregate
    (filter_predicates having : List AnnotatedExpression)
    (columns : List AbstractExpression) (g : group_id_t) (transformed : List OperatorNode) :
    RewritePushFilterThroughAggregation.Transform
        (OperatorNode.mk (Operator.Filter ⟨filter_predicates⟩)
          [OperatorNode.mk (Operator.AggregateAndGroupBy ⟨columns, having⟩) [LeafNode g]])
        transformed =
      some (transformed ++
        [OperatorNode.mk
          (Operator.AggregateAndGroupBy
            ⟨columns,
              filter_predicates.filter (fun p => specHasAggregate p.expr) ++ having⟩)
          [specMaybeFilter (filter_predicates.filter (fun p => !specHasAggregate p.expr))
            (LeafNode g)]]) := by
  rw [PushAggregation_Transform_eq]
  have h1 : ContainsAggregate = fun p => specHasAggregate p.expr :=
    funext ContainsAggregate_eq
  rw [h1]

/-! ## Filter combination, embedding into a scan, pull above a mark join -/

/-- C12: for every input Filter(Filter(X)),
RewriteCombineConsecutiveFilter::Transform appends exactly one plan: a single
Filter whose predicate list is the predicates of the outer filter followed by
the predicates of the inner filter, and whose only child is X. -/
theorem CombineConsecutiveFilter_Transform_concatenates
    (outer_predicates inner_predicates : List AnnotatedExpression) (x : OperatorNode)
    (transformed : List OperatorNode) :
    RewriteCombineConsecutiveFilter.Transform
        (OperatorNode.mk (Operator.Filter ⟨outer_predicates⟩)
          [OperatorNode.mk (Operator.Filter ⟨inner_predicates⟩) [x]]) transformed =
      some (transformed ++
        [OperatorNode.mk (Operator.Filter ⟨outer_predicates ++ inner_predicates⟩) [x]]) := by
  simp [RewriteCombineConsecutiveFilter.Transform, OperatorNode.GetChildren,
    OperatorNode.GetOp, Operator.AsLogicalFilter, OperatorNode.Copy_eq, LogicalFilter.Make]

/-- The vector after `RewriteEmbedFilterIntoGet::Transform` on a Filter over a
Get. -/
theorem EmbedFilterIntoGet_Transform_eq (filter_predicates : List AnnotatedExpression)
    (get : LogicalGet) (get_children : List OperatorNode) (transformed : List OperatorNode) :
    RewriteEmbedFilterIntoGet.Transform
        (OperatorNode.mk (Operator.Filter ⟨filter_predicates⟩)
          [OperatorNode.mk (Operator.Get get) get_children]) transformed =
      some (transformed ++
        [OperatorNode.mk
          (Operator.Get ⟨get.database_oid, get.namespace_oid, get.table_oid,
            filter_predicates, get.table_alias, get.is_for_update⟩) []]) := by
  simp [RewriteEmbedFilterIntoGet.Transform, OperatorNode.GetChildren, OperatorNode.GetOp,
    Operator.AsLogicalFilter, Operator.AsLogicalGet, LogicalGet.Make]

/-- C14: for every input Filter(Get), RewriteEmbedFilterIntoGet::Transform
appends exactly one plan: a Get without children that has the database
oid, namespace oid, table oid, table alias and for-update flag of the input
Get, and whose predicate list holds every predicate of the Filter (it is the
predicate list of the Filter). -/
theorem EmbedFilterIntoGet_Transform_embeds (filter_predicates : List AnnotatedExpression)
    (get : LogicalGet) (transformed : List OperatorNode) :
    ∃ new_get : LogicalGet,
      RewriteEmbedFilterIntoGet.Transform
        (OperatorNode.mk (Operator.Filter ⟨filter_predicates⟩)
          [OperatorNode.mk (Operator.Get get) []]) transformed =
        some (transformed ++ [OperatorNode.mk (Operator.Get new_get) []]) ∧
      new_get.database_oid = get.database_oid ∧
      new_get.namespace_oid = get.namespace_oid ∧
      new_get.table_oid = get.table_oid ∧
      new_get.table_alias = get.table_alias ∧
      new_get.is_for_update = get.is_for_update ∧
      new_get.predicates = filter_predicates :=
  ⟨_, EmbedFilterIntoGet_Transform_eq filter_predicates get [] transformed,
    rfl, rfl, rfl, rfl, rfl, rfl⟩

/-- C15, evaluation of the code at the failing input: on the Filter `a.z < 7`
over a Get that already carries `a.x = 5`, the emitted Get carries `a.z < 7`
only; the input plan holds two predicates and the emitted plan holds one. -/
theorem EmbedFilterIntoGet_Transform_drops_get_predicates :
    RewriteEmbedFilterIntoGet.Transform
        (OperatorNode.mk (Operator.Filter ⟨[samplePredA2]⟩)
          [OperatorNode.mk (Operator.Get sampleGet) []]) [] =
      some [OperatorNode.mk (Operator.Get ⟨1, 2, 3, [samplePredA2], "a", false⟩) []] ∧
    (OperatorNode.mk (Operator.Filter ⟨[samplePredA2]⟩)
      [OperatorNode.mk (Operator.Get sampleGet) []]).planPredicates =
        [samplePredA2, samplePredA] ∧
    (OperatorNode.mk (Operator.Get ⟨1, 2, 3, [samplePredA2], "a", false⟩) []).planPredicates =
      [samplePredA2] ∧
    Multiset.ofList [samplePredA2] ≠ Multiset.ofList [samplePredA2, samplePredA] := by
  refine ⟨rfl, rfl, rfl, ?_⟩
  intro h
  have hcard := congrArg Multiset.card h
  simp at hcard

/-- C16: for every input Join(L, Filter(X)) whose join type is MARK and whose
join predicate list is empty, RewritePullFilterThroughMarkJoin::Transform
appends exactly one plan Filter(Join(L, X)), in which the Filter operator is
the Filter operator of the input, the Join operator is the join operator of
the input, and L and X are the subplans of the input. -/
theorem PullMarkJoin_Transform_lifts_filter (filter_predicates : List AnnotatedExpression)
    (l x : OperatorNode) (transformed : List OperatorNode) :
    RewritePullFilterThroughMarkJoin.Transform
        (OperatorNode.mk (Operator.Join ⟨LogicalJoinType.MARK, []⟩)
          [l, OperatorNode.mk (Operator.Filter ⟨filter_predicates⟩) [x]]) transformed =
      some (transformed ++
        [OperatorNode.mk (Operator.Filter ⟨filter_predicates⟩)
          [OperatorNode.mk (Operator.Join ⟨LogicalJoinType.MARK, []⟩) [l, x]]]) := by
  simp [RewritePullFilterThroughMarkJoin.Transform, OperatorNode.GetChildren,
    OperatorNode.GetOp, Operator.AsLogicalJoin, TERRIER_ASSERT, OperatorNode.Copy_eq]

/-- A plan the pattern Filter(Filter(LEAF)) matches is a Filter one of whose
children is a Filter. -/
theorem CombineConsecutiveFilter_Matches_imp (op : Operator) (cs : List OperatorNode)
    (h : RewriteCombineConsecutiveFilter.match_pattern.Matches (OperatorNode.mk op cs) = true) :
    (decide (op.GetType = OpType.LOGICALFILTER) &&
      cs.any (fun c => decide (c.GetOp.GetType = OpType.LOGICALFILTER))) = true := by
  cases cs with
  | nil =>
    simp [RewriteCombineConsecutiveFilter.match_pattern, Pattern.AddChild, Pattern.Matches,
      Pattern.MatchesChildren, OperatorNode.GetChildren] at h
  | cons c rest =>
    cases c with
    | mk cop ccs =>
      simp [RewriteCombineConsecutiveFilter.match_pattern, Pattern.AddChild, Pattern.Matches,
        Pattern.MatchesChildren, OperatorNode.GetChildren, OperatorNode.GetOp] at h
      simp [h.1, h.2.1.1, OperatorNode.GetOp]

/-- Applying the rule at the root keeps a plan whose root is not a Filter over
a Filter. -/
theorem CombineConsecutiveFilter_ApplyAtRoot_eq (op : Operator) (cs : List OperatorNode)
    (h : (!(decide (op.GetType = OpType.LOGICALFILTER) &&
      cs.any (fun c => decide (c.GetOp.GetType = OpType.LOGICALFILTER)))) = true) :
    RewriteCombineConsecutiveFilter.ApplyAtRoot (OperatorNode.mk op cs) =
      OperatorNode.mk op cs := by
  unfold RewriteCombineConsecutiveFilter.ApplyAtRoot
  have hm : RewriteCombineConsecutiveFilter.match_pattern.Matches (OperatorNode.mk op cs) =
      false := by
    cases hmatch : RewriteCombineConsecutiveFilter.match_pattern.Matches (OperatorNode.mk op cs)
    · rfl
    · have := CombineConsecutiveFilter_Matches_imp op cs hmatch
      rw [this] at h
      simp at h
  simp [hm]

mutual
/-- Applying the rule everywhere keeps a plan without consecutive Filters. -/
theorem CombineConsecutiveFilter_Apply_eq : ∀ plan : OperatorNode,
    specNoConsecutiveFilter plan = true → RewriteCombineConsecutiveFilter.Apply plan = plan
  | .mk op cs, h => by
    rw [specNoConsecutiveFilter, Bool.and_eq_true] at h
    rw [RewriteCombineConsecutiveFilter.Apply, CombineConsecutiveFilter_ApplyChildren_eq cs h.2]
    exact CombineConsecutiveFilter_ApplyAtRoot_eq op cs h.1
/-- Applying the rule everywhere keeps a list of plans without consecutive
Filters. -/
theorem CombineConsecutiveFilter_ApplyChildren_eq : ∀ plans : List OperatorNode,
    specNoConsecutiveFilterAll plans = true →
      RewriteCombineConsecutiveFilter.ApplyChildren plans = plans
  | [], _ => by rw [RewriteCombineConsecutiveFilter.ApplyChildren]
  | c :: cs, h => by
    rw [specNoConsecutiveFilterAll, Bool.and_eq_true] at h
    rw [RewriteCombineConsecutiveFilter.ApplyChildren, CombineConsecutiveFilter_Apply_eq c h.1,
      CombineConsecutiveFilter_ApplyChildren_eq cs h.2]
end

/-- C13: rule idempotence on fixpoints.  For every plan that contains no
Filter whose direct child is a Filter, the pattern Filter(Filter(LEAF)) of
RewriteCombineConsecutiveFilter does not match the plan, and applying the rule
(pattern match, then Transform) at the root or throughout the plan returns the
input plan unchanged. -/
theorem CombineConsecutiveFilter_idempotent_on_fixpoints (plan : OperatorNode)
    (h : specNoConsecutiveFilter plan = true) :
    RewriteCombineConsecutiveFilter.match_pattern.Matches plan = false ∧
    RewriteCombineConsecutiveFilter.ApplyAtRoot plan = plan ∧
    RewriteCombineConsecutiveFilter.Apply plan = plan := by
  refine ⟨?_, ?_, CombineConsecutiveFilter_Apply_eq plan h⟩
  · cases plan with
    | mk op cs =>
      rw [specNoConsecutiveFilter, Bool.and_eq_true] at h
      cases hmatch : RewriteCombineConsecutiveFilter.match_pattern.Matches
        (OperatorNode.mk op cs)
      · rfl
      · have := CombineConsecutiveFilter_Matches_imp op cs hmatch
        rw [this] at h
        simp at h
  · cases plan with
    | mk op cs =>
      rw [specNoConsecutiveFilter, Bool.and_eq_true] at h
      exact CombineConsecutiveFilter_ApplyAtRoot_eq op cs h.1

/-- Witness of C13: the plan Filter(Join(Filter(LEAF), Filter(LEAF))) holds no
consecutive Filters and the rule returns it unchanged. -/
theorem CombineConsecutiveFilter_idempotent_on_fixpoints_witness :
    specNoConsecutiveFilter samplePlanSeparateFilters = true ∧
    RewriteCombineConsecutiveFilter.match_pattern.Matches samplePlanSeparateFilters = false ∧
    RewriteCombineConsecutiveFilter.ApplyAtRoot samplePlanSeparateFilters =
      samplePlanSeparateFilters ∧
    RewriteCombineConsecutiveFilter.Apply samplePlanSeparateFilters =
      samplePlanSeparateFilters :=
  ⟨by decide, CombineConsecutiveFilter_idempotent_on_fixpoints samplePlanSeparateFilters
    (by decide)⟩

/-! ## Filter pull above an aggregation -/

/-- The expression a predicate with children 0 and 1 adds to the group-by
columns. -/
theorem NewGroupByCol_eq (root_expr c0 c1 : AbstractExpression)
    (h0 : root_expr.GetChild 0 = some c0) (h1 : root_expr.GetChild 1 = some c1) :
    RewritePullFilterThroughAggregation.NewGroupByCol root_expr =
      some (if c0.GetDepth < root_expr.GetDepth then c1 else c0) := by
  unfold RewritePullFilterThroughAggregation.NewGroupByCol
  rw [h0]
  by_cases h : c0.GetDepth < root_expr.GetDepth
  · simp [h, h1]
  · simp [h]

/-- An expression with at least two children has a child 0 and a child 1. -/
theorem GetChild_of_two_le (expr : AbstractExpression) (h : 2 ≤ expr.GetChildren.length) :
    ∃ c0 c1 : AbstractExpression, expr.GetChild 0 = some c0 ∧ expr.GetChild 1 = some c1 := by
  unfold AbstractExpression.GetChild
  cases hcs : expr.GetChildren with
  | nil => rw [hcs] at h; simp at h
  | cons c0 rest =>
    cases rest with
    | nil => rw [hcs] at h; simp at h
    | cons c1 rest => exact ⟨c0, c1, by simp, by simp⟩

/-- A predicate with at least two children adds an expression to the group-by
columns. -/
theorem NewGroupByCol_isSome (expr : AbstractExpression) (h : 2 ≤ expr.GetChildren.length) :
    ∃ col, RewritePullFilterThroughAggregation.NewGroupByCol expr = some col := by
  obtain ⟨c0, c1, h0, h1⟩ := GetChild_of_two_le expr h
  exact ⟨_, NewGroupByCol_eq expr c0 c1 h0 h1⟩

/-- Appending the columns of a vector one by one appends the vector. -/
theorem emplace_back_cols_foldl (init columns : List AbstractExpression) :
    columns.foldl (fun acc col => acc ++ [col]) init = init ++ columns := by
  induction columns generalizing init with
  | nil => simp
  | cons c cs ih => rw [List.foldl_cons, ih]; simp

/-- The loop of the pull above an aggregation, when every correlated
predicate has at least two children: it appends, in order, the correlated
predicates, the non-correlated predicates, and one group-by column per
correlated predicate. -/
theorem PullLoop_eq (aliases : Finset String) (predicates : List AnnotatedExpression)
    (hwf : ∀ p ∈ predicates, ¬ p.table_alias_set ⊆ aliases → 2 ≤ p.expr.GetChildren.length)
    (lists : RewritePullFilterThroughAggregation.PullLists) :
    RewritePullFilterThroughAggregation.PullLoop aliases predicates lists =
      some ⟨lists.correlated_predicates ++ specCorrelatedList aliases predicates,
        lists.normal_predicates ++ specNormalList aliases predicates,
        lists.new_groupby_cols ++
          (specCorrelatedList aliases predicates).filterMap
            (fun p => RewritePullFilterThroughAggregation.NewGroupByCol p.expr)⟩ := by
  induction predicates generalizing lists with
  | nil =>
    simp [RewritePullFilterThroughAggregation.PullLoop, specCorrelatedList, specNormalList]
  | cons p ps ih =>
    have hps : ∀ q ∈ ps, ¬ q.table_alias_set ⊆ aliases → 2 ≤ q.expr.GetChildren.length :=
      fun q hq => hwf q (List.mem_cons_of_mem p hq)
    rw [RewritePullFilterThroughAggregation.PullLoop]
    unfold RewritePullFilterThroughAggregation.PullStep OptimizerUtil.IsSubset
      AnnotatedExpression.GetTableAliasSet AnnotatedExpression.GetExpr
    by_cases h : p.table_alias_set ⊆ aliases
    · simp only [h, decide_True, if_true]
      rw [ih hps]
      simp [specCorrelatedList, specNormalList, List.filter_cons, h]
    · obtain ⟨col, hcol⟩ := NewGroupByCol_isSome p.expr (hwf p (List.mem_cons_self p ps) h)
      simp only [h, decide_False, Bool.false_eq_true, if_false, hcol]
      rw [ih hps]
      simp [specCorrelatedList, specNormalList, List.filter_cons, h, hcol]

/-- The vector after `RewritePullFilterThroughAggregation::Transform` on an
aggregation over a Filter over a bound leaf, when every correlated predicate
has at least two children. -/
theorem PullAggregation_Transform_eq
    (memo : Memo) (g : group_id_t) (G : Group) (hg : memo.GetGroupByID g = some G)
    (predicates having : List AnnotatedExpression) (columns : List AbstractExpression)
    (hwf : ∀ p ∈ predicates,
      ¬ p.table_alias_set ⊆ G.table_aliases → 2 ≤ p.expr.GetChildren.length)
    (transformed : List OperatorNode) :
    RewritePullFilterThroughAggregation.Transform
        (OperatorNode.mk (Operator.AggregateAndGroupBy ⟨columns, having⟩)
          [OperatorNode.mk (Operator.Filter ⟨predicates⟩) [LeafNode g]]) transformed memo =
      some (if (specCorrelatedList G.table_aliases predicates).isEmpty then transformed
        else transformed ++
          [OperatorNode.mk (Operator.Filter ⟨specCorrelatedList G.table_aliases predicates⟩)
            [OperatorNode.mk
              (Operator.AggregateAndGroupBy
                ⟨(specCorrelatedList G.table_aliases predicates).filterMap
                    (fun p => RewritePullFilterThroughAggregation.NewGroupByCol p.expr) ++
                  columns, having⟩)
              [specMaybeFilter (specNormalList G.table_aliases predicates) (LeafNode g)]]]) := by
  have hloop := PullLoop_eq G.table_aliases predicates hwf ⟨[], [], []⟩
  simp only [List.nil_append] at hloop
  have hbranch : ∀ (ps : List AnnotatedExpression) (child : OperatorNode),
      (if (!ps.isEmpty) = true then OperatorNode.mk (Operator.Filter ⟨ps⟩) [child]
        else child) = specMaybeFilter ps child := by
    intro ps child
    cases ps <;> simp [specMaybeFilter]
  by_cases hc : (specCorrelatedList G.table_aliases predicates).isEmpty
  · simp [RewritePullFilterThroughAggregation.Transform, OperatorNode.GetChildren,
      OperatorNode.GetOp, LeafNode, Operator.AsLeafOperator, Operator.AsLogicalFilter, hg,
      Group.GetTableAliases, hloop, hc]
  · simp [RewritePullFilterThroughAggregation.Transform, OperatorNode.GetChildren,
      OperatorNode.GetOp, LeafNode, Operator.AsLeafOperator, Operator.AsLogicalFilter,
      Operator.AsLogicalAggregateAndGroupBy, hg, Group.GetTableAliases, hloop, hc,
      OperatorNode.Copy_eq, hbranch, LogicalAggregateAndGroupBy.Make, LogicalFilter.Make,
      emplace_back_cols_foldl]

/-- The group-by columns added by the correlated predicates: one per
predicate, in order, each the expression its predicate adds. -/
theorem NewGroupByCol_forall₂ (correlated : List AnnotatedExpression)
    (hwf : ∀ p ∈ correlated, 2 ≤ p.expr.GetChildren.length) :
    List.Forall₂
      (fun p col => RewritePullFilterThroughAggregation.NewGroupByCol p.expr = some col)
      correlated
      (correlated.filterMap
        (fun p => RewritePullFilterThroughAggregation.NewGroupByCol p.expr)) := by
  induction correlated with
  | nil => exact List.Forall₂.nil
  | cons p ps ih =>
    obtain ⟨col, hcol⟩ := NewGroupByCol_isSome p.expr (hwf p (List.mem_cons_self p ps))
    rw [List.filterMap_cons, hcol]
    exact List.Forall₂.cons hcol (ih (fun q hq => hwf q (List.mem_cons_of_mem p hq)))

/-- Every correlated predicate of a list whose correlated predicates have two
children has two children. -/
theorem specCorrelatedList_wf (aliases : Finset String)
    (predicates : List AnnotatedExpression)
    (hwf : ∀ p ∈ predicates, ¬ p.table_alias_set ⊆ aliases → 2 ≤ p.expr.GetChildren.length) :
    ∀ p ∈ specCorrelatedList aliases predicates, 2 ≤ p.expr.GetChildren.length := by
  intro p hp
  have h := List.mem_filter.mp hp
  exact hwf p h.1 (by simpa using h.2)

/-- C17, counterexample: the predicate `a.flag`, a bare column reference, is
correlated for the leaf group covering b, and on the aggregation over the
Filter carrying it the call aborts: no plan is emitted. -/
theorem PullAggregation_Transform_childless_correlated :
    sampleMemo.GetGroupByID 1 = some ⟨{"b"}⟩ ∧
    specCorrelatedList {"b"} [samplePredBare] = [samplePredBare] ∧
    RewritePullFilterThroughAggregation.Transform
        (OperatorNode.mk (Operator.AggregateAndGroupBy ⟨[], []⟩)
          [OperatorNode.mk (Operator.Filter ⟨[samplePredBare]⟩) [LeafNode 1]]) []
        sampleMemo = none :=
  ⟨rfl, rfl, rfl⟩

/-- C17, amended: for every input AggregateAndGroupBy(Filter(LEAF)) whose leaf
group is in the memo and whose correlated predicates each have at least two
children, RewritePullFilterThroughAggregation::Transform classifies a filter
predicate as non-correlated when its alias set is a subset of the covered
aliases of the leaf group and as correlated otherwise.  Without a correlated
predicate nothing is emitted.  Otherwise exactly one plan is emitted: a Filter
carrying exactly the correlated predicates, over an AggregateAndGroupBy that
keeps the HAVING list of the input, over a Filter carrying exactly the
non-correlated predicates above the leaf, or over the bare leaf when there is
no non-correlated predicate. -/
theorem PullAggregation_Transform_classifies
    (memo : Memo) (g : group_id_t) (G : Group) (hg : memo.GetGroupByID g = some G)
    (predicates having : List AnnotatedExpression) (columns : List AbstractExpression)
    (hwf : ∀ p ∈ predicates,
      ¬ p.table_alias_set ⊆ G.table_aliases → 2 ≤ p.expr.GetChildren.length)
    (transformed : List OperatorNode) :
    ∃ new_groupby_cols : List AbstractExpression,
      RewritePullFilterThroughAggregation.Transform
        (OperatorNode.mk (Operator.AggregateAndGroupBy ⟨columns, having⟩)
          [OperatorNode.mk (Operator.Filter ⟨predicates⟩) [LeafNode g]]) transformed memo =
      some (if (predicates.filter
            (fun p => decide (¬ p.table_alias_set ⊆ G.table_aliases))).isEmpty
        then transformed
        else transformed ++
          [OperatorNode.mk
            (Operator.Filter ⟨predicates.filter
              (fun p => decide (¬ p.table_alias_set ⊆ G.table_aliases))⟩)
            [OperatorNode.mk (Operator.AggregateAndGroupBy ⟨new_groupby_cols, having⟩)
              [specMaybeFilter
                (predicates.filter (fun p => decide (p.table_alias_set ⊆ G.table_aliases)))
                (LeafNode g)]]]) :=
  ⟨_, PullAggregation_Transform_eq memo g G hg predicates having columns hwf transformed⟩

/-- Witness of C17: over the leaf group covering b, the predicates
`a.x = b.y` (correlated) and `b.y < 7` (not correlated) give a Filter
`a.x = b.y` over the aggregation over a Filter `b.y < 7`; with `b.y < 7` alone
nothing is emitted. -/
theorem PullAggregation_Transform_classifies_witness :
    (∃ new_groupby_cols : List AbstractExpression,
      RewritePullFilterThroughAggregation.Transform
        (OperatorNode.mk (Operator.AggregateAndGroupBy ⟨[], [samplePredAgg]⟩)
          [OperatorNode.mk (Operator.Filter ⟨[samplePredOuterLeft, samplePredB]⟩)
            [LeafNode 1]]) [] sampleMemo =
      some ([] ++
          [OperatorNode.mk (Operator.Filter ⟨[samplePredOuterLeft]⟩)
            [OperatorNode.mk (Operator.AggregateAndGroupBy ⟨new_groupby_cols, [samplePredAgg]⟩)
              [OperatorNode.mk (Operator.Filter ⟨[samplePredB]⟩) [LeafNode 1]]]])) ∧
    RewritePullFilterThroughAggregation.Transform
        (OperatorNode.mk (Operator.AggregateAndGroupBy ⟨[], [samplePredAgg]⟩)
          [OperatorNode.mk (Operator.Filter ⟨[samplePredB]⟩) [LeafNode 1]]) [] sampleMemo =
      some [] :=
  ⟨PullAggregation_Transform_classifies sampleMemo 1 ⟨{"b"}⟩ rfl
      [samplePredOuterLeft, samplePredB] [samplePredAgg] [] (by decide) [],
   (PullAggregation_Transform_classifies sampleMemo 1 ⟨{"b"}⟩ rfl
      [samplePredB] [samplePredAgg] [] (by decide) []).elim (fun _ h => h)⟩

/-- C19, counterexample: the correlated predicate `a.x = b.y` at depth 1 has
two children of equal depth 1, and the expression the rule adds as a new
group-by column is its left child `a.x` (child 0), which differs from its
right child `b.y` (child 1). -/
theorem PullAggregation_equal_depth_adds_left_child :
    samplePredEqualDepth.expr.GetChild 0 = some (sampleColumnAt "a" 1) ∧
    samplePredEqualDepth.expr.GetChild 1 = some (sampleColumnAt "b" 1) ∧
    (sampleColumnAt "a" 1).GetDepth = (sampleColumnAt "b" 1).GetDepth ∧
    specCorrelatedList {"b"} [samplePredEqualDepth] = [samplePredEqualDepth] ∧
    RewritePullFilterThroughAggregation.Transform
        (OperatorNode.mk (Operator.AggregateAndGroupBy ⟨[], []⟩)
          [OperatorNode.mk (Operator.Filter ⟨[samplePredEqualDepth]⟩) [LeafNode 1]]) []
        sampleMemo =
      some [OperatorNode.mk (Operator.Filter ⟨[samplePredEqualDepth]⟩)
        [OperatorNode.mk (Operator.AggregateAndGroupBy ⟨[sampleColumnAt "a" 1], []⟩)
          [LeafNode 1]]] ∧
    sampleColumnAt "a" 1 ≠ sampleColumnAt "b" 1 := by
  refine ⟨rfl, rfl, rfl, rfl, rfl, ?_⟩
  simp [sampleColumnAt]

/-- C19, amended: in the plan RewritePullFilterThroughAggregation::Transform
emits, for every correlated predicate whose two children have equal depth, the
expression added as a new group-by column is the right child (child 1) when
that depth is less than the depth of the predicate, and the left child
(child 0) otherwise. -/
theorem PullAggregation_equal_depth_tie_break
    (memo : Memo) (g : group_id_t) (G : Group) (hg : memo.GetGroupByID g = some G)
    (predicates having : List AnnotatedExpression) (columns : List AbstractExpression)
    (hwf : ∀ p ∈ predicates,
      ¬ p.table_alias_set ⊆ G.table_aliases → 2 ≤ p.expr.GetChildren.length)
    (hcorr : (specCorrelatedList G.table_aliases predicates).isEmpty = false)
    (transformed : List OperatorNode) :
    ∃ new_cols : List AbstractExpression,
      RewritePullFilterThroughAggregation.Transform
        (OperatorNode.mk (Operator.AggregateAndGroupBy ⟨columns, having⟩)
          [OperatorNode.mk (Operator.Filter ⟨predicates⟩) [LeafNode g]]) transformed memo =
        some (transformed ++
          [OperatorNode.mk
            (Operator.Filter ⟨specCorrelatedList G.table_aliases predicates⟩)
            [OperatorNode.mk
              (Operator.AggregateAndGroupBy ⟨new_cols ++ columns, having⟩)
              [specMaybeFilter (specNormalList G.table_aliases predicates) (LeafNode g)]]]) ∧
      List.Forall₂
        (fun p col => ∀ c0 c1 : AbstractExpression,
          p.expr.GetChild 0 = some c0 → p.expr.GetChild 1 = some c1 →
            c0.GetDepth = c1.GetDepth →
              col = if c0.GetDepth < p.expr.GetDepth then c1 else c0)
        (specCorrelatedList G.table_aliases predicates) new_cols := by
  refine ⟨(specCorrelatedList G.table_aliases predicates).filterMap
    (fun p => RewritePullFilterThroughAggregation.NewGroupByCol p.expr), ?_, ?_⟩
  · rw [PullAggregation_Transform_eq memo g G hg predicates having columns hwf transformed]
    simp [hcorr]
  · refine List.Forall₂.imp ?_
      (NewGroupByCol_forall₂ _ (specCorrelatedList_wf G.table_aliases predicates hwf))
    intro p col hcol c0 c1 h0 h1 _
    rw [NewGroupByCol_eq p.expr c0 c1 h0 h1] at hcol
    exact (Option.some.inj hcol).symm

/-- Witness of C19: over the leaf group covering b, the predicate `a.x = b.y`
whose children both have the depth 1 of the predicate adds its left child,
and the predicate `a.x = c.z` whose children both have depth 0, less than the
depth 1 of the predicate, adds its right child. -/
theorem PullAggregation_equal_depth_tie_break_witness :
    (∃ new_cols : List AbstractExpression,
      RewritePullFilterThroughAggregation.Transform
        (OperatorNode.mk (Operator.AggregateAndGroupBy ⟨[], []⟩)
          [OperatorNode.mk (Operator.Filter ⟨[samplePredEqualDepth, samplePredBothOuter]⟩)
            [LeafNode 1]]) [] sampleMemo =
        some ([] ++
          [OperatorNode.mk
            (Operator.Filter
              ⟨specCorrelatedList {"b"} [samplePredEqualDepth, samplePredBothOuter]⟩)
            [OperatorNode.mk
              (Operator.AggregateAndGroupBy ⟨new_cols ++ [], []⟩)
              [specMaybeFilter
                (specNormalList {"b"} [samplePredEqualDepth, samplePredBothOuter])
                (LeafNode 1)]]]) ∧
      List.Forall₂
        (fun p col => ∀ c0 c1 : AbstractExpression,
          p.expr.GetChild 0 = some c0 → p.expr.GetChild 1 = some c1 →
            c0.GetDepth = c1.GetDepth →
              col = if c0.GetDepth < p.expr.GetDepth then c1 else c0)
        (specCorrelatedList {"b"} [samplePredEqualDepth, samplePredBothOuter]) new_cols) ∧
    RewritePullFilterThroughAggregation.Transform
        (OperatorNode.mk (Operator.AggregateAndGroupBy ⟨[], []⟩)
          [OperatorNode.mk (Operator.Filter ⟨[samplePredEqualDepth, samplePredBothOuter]⟩)
            [LeafNode 1]]) [] sampleMemo =
      some [OperatorNode.mk (Operator.Filter ⟨[samplePredEqualDepth, samplePredBothOuter]⟩)
        [OperatorNode.mk
          (Operator.AggregateAndGroupBy ⟨[sampleColumnAt "a" 1, sampleColumnAt "c" 0], []⟩)
          [LeafNode 1]]] :=
  ⟨PullAggregation_equal_depth_tie_break sampleMemo 1 ⟨{"b"}⟩ rfl
      [samplePredEqualDepth, samplePredBothOuter] [] [] (by decide) rfl [],
   rfl⟩

/-! ## The child property deriver -/

mutual
/-- The expressions `GetTupleValueExprs` collects are column references. -/
theorem GetTupleValueExprs_column_value : ∀ (expr : AbstractExpression)
    (tuples : List AbstractExpression),
    (∀ x ∈ tuples, x.GetExpressionType = ExpressionType.COLUMN_VALUE) →
    ∀ x ∈ ExpressionUtil.GetTupleValueExprs tuples expr,
      x.GetExpressionType = ExpressionType.COLUMN_VALUE
  | .mk t a d cs, tuples, h => by
    rw [ExpressionUtil.GetTupleValueExprs]
    have hcs := GetTupleValueExprsOfChildren_column_value cs tuples h
    by_cases ht : t = ExpressionType.COLUMN_VALUE
    · simp only [ht, if_true]
      intro x hx
      rcases List.mem_append.mp hx with hx | hx
      · exact hcs x (by simpa [ht] using hx)
      · rw [List.mem_singleton.mp hx]; rfl
    · simp only [ht, if_false]
      exact hcs
/-- The expressions the loop over the children collects are column
references. -/
theorem GetTupleValueExprsOfChildren_column_value : ∀ (exprs : List AbstractExpression)
    (tuples : List AbstractExpression),
    (∀ x ∈ tuples, x.GetExpressionType = ExpressionType.COLUMN_VALUE) →
    ∀ x ∈ ExpressionUtil.GetTupleValueExprsOfChildren tuples exprs,
      x.GetExpressionType = ExpressionType.COLUMN_VALUE
  | [], tuples, h => by
    rw [ExpressionUtil.GetTupleValueExprsOfChildren]; exact h
  | c :: cs, tuples, h => by
    rw [ExpressionUtil.GetTupleValueExprsOfChildren]
    exact GetTupleValueExprsOfChildren_column_value cs _
      (GetTupleValueExprs_column_value c tuples h)
end

/-- The loop over column references does not abort. -/
theorem TupleLoop_isSome (collaborators : DeriverCollaborators) (probe_group : Group)
    (tuples : List AbstractExpression)
    (h : ∀ x ∈ tuples, x.GetExpressionType = ExpressionType.COLUMN_VALUE) :
    ∃ b, ChildPropertyDeriver.TupleLoop collaborators probe_group tuples = some b := by
  induction tuples with
  | nil => exact ⟨true, rfl⟩
  | cons e es ih =>
    have he := h e (List.mem_cons_self e es)
    rw [ChildPropertyDeriver.TupleLoop]
    simp only [AsColumnValueExpression, he, if_true]
    by_cases hin : collaborators.GetTableName e ∉ probe_group.GetTableAliases
    · exact ⟨false, by rw [if_pos hin]⟩
    · rw [if_neg hin]
      exact ih (fun x hx => h x (List.mem_cons_of_mem e hx))

/-- The loop over the sort columns does not abort. -/
theorem SortColumnLoop_isSome (collaborators : DeriverCollaborators) (probe_group : Group)
    (sort_columns : List AbstractExpression) :
    ∃ b, ChildPropertyDeriver.SortColumnLoop collaborators probe_group sort_columns =
      some b := by
  induction sort_columns with
  | nil => exact ⟨true, rfl⟩
  | cons col cols ih =>
    rw [ChildPropertyDeriver.SortColumnLoop]
    obtain ⟨b, hb⟩ := TupleLoop_isSome collaborators probe_group
      (ExpressionUtil.GetTupleValueExprs [] col)
      (GetTupleValueExprs_column_value col [] (by simp))
    simp only [hb]
    cases b with
    | false => exact ⟨false, rfl⟩
    | true => exact ih

/-- One iteration of the loop of `DeriveForJoin` keeps the entries already in
the output. -/
theorem DeriveForJoinStep_keeps (collaborators : DeriverCollaborators)
    (requirements : PropertySet) (memo : Memo) (gexpr : GroupExpression)
    (probe_group_id : group_id_t) (probe_group : Group)
    (hchild : gexpr.GetChildGroupId 1 = some probe_group_id)
    (hgroup : memo.GetGroupByID probe_group_id = some probe_group)
    (output : List PropertyEntry) (prop : Property) :
    ∃ extra, ChildPropertyDeriver.DeriveForJoinStep collaborators requirements (some memo)
      (some gexpr) output prop = some (output ++ extra) := by
  cases prop
  rename_i sort_prop
  obtain ⟨b, hb⟩ := SortColumnLoop_isSome collaborators probe_group sort_prop.sort_columns
  cases b with
  | false =>
    exact ⟨[], by simp [ChildPropertyDeriver.DeriveForJoinStep, Property.Type,
      Property.AsPropertySort, hchild, hgroup, hb]⟩
  | true =>
    exact ⟨[(requirements.Copy, [PropertySet.mk [], requirements.Copy])],
      by simp [ChildPropertyDeriver.DeriveForJoinStep, Property.Type,
        Property.AsPropertySort, hchild, hgroup, hb]⟩

/-- The loop of `DeriveForJoin` keeps the entries already in the output. -/
theorem DeriveForJoinLoop_keeps (collaborators : DeriverCollaborators)
    (requirements : PropertySet) (memo : Memo) (gexpr : GroupExpression)
    (probe_group_id : group_id_t) (probe_group : Group)
    (hchild : gexpr.GetChildGroupId 1 = some probe_group_id)
    (hgroup : memo.GetGroupByID probe_group_id = some probe_group)
    (props : List Property) (output : List PropertyEntry) :
    ∃ extra, ChildPropertyDeriver.DeriveForJoinLoop collaborators requirements (some memo)
      (some gexpr) props output = some (output ++ extra) := by
  induction props generalizing output with
  | nil => exact ⟨[], by simp [ChildPropertyDeriver.DeriveForJoinLoop]⟩
  | cons prop props ih =>
    obtain ⟨e1, h1⟩ := DeriveForJoinStep_keeps collaborators requirements memo gexpr
      probe_group_id probe_group hchild hgroup output prop
    obtain ⟨e2, h2⟩ := ih (output ++ e1)
    exact ⟨e1 ++ e2, by
      rw [ChildPropertyDeriver.DeriveForJoinLoop, h1]
      simp only [h2, List.append_assoc]⟩

/-- C20: `ChildPropertyDeriver::GetProperties` for an InnerNLJoin or an
InnerHashJoin whose probe (second) child group is in the memo returns, for
every requirement and whatever the deriver held before the call, a vector
whose first entry is the pair (empty provided set, [empty set, empty set]). -/
theorem GetProperties_join_first_entry (collaborators : DeriverCollaborators)
    (deriver : ChildPropertyDeriver) (gexpr : GroupExpression) (requirements : PropertySet)
    (memo : Memo) (accessor : CatalogAccessor) (probe_group_id : group_id_t)
    (probe_group : Group)
    (hop : gexpr.op = PhysicalOperator.InnerNLJoin ∨ gexpr.op = PhysicalOperator.InnerHashJoin)
    (hchild : gexpr.GetChildGroupId 1 = some probe_group_id)
    (hgroup : memo.GetGroupByID probe_group_id = some probe_group) :
    ∃ (rest : List PropertyEntry) (deriver_after : ChildPropertyDeriver),
      ChildPropertyDeriver.GetProperties collaborators deriver gexpr requirements memo
          accessor =
        some ((PropertySet.mk [], [PropertySet.mk [], PropertySet.mk []]) :: rest,
          deriver_after) := by
  obtain ⟨extra, hloop⟩ := DeriveForJoinLoop_keeps collaborators requirements memo gexpr
    probe_group_id probe_group hchild hgroup requirements.Properties
    [(PropertySet.mk [], [PropertySet.mk [], PropertySet.mk []])]
  rcases hop with hop | hop <;>
  exact ⟨extra, ⟨some requirements, [], some memo, some gexpr, some accessor⟩, by
    simp [ChildPropertyDeriver.GetProperties, ChildPropertyDeriver.Visit, hop,
      ChildPropertyDeriver.DeriveForJoin, hloop]⟩

/-- Witness of C20: an InnerHashJoin of the groups a and b, asked for
`ORDER BY b.y ASC` on a deriver that still holds an entry of an earlier call,
returns the base entry followed by the entry pushing the sort to b; an
InnerNLJoin asked for `ORDER BY a.x DESC` returns the base entry alone. -/
theorem GetProperties_join_first_entry_witness :
    (∃ (rest : List PropertyEntry) (deriver_after : ChildPropertyDeriver),
      ChildPropertyDeriver.GetProperties sampleCollaborators
          ⟨none, [(sampleSortA, [])], none, none, none⟩
          ⟨PhysicalOperator.InnerHashJoin, [0, 1]⟩ sampleSortB sampleMemo sampleAccessor =
        some ((PropertySet.mk [], [PropertySet.mk [], PropertySet.mk []]) :: rest,
          deriver_after)) ∧
    ChildPropertyDeriver.GetProperties sampleCollaborators
        ⟨none, [(sampleSortA, [])], none, none, none⟩
        ⟨PhysicalOperator.InnerHashJoin, [0, 1]⟩ sampleSortB sampleMemo sampleAccessor =
      some ([(PropertySet.mk [], [PropertySet.mk [], PropertySet.mk []]),
          (sampleSortB, [PropertySet.mk [], sampleSortB])],
        ⟨some sampleSortB, [], some sampleMemo,
          some ⟨PhysicalOperator.InnerHashJoin, [0, 1]⟩, some sampleAccessor⟩) ∧
    ChildPropertyDeriver.GetProperties sampleCollaborators sampleFreshDeriver
        ⟨PhysicalOperator.InnerNLJoin, [0, 1]⟩ sampleSortA sampleMemo sampleAccessor =
      some ([(PropertySet.mk [], [PropertySet.mk [], PropertySet.mk []])],
        ⟨some sampleSortA, [], some sampleMemo,
          some ⟨PhysicalOperator.InnerNLJoin, [0, 1]⟩, some sampleAccessor⟩) :=
  ⟨GetProperties_join_first_entry sampleCollaborators
      ⟨none, [(sampleSortA, [])], none, none, none⟩
      ⟨PhysicalOperator.InnerHashJoin, [0, 1]⟩ sampleSortB sampleMemo sampleAccessor 1
      ⟨{"b"}⟩ (Or.inr rfl) rfl rfl,
   rfl, rfl⟩

/-- The loop over the indexes of the table appends an entry exactly when some
index satisfies the sort property. -/
theorem IndexLoop_eq_any (collaborators : DeriverCollaborators) (accessor : CatalogAccessor)
    (sort_prop : PropertySort) (tbl_id : Nat) (tbl_indexes : List Nat) :
    ChildPropertyDeriver.IndexLoop collaborators accessor sort_prop tbl_id tbl_indexes =
      tbl_indexes.any
        (fun index => collaborators.SatisfiesSortWithIndex sort_prop tbl_id index accessor) := by
  induction tbl_indexes with
  | nil => rfl
  | cons index rest ih =>
    rw [ChildPropertyDeriver.IndexLoop, List.any_cons, ih]
    cases collaborators.SatisfiesSortWithIndex sort_prop tbl_id index accessor <;> simp

/-- The loop over the required properties of the index scan appends one entry
(requirement, no child requirement) per property an index satisfies. -/
theorem IndexScanLoop_eq (collaborators : DeriverCollaborators) (accessor : CatalogAccessor)
    (requirements : PropertySet) (namespace_oid : Nat) (table_alias : String)
    (props : List Property) (output : List PropertyEntry) :
    ChildPropertyDeriver.IndexScanLoop collaborators accessor requirements
        (accessor.GetTableOid namespace_oid table_alias)
        (accessor.GetIndexes (accessor.GetTableOid namespace_oid table_alias)) props output =
      some (output ++
        (props.filter (specSatisfiedByIndex collaborators accessor namespace_oid table_alias)).map
          (fun _ => (requirements, []))) := by
  induction props generalizing output with
  | nil => simp [ChildPropertyDeriver.IndexScanLoop]
  | cons prop props ih =>
    cases prop
    rename_i sort
    rw [ChildPropertyDeriver.IndexScanLoop]
    simp only [ChildPropertyDeriver.IndexScanStep, Property.Type, Property.AsPropertySort,
      if_true, IndexLoop_eq_any, PropertySet.Copy]
    by_cases hc : collaborators.CheckSortProperty sort = true
    · by_cases hi : (accessor.GetIndexes (accessor.GetTableOid namespace_oid table_alias)).any
          (fun index => collaborators.SatisfiesSortWithIndex sort
            (accessor.GetTableOid namespace_oid table_alias) index accessor) = true
      · simp [hc, hi, ih, List.filter_cons, specSatisfiedByIndex]
      · simp [hc, hi, ih, List.filter_cons, specSatisfiedByIndex]
    · simp [hc, ih, List.filter_cons, specSatisfiedByIndex]

/-- C22: `ChildPropertyDeriver::GetProperties` for an IndexScan returns one
entry (requirement, no child requirement) per Sort property of the requirement
that passes `IndexUtil::CheckSortProperty` and is satisfied by at least one
index of the scanned table.  So when the requirement holds such a property the
result contains an entry whose provided set is the whole requirement and whose
child-requirement list is empty, and when it holds none (an empty requirement,
a table without indexes) the result is the single entry (empty provided set,
no child requirement). -/
theorem GetProperties_index_scan (collaborators : DeriverCollaborators)
    (deriver : ChildPropertyDeriver) (namespace_oid : Nat) (table_alias : String)
    (child_groups : List group_id_t) (requirements : PropertySet) (memo : Memo)
    (accessor : CatalogAccessor) :
    ∃ out : List PropertyEntry,
      (ChildPropertyDeriver.GetProperties collaborators deriver
        ⟨PhysicalOperator.IndexScan namespace_oid table_alias, child_groups⟩ requirements memo
        accessor).map Prod.fst = some out ∧
      out = (if (requirements.properties.filter
            (specSatisfiedByIndex collaborators accessor namespace_oid table_alias)).isEmpty
          then [(PropertySet.mk [], [])]
          else (requirements.properties.filter
            (specSatisfiedByIndex collaborators accessor namespace_oid table_alias)).map
              (fun _ => (requirements, []))) ∧
      ((∃ prop ∈ requirements.properties,
          specSatisfiedByIndex collaborators accessor namespace_oid table_alias prop = true) →
        (requirements, []) ∈ out) ∧
      ((¬ ∃ prop ∈ requirements.properties,
          specSatisfiedByIndex collaborators accessor namespace_oid table_alias prop = true) →
        out = [(PropertySet.mk [], [])]) := by
  have hloop := IndexScanLoop_eq collaborators accessor requirements namespace_oid table_alias
    requirements.properties []
  simp only [List.nil_append] at hloop
  refine ⟨_, ?_, rfl, ?_, ?_⟩
  · simp only [ChildPropertyDeriver.GetProperties, ChildPropertyDeriver.Visit,
      ChildPropertyDeriver.VisitIndexScan, PropertySet.Properties, hloop]
    cases hq : requirements.properties.filter
      (specSatisfiedByIndex collaborators accessor namespace_oid table_alias) <;> simp
  · rintro ⟨prop, hprop, hq⟩
    have hmem : prop ∈ requirements.properties.filter
        (specSatisfiedByIndex collaborators accessor namespace_oid table_alias) :=
      List.mem_filter.mpr ⟨hprop, hq⟩
    have hne : (requirements.properties.filter
        (specSatisfiedByIndex collaborators accessor namespace_oid table_alias)).isEmpty =
        false := by
      cases hl : requirements.properties.filter
        (specSatisfiedByIndex collaborators accessor namespace_oid table_alias) with
      | nil => rw [hl] at hmem; simp at hmem
      | cons _ _ => rfl
    simp only [hne, Bool.false_eq_true, if_false]
    exact List.mem_map.mpr ⟨prop, hmem, rfl⟩
  · intro hno
    have hnil : requirements.properties.filter
        (specSatisfiedByIndex collaborators accessor namespace_oid table_alias) = [] := by
      rw [List.filter_eq_nil_iff]
      intro prop hprop hq
      exact hno ⟨prop, hprop, hq⟩
    simp [hnil]

/-- C23: `ChildPropertyDeriver::GetProperties` for a SortGroupBy returns, for
every requirement, exactly one entry: the provided set is the single property
Sort(group-by columns of the operator, every direction ASC), and the
child-requirement list is one set equal to that provided set. -/
theorem GetProperties_sort_group_by (collaborators : DeriverCollaborators)
    (deriver : ChildPropertyDeriver) (columns : List AbstractExpression)
    (child_groups : List group_id_t) (requirements : PropertySet) (memo : Memo)
    (accessor : CatalogAccessor) :
    (ChildPropertyDeriver.GetProperties collaborators deriver
        ⟨PhysicalOperator.SortGroupBy columns, child_groups⟩ requirements memo
        accessor).map Prod.fst =
      some [(PropertySet.mk
          [Property.Sort ⟨columns, List.replicate columns.length OrderByOrderingType.ASC⟩],
        [PropertySet.mk
          [Property.Sort
            ⟨columns, List.replicate columns.length OrderByOrderingType.ASC⟩]])] := by
  simp [ChildPropertyDeriver.GetProperties, ChildPropertyDeriver.Visit, PropertySet.Copy]

/-- C24: `ChildPropertyDeriver::GetProperties` for a Limit returns exactly one
entry whose child-requirement list is [empty set].  The provided set is the
single property Sort(sort expressions of the Limit, sort directions of the
Limit) when the Limit carries a sort expression, and the empty set when it
carries none.  The requirement does not enter the result. -/
theorem GetProperties_limit (collaborators : DeriverCollaborators)
    (deriver : ChildPropertyDeriver) (sort_exprs : List AbstractExpression)
    (sort_ascending : List OrderByOrderingType) (child_groups : List group_id_t)
    (requirements : PropertySet) (memo : Memo) (accessor : CatalogAccessor) :
    (ChildPropertyDeriver.GetProperties collaborators deriver
        ⟨PhysicalOperator.Limit sort_exprs sort_ascending, child_groups⟩ requirements memo
        accessor).map Prod.fst =
      some [(if sort_exprs.isEmpty then PropertySet.mk []
          else PropertySet.mk [Property.Sort ⟨sort_exprs, sort_ascending⟩],
        [PropertySet.mk []])] := by
  cases sort_exprs <;>
  simp [ChildPropertyDeriver.GetProperties, ChildPropertyDeriver.Visit,
    PropertySet.AddProperty]

/-- C25: `ChildPropertyDeriver::GetProperties` for a QueryDerivedScan,
Distinct, Update, Delete, InsertSelect or ExportExternalFile returns, for
every requirement R, exactly one entry (R, [R]): the provided set is the
requirement and the single child is required to provide the requirement. -/
theorem GetProperties_pass_through (collaborators : DeriverCollaborators)
    (deriver : ChildPropertyDeriver) (child_groups : List group_id_t)
    (requirements : PropertySet) (memo : Memo) (accessor : CatalogAccessor) :
    (ChildPropertyDeriver.GetProperties collaborators deriver
        ⟨PhysicalOperator.QueryDerivedScan, child_groups⟩ requirements memo accessor).map Prod.fst =
      some [(requirements, [requirements])] ∧
    (ChildPropertyDeriver.GetProperties collaborators deriver
        ⟨PhysicalOperator.Distinct, child_groups⟩ requirements memo accessor).map Prod.fst =
      some [(requirements, [requirements])] ∧
    (ChildPropertyDeriver.GetProperties collaborators deriver
        ⟨PhysicalOperator.Update, child_groups⟩ requirements memo accessor).map Prod.fst =
      some [(requirements, [requirements])] ∧
    (ChildPropertyDeriver.GetProperties collaborators deriver
        ⟨PhysicalOperator.Delete, child_groups⟩ requirements memo accessor).map Prod.fst =
      some [(requirements, [requirements])] ∧
    (ChildPropertyDeriver.GetProperties collaborators deriver
        ⟨PhysicalOperator.InsertSelect, child_groups⟩ requirements memo accessor).map Prod.fst =
      some [(requirements, [requirements])] ∧
    (ChildPropertyDeriver.GetProperties collaborators deriver
        ⟨PhysicalOperator.ExportExternalFile, child_groups⟩ requirements memo accessor).map Prod.fst =
      some [(requirements, [requirements])] := by
  refine ⟨?_, ?_, ?_, ?_, ?_, ?_⟩ <;>
  simp [ChildPropertyDeriver.GetProperties, ChildPropertyDeriver.Visit,
    ChildPropertyDeriver.VisitPassThrough, PropertySet.Copy]

/-- C26: `ChildPropertyDeriver::GetProperties` for a SeqScan, an
ExternalFileScan or a TableFreeScan returns, for every requirement, exactly
one entry whose provided set is empty and whose child-requirement list is
empty. -/
theorem GetProperties_scans_provide_nothing (collaborators : DeriverCollaborators)
    (deriver : ChildPropertyDeriver) (child_groups : List group_id_t)
    (requirements : PropertySet) (memo : Memo) (accessor : CatalogAccessor) :
    (ChildPropertyDeriver.GetProperties collaborators deriver
        ⟨PhysicalOperator.SeqScan, child_groups⟩ requirements memo accessor).map Prod.fst =
      some [(PropertySet.mk [], [])] ∧
    (ChildPropertyDeriver.GetProperties collaborators deriver
        ⟨PhysicalOperator.ExternalFileScan, child_groups⟩ requirements memo accessor).map Prod.fst =
      some [(PropertySet.mk [], [])] ∧
    (ChildPropertyDeriver.GetProperties collaborators deriver
        ⟨PhysicalOperator.TableFreeScan, child_groups⟩ requirements memo accessor).map Prod.fst =
      some [(PropertySet.mk [], [])] := by
  refine ⟨?_, ?_, ?_⟩ <;>
  simp [ChildPropertyDeriver.GetProperties, ChildPropertyDeriver.Visit]

/-- C27: `ChildPropertyDeriver::GetProperties` for a HashGroupBy or an
Aggregate returns, for every requirement, exactly one entry (empty provided
set, [empty set]). -/
theorem GetProperties_aggregation_erases_order (collaborators : DeriverCollaborators)
    (deriver : ChildPropertyDeriver) (child_groups : List group_id_t)
    (requirements : PropertySet) (memo : Memo) (accessor : CatalogAccessor) :
    (ChildPropertyDeriver.GetProperties collaborators deriver
        ⟨PhysicalOperator.HashGroupBy, child_groups⟩ requirements memo accessor).map Prod.fst =
      some [(PropertySet.mk [], [PropertySet.mk []])] ∧
    (ChildPropertyDeriver.GetProperties collaborators deriver
        ⟨PhysicalOperator.Aggregate, child_groups⟩ requirements memo accessor).map Prod.fst =
      some [(PropertySet.mk [], [PropertySet.mk []])] := by
  refine ⟨?_, ?_⟩ <;>
  simp [ChildPropertyDeriver.GetProperties, ChildPropertyDeriver.Visit]

/-- C28: `ChildPropertyDeriver::GetProperties` for an Insert returns, for
every requirement R, exactly one entry whose provided set is R and whose
child-requirement list is empty. -/
theorem GetProperties_insert (collaborators : DeriverCollaborators)
    (deriver : ChildPropertyDeriver) (child_groups : List group_id_t)
    (requirements : PropertySet) (memo : Memo) (accessor : CatalogAccessor) :
    (ChildPropertyDeriver.GetProperties collaborators deriver
        ⟨PhysicalOperator.Insert, child_groups⟩ requirements memo accessor).map Prod.fst =
      some [(requirements, [])] := by
  simp [ChildPropertyDeriver.GetProperties, ChildPropertyDeriver.Visit, PropertySet.Copy]

/-- The loop over column references computes whether all of them name a table
alias covered by the probe group. -/
theorem TupleLoop_eq_all (collaborators : DeriverCollaborators) (probe_group : Group)
    (tuples : List AbstractExpression)
    (h : ∀ x ∈ tuples, x.GetExpressionType = ExpressionType.COLUMN_VALUE) :
    ChildPropertyDeriver.TupleLoop collaborators probe_group tuples =
      some (tuples.all (fun expr =>
        decide (collaborators.GetTableName expr ∈ probe_group.table_aliases))) := by
  induction tuples with
  | nil => rfl
  | cons e es ih =>
    have he := h e (List.mem_cons_self e es)
    rw [ChildPropertyDeriver.TupleLoop]
    simp only [AsColumnValueExpression, he, if_true, Group.GetTableAliases]
    by_cases hin : collaborators.GetTableName e ∈ probe_group.table_aliases
    · simp [hin, ih (fun x hx => h x (List.mem_cons_of_mem e hx)), Group.GetTableAliases]
    · simp [hin]

/-- The loop over the sort columns computes whether every column reference of
every sort column names a table alias covered by the probe group. -/
theorem SortColumnLoop_eq (collaborators : DeriverCollaborators) (probe_group : Group)
    (sort_columns : List AbstractExpression) :
    ChildPropertyDeriver.SortColumnLoop collaborators probe_group sort_columns =
      some (sort_columns.all (fun sort_column =>
        (ExpressionUtil.GetTupleValueExprs [] sort_column).all (fun expr =>
          decide (collaborators.GetTableName expr ∈ probe_group.table_aliases)))) := by
  induction sort_columns with
  | nil => rfl
  | cons col cols ih =>
    rw [ChildPropertyDeriver.SortColumnLoop]
    simp only [TupleLoop_eq_all collaborators probe_group
      (ExpressionUtil.GetTupleValueExprs [] col)
      (GetTupleValueExprs_column_value col [] (by simp))]
    cases hall : (ExpressionUtil.GetTupleValueExprs [] col).all (fun expr =>
        decide (collaborators.GetTableName expr ∈ probe_group.table_aliases))
    · simp [hall]
    · simp [hall, ih]

/-- The loop over the required properties of a join appends one entry
(requirement, [empty set, requirement]) per Sort property whose column
references all come from the probe group. -/
theorem DeriveForJoinLoop_eq (collaborators : DeriverCollaborators)
    (requirements : PropertySet) (memo : Memo) (gexpr : GroupExpression)
    (probe_group_id : group_id_t) (probe_group : Group)
    (hchild : gexpr.GetChildGroupId 1 = some probe_group_id)
    (hgroup : memo.GetGroupByID probe_group_id = some probe_group)
    (props : List Property) (output : List PropertyEntry) :
    ChildPropertyDeriver.DeriveForJoinLoop collaborators requirements (some memo)
        (some gexpr) props output =
      some (output ++
        (props.filter (specPropertyFromProbe collaborators probe_group)).map
          (fun _ => (requirements, [PropertySet.mk [], requirements]))) := by
  induction props generalizing output with
  | nil => simp [ChildPropertyDeriver.DeriveForJoinLoop]
  | cons prop props ih =>
    cases prop
    rename_i sort
    rw [ChildPropertyDeriver.DeriveForJoinLoop]
    cases hall : specSortFromProbe collaborators probe_group sort
    · have hstep : ChildPropertyDeriver.DeriveForJoinStep collaborators requirements
          (some memo) (some gexpr) output (Property.Sort sort) = some output := by
        unfold specSortFromProbe at hall
        simp [ChildPropertyDeriver.DeriveForJoinStep, Property.Type, Property.AsPropertySort,
          hchild, hgroup, SortColumnLoop_eq, hall]
      simp only [hstep, ih, List.filter_cons, specPropertyFromProbe, hall]
      simp
    · have hstep : ChildPropertyDeriver.DeriveForJoinStep collaborators requirements
          (some memo) (some gexpr) output (Property.Sort sort) =
          some (output ++ [(requirements, [PropertySet.mk [], requirements])]) := by
        unfold specSortFromProbe at hall
        simp [ChildPropertyDeriver.DeriveForJoinStep, Property.Type, Property.AsPropertySort,
          hchild, hgroup, SortColumnLoop_eq, hall, PropertySet.Copy]
      simp only [hstep, ih, List.filter_cons, specPropertyFromProbe, hall]
      simp

/-- C21: `ChildPropertyDeriver::GetProperties` for an InnerNLJoin or an
InnerHashJoin whose probe (second) child group is in the memo returns the base
entry followed by one entry (requirement, [empty set, requirement]) for each
Sort property of the requirement all of whose column references name a table
alias covered by the probe group, in the order of the properties, and by no
entry for a Sort property that has a column reference outside that set; in
every entry the requirement of the left child is the empty set. -/
theorem GetProperties_join_pushes_sort_to_probe (collaborators : DeriverCollaborators)
    (deriver : ChildPropertyDeriver) (op : PhysicalOperator) (child_groups : List group_id_t)
    (requirements : PropertySet) (memo : Memo) (accessor : CatalogAccessor)
    (probe_group_id : group_id_t) (probe_group : Group)
    (hop : op = PhysicalOperator.InnerNLJoin ∨ op = PhysicalOperator.InnerHashJoin)
    (hchild : child_groups[1]? = some probe_group_id)
    (hgroup : memo.GetGroupByID probe_group_id = some probe_group) :
    ∃ out : List PropertyEntry,
      (ChildPropertyDeriver.GetProperties collaborators deriver ⟨op, child_groups⟩
        requirements memo accessor).map Prod.fst = some out ∧
      out = (PropertySet.mk [], [PropertySet.mk [], PropertySet.mk []]) ::
        (requirements.properties.filter (specPropertyFromProbe collaborators probe_group)).map
          (fun _ => (requirements, [PropertySet.mk [], requirements])) ∧
      ∀ entry ∈ out, entry.2.head? = some (PropertySet.mk []) := by
  have hloop := DeriveForJoinLoop_eq collaborators requirements memo ⟨op, child_groups⟩
    probe_group_id probe_group hchild hgroup requirements.properties
    [(PropertySet.mk [], [PropertySet.mk [], PropertySet.mk []])]
  refine ⟨_, ?_, rfl, ?_⟩
  · rcases hop with hop | hop <;>
    · subst hop
      simp [ChildPropertyDeriver.GetProperties, ChildPropertyDeriver.Visit,
        ChildPropertyDeriver.DeriveForJoin, PropertySet.Properties, hloop]
  · intro entry hentry
    rcases List.mem_cons.mp hentry with h | h
    · rw [h]; rfl
    · obtain ⟨_, _, hq⟩ := List.mem_map.mp h
      rw [← hq]; rfl

/-- Witness of C21: for an InnerHashJoin of the groups a and b, the
requirement holding the sorts by `a.x`, by `b.y` and by `b.y, c.z` gives the
base entry and one entry for the sort by `b.y`, the only one whose columns all
come from b. -/
theorem GetProperties_join_pushes_sort_to_probe_witness :
    (∃ out : List PropertyEntry,
      (ChildPropertyDeriver.GetProperties sampleCollaborators sampleFreshDeriver
        ⟨PhysicalOperator.InnerHashJoin, [0, 1]⟩ sampleSortThree sampleMemo
        sampleAccessor).map Prod.fst = some out ∧
      out = (PropertySet.mk [], [PropertySet.mk [], PropertySet.mk []]) ::
        (sampleSortThree.properties.filter
          (specPropertyFromProbe sampleCollaborators ⟨{"b"}⟩)).map
          (fun _ => (sampleSortThree, [PropertySet.mk [], sampleSortThree])) ∧
      ∀ entry ∈ out, entry.2.head? = some (PropertySet.mk [])) ∧
    (ChildPropertyDeriver.GetProperties sampleCollaborators sampleFreshDeriver
        ⟨PhysicalOperator.InnerHashJoin, [0, 1]⟩ sampleSortThree sampleMemo
        sampleAccessor).map Prod.fst =
      some [(PropertySet.mk [], [PropertySet.mk [], PropertySet.mk []]),
        (sampleSortThree, [PropertySet.mk [], sampleSortThree])] :=
  ⟨GetProperties_join_pushes_sort_to_probe sampleCollaborators sampleFreshDeriver
      PhysicalOperator.InnerHashJoin [0, 1] sampleSortThree sampleMemo sampleAccessor 1
      ⟨{"b"}⟩ (Or.inr rfl) rfl rfl,
   rfl⟩

/-! ## Column statistics -/

/-! ### Rounding of doubles -/

/-- The rounded integer is at least the floor. -/
theorem roundHalfEven_ge_floor (t : ℚ) : ⌊t⌋ ≤ Double.roundHalfEven t := by
  unfold Double.roundHalfEven
  dsimp only
  split_ifs <;> omega

/-- The rounded integer is at most half a unit above the number. -/
theorem roundHalfEven_le (t : ℚ) : (Double.roundHalfEven t : ℚ) ≤ t + 1 / 2 := by
  unfold Double.roundHalfEven
  dsimp only
  have h1 := Int.floor_le t
  have h2 := Int.lt_floor_add_one t
  split_ifs with ha hb hc
  · linarith
  · push_cast; linarith
  · linarith
  · push_cast
    have : t - ⌊t⌋ = 1 / 2 := le_antisymm (not_lt.mp hb) (not_lt.mp ha)
    linarith

/-- The rounded integer is at most the ceiling. -/
theorem roundHalfEven_le_ceil (t : ℚ) : Double.roundHalfEven t ≤ ⌈t⌉ := by
  have h1 := Int.floor_le_ceil t
  have h2 : 0 < t - ⌊t⌋ → ⌊t⌋ + 1 ≤ ⌈t⌉ := by
    intro h
    have hlt : ((⌊t⌋ : ℤ) : ℚ) < t := by linarith
    exact Int.lt_ceil.mpr hlt
  unfold Double.roundHalfEven
  dsimp only
  split_ifs with ha hb hc
  · exact h1
  · exact h2 (by linarith)
  · exact h1
  · exact h2 (by linarith)

/-- A number at most an integer rounds to at most that integer. -/
theorem roundHalfEven_le_of_le (t : ℚ) (upper : ℤ) (h : t ≤ upper) :
    Double.roundHalfEven t ≤ upper :=
  le_trans (roundHalfEven_le_ceil t) (Int.ceil_le.mpr h)

/-- An integer rounds to itself. -/
theorem roundHalfEven_intCast (z : ℤ) : Double.roundHalfEven (z : ℚ) = z := by
  unfold Double.roundHalfEven
  simp

/-- A number at least `lower` and more than half a unit below `upper` rounds
to an integer from `lower` to `upper - 1`. -/
theorem roundHalfEven_between (t : ℚ) (lower upper : ℤ) (hlower : (lower : ℚ) ≤ t)
    (hupper : t + 1 / 2 < upper) :
    lower ≤ Double.roundHalfEven t ∧ Double.roundHalfEven t ≤ upper - 1 := by
  constructor
  · exact le_trans (Int.le_floor.mpr hlower) (roundHalfEven_ge_floor t)
  · have h := roundHalfEven_le t
    have h2 : (Double.roundHalfEven t : ℚ) < upper := lt_of_le_of_lt h hupper
    have h3 : Double.roundHalfEven t < upper := by exact_mod_cast h2
    omega

/-- The rounded integer in terms of a given floor. -/
theorem roundHalfEven_of_floor (t : ℚ) (lower : ℤ) (hlo : (lower : ℚ) ≤ t)
    (hhi : t < (lower : ℚ) + 1) :
    Double.roundHalfEven t =
      if t - lower < 1 / 2 then lower
      else if 1 / 2 < t - lower then lower + 1
      else if lower % 2 = 0 then lower
      else lower + 1 := by
  have hfloor : ⌊t⌋ = lower := by
    rw [Int.floor_eq_iff]
    exact ⟨hlo, hhi⟩
  unfold Double.roundHalfEven
  simp only [hfloor]

/-- The spacing of the doubles is positive. -/
theorem spacing_pos (x : ℚ) : 0 < Double.spacing x := by
  unfold Double.spacing
  positivity

/-- The spacing of the doubles around a positive number below 2^53 is the
inverse of a power of two, and half of it is at most the larger of x / 2^53
and 2^(-1075). -/
theorem spacing_of_lt (x : ℚ) (hx : 0 < x) (hlt : x < (2 : ℚ) ^ (53 : ℕ)) :
    ∃ d : ℕ, Double.spacing x = ((2 : ℚ) ^ d)⁻¹ ∧
      (((2 : ℚ) ^ d)⁻¹ / 2 ≤ x / (2 : ℚ) ^ (53 : ℕ) ∨
        ((2 : ℚ) ^ d)⁻¹ / 2 = ((2 : ℚ) ^ (1075 : ℕ))⁻¹) := by
  have hlog_le : (2 : ℚ) ^ Int.log 2 x ≤ x := by
    have := Int.zpow_log_le_self (b := 2) (r := x) (by norm_num) hx
    simpa using this
  have he53 : Int.log 2 x < 53 := by
    have h1 : (2 : ℚ) ^ Int.log 2 x < (2 : ℚ) ^ (53 : ℤ) := by
      refine lt_of_le_of_lt hlog_le ?_
      have h53 : (2 : ℚ) ^ (53 : ℤ) = (2 : ℚ) ^ (53 : ℕ) := by norm_num
      rw [h53]
      exact hlt
    exact (zpow_lt_zpow_iff_right₀ (by norm_num : (1 : ℚ) < 2)).mp h1
  have hexp : Double.exponent x = max (Int.log 2 x) (-1022) := by
    unfold Double.exponent
    rw [abs_of_pos hx]
  have hle : Double.exponent x ≤ 52 := by
    rw [hexp]; omega
  refine ⟨(52 - Double.exponent x).toNat, ?_, ?_⟩
  · unfold Double.spacing
    have hd : Double.exponent x - 52 = -(((52 - Double.exponent x).toNat : ℕ) : ℤ) := by
      rw [Int.toNat_of_nonneg (by omega)]; ring
    rw [hd, zpow_neg, zpow_natCast]
  · have hsp : ((2 : ℚ) ^ (52 - Double.exponent x).toNat)⁻¹ =
        (2 : ℚ) ^ (Double.exponent x - 52) := by
      have hd : Double.exponent x - 52 = -(((52 - Double.exponent x).toNat : ℕ) : ℤ) := by
        rw [Int.toNat_of_nonneg (by omega)]; ring
      rw [hd, zpow_neg, zpow_natCast]
    rw [hsp]
    by_cases hcase : -1022 ≤ Int.log 2 x
    · left
      have he : Double.exponent x = Int.log 2 x := by rw [hexp]; omega
      rw [he, zpow_sub₀ (by norm_num : (2 : ℚ) ≠ 0)]
      have h53 : (2 : ℚ) ^ (53 : ℕ) = (2 : ℚ) ^ (52 : ℤ) * 2 := by norm_num
      rw [h53, div_div]
      exact div_le_div_of_nonneg_right hlog_le (by positivity)
    · right
      have he : Double.exponent x = -1022 := by rw [hexp]; omega
      rw [he]
      norm_num

/-- The spacing of the doubles around a number of the binade of 2^e in the
normal range. -/
theorem spacing_of_log (x : ℚ) (e : ℤ) (hlo : (2 : ℚ) ^ e ≤ x) (hhi : x < (2 : ℚ) ^ (e + 1))
    (he : -1022 ≤ e) : Double.spacing x = (2 : ℚ) ^ (e - 52) := by
  have hx : 0 < x := lt_of_lt_of_le (by positivity) hlo
  have h1 : e ≤ Int.log 2 x := by
    rw [← Int.zpow_le_iff_le_log (by norm_num) hx]
    simpa using hlo
  have h2 : Int.log 2 x < e + 1 := by
    rw [← Int.lt_zpow_iff_log_lt (by norm_num) hx]
    simpa using hhi
  unfold Double.spacing Double.exponent
  rw [abs_of_pos hx]
  have : max (Int.log 2 x) (-1022) = e := by omega
  rw [this]

/-- The rounding of `x` is the finite double `y` when the rounded multiple of
the spacing is `y` and `y` is in the range of the finite doubles. -/
theorem ofRat_eq_finite (x y : ℚ)
    (hy : (Double.roundHalfEven (x / Double.spacing x) : ℚ) * Double.spacing x = y)
    (hupper : y < (2 : ℚ) ^ (1024 : ℕ)) (hlower : -(2 : ℚ) ^ (1024 : ℕ) < y) :
    Double.ofRat x = Double.finite y := by
  unfold Double.ofRat
  simp only [hy, not_le.mpr hupper, not_le.mpr hlower, if_false]

/-- Zero rounds to zero. -/
theorem ofRat_zero : Double.ofRat 0 = Double.finite 0 := by
  apply ofRat_eq_finite
  · have h := roundHalfEven_intCast 0
    simp only [Int.cast_zero] at h
    simp [h]
  · positivity
  · simp

/-- Rounding never gives a NaN. -/
theorem ofRat_ne_nan (x : ℚ) : Double.ofRat x ≠ Double.nan := by
  unfold Double.ofRat
  dsimp only
  split_ifs <;> simp

/-- The conversion of an unsigned integer is never a NaN. -/
theorem ofNat_ne_nan (n : ℕ) : Double.ofNat n ≠ Double.nan :=
  ofRat_ne_nan _

/-- A positive number `x` with `k ≤ x < k + 1`, `k` below 2^53, that is further
below `k + 1` than half the spacing of the doubles around it, rounds to a
double in the same unit interval. -/
theorem ofRat_floor (x : ℚ) (k : ℕ) (hx : 0 < x) (hk : (k : ℚ) ≤ x) (hk53 : k < 2 ^ 53)
    (hgap1 : x / (2 : ℚ) ^ (53 : ℕ) < k + 1 - x)
    (hgap2 : ((2 : ℚ) ^ (1075 : ℕ))⁻¹ < k + 1 - x) :
    ∃ y : ℚ, Double.ofRat x = Double.finite y ∧ (k : ℚ) ≤ y ∧ y < k + 1 := by
  have hpos : (0 : ℚ) < k + 1 - x := lt_trans (by positivity) hgap2
  have hlt : x < (2 : ℚ) ^ (53 : ℕ) := by
    have h1 : (k : ℚ) + 1 ≤ (2 : ℚ) ^ (53 : ℕ) := by
      have : k + 1 ≤ 2 ^ 53 := hk53
      exact_mod_cast this
    linarith
  obtain ⟨d, hsp, hhalf⟩ := spacing_of_lt x hx hlt
  have hpow : (0 : ℚ) < (2 : ℚ) ^ d := by positivity
  have hgap : ((2 : ℚ) ^ d)⁻¹ / 2 < k + 1 - x := by
    rcases hhalf with h | h
    · exact lt_of_le_of_lt h hgap1
    · rw [h]; exact hgap2
  have ht : x / Double.spacing x = x * (2 : ℚ) ^ d := by
    rw [hsp, div_inv_eq_mul]
  have hbetween := roundHalfEven_between (x * (2 : ℚ) ^ d) ((k : ℤ) * 2 ^ d)
    (((k : ℤ) + 1) * 2 ^ d)
    (by push_cast; exact mul_le_mul_of_nonneg_right hk hpow.le)
    (by
      push_cast
      have h1 : ((2 : ℚ) ^ d)⁻¹ / 2 * (2 : ℚ) ^ d < (k + 1 - x) * (2 : ℚ) ^ d :=
        mul_lt_mul_of_pos_right hgap hpow
      have h2 : ((2 : ℚ) ^ d)⁻¹ / 2 * (2 : ℚ) ^ d = 1 / 2 := by
        field_simp
      rw [h2] at h1
      linarith)
  obtain ⟨hlo, hhi⟩ := hbetween
  have hloq : ((k : ℚ)) * (2 : ℚ) ^ d ≤ (Double.roundHalfEven (x * (2 : ℚ) ^ d) : ℚ) := by
    exact_mod_cast hlo
  have hhiq : (Double.roundHalfEven (x * (2 : ℚ) ^ d) : ℚ) ≤ ((k : ℚ) + 1) * (2 : ℚ) ^ d - 1 := by
    exact_mod_cast hhi
  have hyk : (k : ℚ) ≤ (Double.roundHalfEven (x * (2 : ℚ) ^ d) : ℚ) * ((2 : ℚ) ^ d)⁻¹ := by
    rw [le_mul_inv_iff₀ hpow]; exact hloq
  have hyk1 : (Double.roundHalfEven (x * (2 : ℚ) ^ d) : ℚ) * ((2 : ℚ) ^ d)⁻¹ < k + 1 := by
    rw [mul_inv_lt_iff₀ hpow]; linarith
  refine ⟨(Double.roundHalfEven (x * (2 : ℚ) ^ d) : ℚ) * ((2 : ℚ) ^ d)⁻¹, ?_, hyk, hyk1⟩
  apply ofRat_eq_finite
  · rw [ht, hsp]
  · have h1 : (k : ℚ) + 1 ≤ (2 : ℚ) ^ (53 : ℕ) := by
      have : k + 1 ≤ 2 ^ 53 := hk53
      exact_mod_cast this
    have h2 : (2 : ℚ) ^ (53 : ℕ) < (2 : ℚ) ^ (1024 : ℕ) := by
      exact pow_lt_pow_right₀ (by norm_num) (by norm_num)
    linarith
  · have h0 : (0 : ℚ) ≤ k := by positivity
    have : -(2 : ℚ) ^ (1024 : ℕ) < 0 := by
      have : (0 : ℚ) < (2 : ℚ) ^ (1024 : ℕ) := by positivity
      linarith
    linarith

/-- The same for a number that may be zero. -/
theorem ofRat_floor_nonneg (x : ℚ) (k : ℕ) (hx : 0 ≤ x) (hk : (k : ℚ) ≤ x) (hk53 : k < 2 ^ 53)
    (hgap1 : x / (2 : ℚ) ^ (53 : ℕ) < k + 1 - x)
    (hgap2 : ((2 : ℚ) ^ (1075 : ℕ))⁻¹ < k + 1 - x) :
    ∃ y : ℚ, Double.ofRat x = Double.finite y ∧ (k : ℚ) ≤ y ∧ y < k + 1 := by
  rcases eq_or_lt_of_le hx with h0 | hpos
  · subst h0
    have hk0 : (k : ℚ) = 0 := le_antisymm hk (by positivity)
    refine ⟨0, ofRat_zero, by rw [hk0], by rw [hk0]; norm_num⟩
  · exact ofRat_floor x k hpos hk hk53 hgap1 hgap2

/-- The conversion of an unsigned integer below 2^53 to `double` is exact. -/
theorem ofNat_exact (n : ℕ) (hn : n < 2 ^ 53) : Double.ofNat n = Double.finite (n : ℚ) := by
  unfold Double.ofNat
  rcases Nat.eq_zero_or_pos n with h0 | hpos
  · subst h0
    simpa using ofRat_zero
  · have hx : (0 : ℚ) < (n : ℚ) := by exact_mod_cast hpos
    have hlt : (n : ℚ) < (2 : ℚ) ^ (53 : ℕ) := by exact_mod_cast hn
    obtain ⟨d, hsp, _⟩ := spacing_of_lt (n : ℚ) hx hlt
    have hpow : (0 : ℚ) < (2 : ℚ) ^ d := by positivity
    apply ofRat_eq_finite
    · rw [hsp, div_inv_eq_mul]
      have hcast : (n : ℚ) * (2 : ℚ) ^ d = (((n : ℤ) * 2 ^ d : ℤ) : ℚ) := by push_cast; ring
      rw [hcast, roundHalfEven_intCast]
      push_cast
      field_simp
    · exact lt_trans hlt (pow_lt_pow_right₀ (by norm_num) (by norm_num))
    · have : (0 : ℚ) < (2 : ℚ) ^ (1024 : ℕ) := by positivity
      linarith

/-- Rounding does not cross a power of two from below: a number between 0 and
2^m rounds to a double between 0 and 2^m. -/
theorem ofRat_le_two_pow (x : ℚ) (m : ℕ) (hx : 0 ≤ x) (hxm : x ≤ (2 : ℚ) ^ m)
    (hm : m ≤ 1023) :
    ∃ y : ℚ, Double.ofRat x = Double.finite y ∧ 0 ≤ y ∧ y ≤ (2 : ℚ) ^ m := by
  rcases eq_or_lt_of_le hx with h0 | hpos
  · subst h0
    exact ⟨0, ofRat_zero, le_refl _, by positivity⟩
  · have hlog : Int.log 2 x ≤ (m : ℤ) := by
      have h1 := Int.log_mono_right (b := 2) hpos hxm
      have h2 : Int.log 2 ((2 : ℚ) ^ m) = (m : ℤ) := by
        have := Int.log_zpow (R := ℚ) (b := 2) (by norm_num) (m : ℤ)
        simpa using this
      rw [h2] at h1
      exact h1
    have hexp : Double.exponent x ≤ (m : ℤ) := by
      unfold Double.exponent
      rw [abs_of_pos hpos]
      omega
    have hsppos := spacing_pos x
    have hsplit : (2 : ℚ) ^ m =
        ((((2 : ℤ) ^ ((m : ℤ) - Double.exponent x + 52).toNat : ℤ)) : ℚ) * Double.spacing x := by
      unfold Double.spacing
      push_cast
      rw [← zpow_natCast (2 : ℚ) ((m : ℤ) - Double.exponent x + 52).toNat,
        Int.toNat_of_nonneg (by omega), ← zpow_add₀ (by norm_num : (2 : ℚ) ≠ 0),
        ← zpow_natCast (2 : ℚ) m]
      congr 1
      ring
    have ht : x / Double.spacing x ≤
        ((((2 : ℤ) ^ ((m : ℤ) - Double.exponent x + 52).toNat : ℤ)) : ℚ) := by
      rw [div_le_iff₀ hsppos, ← hsplit]
      exact hxm
    have hupper := roundHalfEven_le_of_le _ _ ht
    have hlower : (0 : ℤ) ≤ Double.roundHalfEven (x / Double.spacing x) :=
      le_trans (Int.floor_nonneg.mpr (div_nonneg hx hsppos.le)) (roundHalfEven_ge_floor _)
    have hupperq : (Double.roundHalfEven (x / Double.spacing x) : ℚ) ≤
        ((((2 : ℤ) ^ ((m : ℤ) - Double.exponent x + 52).toNat : ℤ)) : ℚ) := by
      exact_mod_cast hupper
    have hlowerq : (0 : ℚ) ≤ (Double.roundHalfEven (x / Double.spacing x) : ℚ) := by
      exact_mod_cast hlower
    have hy : (Double.roundHalfEven (x / Double.spacing x) : ℚ) * Double.spacing x ≤
        (2 : ℚ) ^ m := by
      rw [hsplit]
      exact mul_le_mul_of_nonneg_right hupperq hsppos.le
    have hy0 : (0 : ℚ) ≤ (Double.roundHalfEven (x / Double.spacing x) : ℚ) * Double.spacing x :=
      mul_nonneg hlowerq hsppos.le
    refine ⟨_, ofRat_eq_finite x _ rfl ?_ ?_, hy0, hy⟩
    · refine lt_of_le_of_lt hy ?_
      exact pow_lt_pow_right₀ (by norm_num) (by omega)
    · have : (0 : ℚ) < (2 : ℚ) ^ (1024 : ℕ) := by positivity
      linarith

/-- Rounding does not cross a power of two from above: a number at or above
2^m rounds to a double at or above 2^m, or overflows. -/
theorem ofRat_ge_two_pow (x : ℚ) (m : ℕ) (hxm : (2 : ℚ) ^ m ≤ x) :
    Double.ofRat x = Double.pos_inf ∨
      ∃ y : ℚ, Double.ofRat x = Double.finite y ∧ (2 : ℚ) ^ m ≤ y := by
  have hx : (0 : ℚ) < x := lt_of_lt_of_le (by positivity) hxm
  have hlog : (m : ℤ) ≤ Int.log 2 x := by
    rw [← Int.zpow_le_iff_le_log (by norm_num) hx]
    simpa using hxm
  have hlog_le : (2 : ℚ) ^ Int.log 2 x ≤ x := by
    have := Int.zpow_log_le_self (b := 2) (r := x) (by norm_num) hx
    simpa using this
  have hexp : Double.exponent x = Int.log 2 x := by
    unfold Double.exponent
    rw [abs_of_pos hx]
    omega
  have hsp : Double.spacing x = (2 : ℚ) ^ (Int.log 2 x - 52) := by
    unfold Double.spacing
    rw [hexp]
  have hsppos : (0 : ℚ) < (2 : ℚ) ^ (Int.log 2 x - 52) := by positivity
  have hcast : (((2 : ℤ) ^ (52 : ℕ) : ℤ) : ℚ) = (2 : ℚ) ^ (52 : ℤ) := by norm_num
  have ht : (((2 : ℤ) ^ (52 : ℕ) : ℤ) : ℚ) ≤ x / Double.spacing x := by
    rw [hsp, le_div_iff₀ hsppos, hcast, ← zpow_add₀ (by norm_num : (2 : ℚ) ≠ 0)]
    have : (52 : ℤ) + (Int.log 2 x - 52) = Int.log 2 x := by ring
    rw [this]
    exact hlog_le
  have hround : (((2 : ℤ) ^ (52 : ℕ) : ℤ) : ℚ) ≤
      (Double.roundHalfEven (x / Double.spacing x) : ℚ) := by
    have h1 := le_trans (Int.le_floor.mpr ht) (roundHalfEven_ge_floor _)
    exact_mod_cast h1
  have hrounded : (2 : ℚ) ^ m ≤
      (Double.roundHalfEven (x / Double.spacing x) : ℚ) * Double.spacing x := by
    have h1 : (((2 : ℤ) ^ (52 : ℕ) : ℤ) : ℚ) * Double.spacing x ≤
        (Double.roundHalfEven (x / Double.spacing x) : ℚ) * Double.spacing x :=
      mul_le_mul_of_nonneg_right hround (spacing_pos _).le
    refine le_trans ?_ h1
    rw [hsp, hcast, ← zpow_natCast (2 : ℚ) m, ← zpow_add₀ (by norm_num : (2 : ℚ) ≠ 0)]
    exact zpow_le_zpow_right₀ (by norm_num) (by omega)
  unfold Double.ofRat
  dsimp only
  split_ifs with h1 h2
  · exact Or.inl rfl
  · exfalso
    have h3 : (0 : ℚ) < (2 : ℚ) ^ (1024 : ℕ) := by positivity
    have h4 : (0 : ℚ) < (2 : ℚ) ^ m := by positivity
    linarith
  · exact Or.inr ⟨_, rfl, hrounded⟩

/-- An unsigned integer from 2^53 on converts to a double from 2^53 on, or to
infinity. -/
theorem ofNat_large (s : ℕ) (hs : 2 ^ 53 ≤ s) :
    Double.ofNat s = Double.pos_inf ∨
      ∃ S : ℚ, Double.ofNat s = Double.finite S ∧ (2 : ℚ) ^ (53 : ℕ) ≤ S :=
  ofRat_ge_two_pow (s : ℚ) 53 (by exact_mod_cast hs)

/-- A number between 0 and 2^64 - 1024 rounds to a double at most
2^64 - 2048, the largest double below 2^64. -/
theorem ofRat_lt_size_max (x : ℚ) (hx : 0 ≤ x) (hxM : x < (2 : ℚ) ^ (64 : ℕ) - 1024) :
    ∃ y : ℚ, Double.ofRat x = Double.finite y ∧ 0 ≤ y ∧ y ≤ (2 : ℚ) ^ (64 : ℕ) - 2048 := by
  by_cases hcase : x ≤ (2 : ℚ) ^ (63 : ℕ)
  · obtain ⟨y, hy, hy0, hyle⟩ := ofRat_le_two_pow x 63 hx hcase (by norm_num)
    exact ⟨y, hy, hy0, le_trans hyle (by norm_num)⟩
  · have hlt : (2 : ℚ) ^ (63 : ℕ) < x := not_le.mp hcase
    have hsp := spacing_of_log x 63 (by norm_num; linarith) (by norm_num; linarith)
      (by norm_num)
    have hsp2 : Double.spacing x = 2048 := by rw [hsp]; norm_num
    obtain ⟨hlo, hhi⟩ := roundHalfEven_between (x / 2048) ((2 : ℤ) ^ (52 : ℕ))
      ((2 : ℤ) ^ (53 : ℕ))
      (by rw [le_div_iff₀ (by norm_num)]; norm_num; norm_num at hlt; linarith)
      (by
        have h1 : x / 2048 < (2 : ℚ) ^ (53 : ℕ) - 1 / 2 := by
          rw [div_lt_iff₀ (by norm_num)]
          norm_num
          norm_num at hxM
          linarith
        push_cast
        linarith)
    have hloq : (((2 : ℤ) ^ (52 : ℕ) : ℤ) : ℚ) ≤ (Double.roundHalfEven (x / 2048) : ℚ) := by
      exact_mod_cast hlo
    have hhiq : (Double.roundHalfEven (x / 2048) : ℚ) ≤ (((2 : ℤ) ^ (53 : ℕ) - 1 : ℤ) : ℚ) := by
      exact_mod_cast hhi
    push_cast at hloq hhiq
    refine ⟨(Double.roundHalfEven (x / 2048) : ℚ) * 2048, ?_, ?_, ?_⟩
    · apply ofRat_eq_finite
      · rw [hsp2]
      · norm_num at hhiq ⊢
        linarith
      · norm_num at hloq ⊢
        linarith
    · linarith
    · norm_num at hhiq ⊢
      linarith

/-- The number 2^53 is a double. -/
theorem ofRat_two_pow_53 :
    Double.ofRat ((2 : ℚ) ^ (53 : ℕ)) = Double.finite ((2 : ℚ) ^ (53 : ℕ)) := by
  have hsp := spacing_of_log ((2 : ℚ) ^ (53 : ℕ)) 53 (by norm_num) (by norm_num)
    (by norm_num)
  apply ofRat_eq_finite
  · rw [hsp, roundHalfEven_of_floor _ ((2 : ℤ) ^ (52 : ℕ)) (by norm_num) (by norm_num)]
    norm_num
  · norm_num
  · norm_num

/-- The number 2^64 is a double. -/
theorem ofRat_two_pow_64 :
    Double.ofRat ((2 : ℚ) ^ (64 : ℕ)) = Double.finite ((2 : ℚ) ^ (64 : ℕ)) := by
  have hsp := spacing_of_log ((2 : ℚ) ^ (64 : ℕ)) 64 (by norm_num) (by norm_num)
    (by norm_num)
  apply ofRat_eq_finite
  · rw [hsp, roundHalfEven_of_floor _ ((2 : ℤ) ^ (52 : ℕ)) (by norm_num) (by norm_num)]
    norm_num
  · norm_num
  · norm_num

/-- The `size_t` value 2^53 + 1 converts to the double 2^53: the tie goes to
the even neighbour. -/
theorem ofNat_two_pow_53_add_one :
    Double.ofNat (2 ^ 53 + 1) = Double.finite ((2 : ℚ) ^ (53 : ℕ)) := by
  unfold Double.ofNat
  have hsp := spacing_of_log (((2 ^ 53 + 1 : ℕ) : ℕ) : ℚ) 53 (by norm_num) (by norm_num)
    (by norm_num)
  apply ofRat_eq_finite
  · rw [hsp, roundHalfEven_of_floor _ ((2 : ℤ) ^ (52 : ℕ)) (by norm_num) (by norm_num)]
    norm_num
  · norm_num
  · norm_num

/-- The `size_t` values from 2^64 - 1024 on convert to the double 2^64. -/
theorem ofNat_near_size_max (p : ℕ) (hlo : 2 ^ 64 - 1024 ≤ p) (hhi : p < 2 ^ 64) :
    Double.ofNat p = Double.finite ((2 : ℚ) ^ (64 : ℕ)) := by
  unfold Double.ofNat
  have hloq : ((2 : ℚ) ^ (64 : ℕ) - 1024) ≤ (p : ℚ) := by
    have h : ((2 ^ 64 - 1024 : ℕ) : ℚ) ≤ (p : ℚ) := by exact_mod_cast hlo
    norm_num at h ⊢
    exact h
  have hhiq : (p : ℚ) < (2 : ℚ) ^ (64 : ℕ) := by exact_mod_cast hhi
  have hsp := spacing_of_log (p : ℚ) 63 (by norm_num at hloq ⊢; linarith)
    (by norm_num at hhiq ⊢; linarith) (by norm_num)
  have hsp2 : Double.spacing (p : ℚ) = 2048 := by rw [hsp]; norm_num
  have hround : Double.roundHalfEven ((p : ℚ) / 2048) = (2 : ℤ) ^ (53 : ℕ) := by
    rw [roundHalfEven_of_floor _ ((2 : ℤ) ^ (53 : ℕ) - 1)
      (by rw [le_div_iff₀ (by norm_num)]; norm_num at hloq ⊢; linarith)
      (by rw [div_lt_iff₀ (by norm_num)]; norm_num at hhiq ⊢; linarith)]
    have hfrac : ¬ ((p : ℚ) / 2048 - (((2 : ℤ) ^ (53 : ℕ) - 1 : ℤ) : ℚ) < 1 / 2) := by
      rw [not_lt, le_sub_iff_add_le, le_div_iff₀ (by norm_num)]
      norm_num at hloq ⊢
      linarith
    rw [if_neg hfrac]
    split_ifs with h1 h2
    · ring
    · norm_num at h2
    · ring
  apply ofRat_eq_finite
  · rw [hsp2, hround]
    norm_num
  · norm_num
  · norm_num

/-- The conversion to `size_t` of a double in the unit interval from `k`,
`k` below 2^64, is `k`. -/
theorem toSizeT_finite (y : ℚ) (k : ℕ) (hk : (k : ℚ) ≤ y) (hy : y < k + 1)
    (hk64 : k < 2 ^ 64) : (Double.finite y).toSizeT = some k := by
  have hy0 : (0 : ℚ) ≤ y := le_trans (by positivity) hk
  have hfloor : ⌊y⌋ = (k : ℤ) := by
    rw [Int.floor_eq_iff]
    exact ⟨by exact_mod_cast hk, by exact_mod_cast hy⟩
  unfold Double.toSizeT
  simp only [hy0, if_true, hfloor]
  have h64 : (k : ℤ) < 2 ^ 64 := by exact_mod_cast hk64
  simp only [Int.toNat_ofNat, Int.natCast_nonneg, h64, and_self, if_true]

/-- The conversion to `size_t` of a double from 0 to below 2^64 is defined. -/
theorem toSizeT_isSome (y : ℚ) (hy0 : 0 ≤ y) (hy : y < (2 : ℚ) ^ (64 : ℕ)) :
    ∃ k : ℕ, (Double.finite y).toSizeT = some k := by
  have h1 : (0 : ℤ) ≤ ⌊y⌋ := Int.floor_nonneg.mpr hy0
  have h2 : ⌊y⌋ < (2 : ℤ) ^ 64 := by
    rw [Int.floor_lt]
    exact_mod_cast hy
  refine ⟨⌊y⌋.toNat, ?_⟩
  unfold Double.toSizeT
  simp only [hy0, if_true, h1, h2, and_self]

/-- The quotient of the conversions of two `size_t` values, converted back to
`size_t`, is the integer quotient when the dividend is below 2^53 and the
divisor is positive. -/
theorem div_toSizeT (p s : ℕ) (hp : p < 2 ^ 53) (hs : 0 < s) :
    ((Double.ofNat p).div (Double.ofNat s)).toSizeT = some (p / s) := by
  have hpq : (p : ℚ) < (2 : ℚ) ^ (53 : ℕ) := by exact_mod_cast hp
  have hp0 : (0 : ℚ) ≤ (p : ℚ) := by positivity
  have hpow53 : (0 : ℚ) < (2 : ℚ) ^ (53 : ℕ) := by positivity
  have hsmall : ((2 : ℚ) ^ (1075 : ℕ))⁻¹ < ((2 : ℚ) ^ (53 : ℕ))⁻¹ := by
    rw [inv_lt_inv₀ (by positivity) (by positivity)]
    exact pow_lt_pow_right₀ (by norm_num) (by norm_num)
  rw [ofNat_exact p hp]
  by_cases hcase : s < 2 ^ 53
  · rw [ofNat_exact s hcase]
    have hsq : (0 : ℚ) < (s : ℚ) := by exact_mod_cast hs
    have hslt : (s : ℚ) < (2 : ℚ) ^ (53 : ℕ) := by exact_mod_cast hcase
    have hquot : (((p / s : ℕ) : ℕ) : ℚ) ≤ (p : ℚ) / (s : ℚ) := Nat.cast_div_le
    have hsucc : (p : ℚ) + 1 ≤ (s : ℚ) * (((p / s : ℕ) : ℚ) + 1) := by
      have h := Nat.lt_mul_div_succ p hs
      have h2 : p + 1 ≤ s * (p / s + 1) := h
      exact_mod_cast h2
    have hgap : 1 / (s : ℚ) ≤ ((p / s : ℕ) : ℚ) + 1 - (p : ℚ) / (s : ℚ) := by
      rw [le_sub_iff_add_le, ← add_div, div_le_iff₀ hsq]
      linarith
    have hinv : ((2 : ℚ) ^ (53 : ℕ))⁻¹ < 1 / (s : ℚ) := by
      rw [one_div, inv_lt_inv₀ hpow53 hsq]
      exact hslt
    obtain ⟨y, hy, hlo, hhi⟩ := ofRat_floor_nonneg ((p : ℚ) / (s : ℚ)) (p / s)
      (div_nonneg hp0 hsq.le) hquot
      (lt_of_le_of_lt (Nat.div_le_self p s) hp)
      (by
        refine lt_of_lt_of_le ?_ hgap
        rw [div_div, div_lt_div_iff₀ (by positivity) hsq]
        nlinarith)
      (lt_of_lt_of_le (lt_trans hsmall hinv) hgap)
    simp only [Double.div, hsq.ne', if_false, hy]
    exact toSizeT_finite y (p / s) hlo hhi
      (lt_of_le_of_lt (Nat.div_le_self p s) (lt_trans hp (by norm_num)))
  · have hle : 2 ^ 53 ≤ s := not_lt.mp hcase
    have hdiv : p / s = 0 := Nat.div_eq_of_lt (lt_of_lt_of_le hp hle)
    rw [hdiv]
    rcases ofNat_large s hle with hinf | ⟨S, hS, hSge⟩
    · rw [hinf]
      simp only [Double.div]
      exact toSizeT_finite 0 0 (by norm_num) (by norm_num) (by norm_num)
    · rw [hS]
      have hSpos : (0 : ℚ) < S := lt_of_lt_of_le hpow53 hSge
      have hp1 : (p : ℚ) + 1 ≤ (2 : ℚ) ^ (53 : ℕ) := by
        have : p + 1 ≤ 2 ^ 53 := hp
        exact_mod_cast this
      have hx : (p : ℚ) / S ≤ 1 - ((2 : ℚ) ^ (53 : ℕ))⁻¹ := by
        rw [div_le_iff₀ hSpos]
        have h1 : (1 - ((2 : ℚ) ^ (53 : ℕ))⁻¹) * (2 : ℚ) ^ (53 : ℕ) ≤
            (1 - ((2 : ℚ) ^ (53 : ℕ))⁻¹) * S :=
          mul_le_mul_of_nonneg_left hSge (by
            have : ((2 : ℚ) ^ (53 : ℕ))⁻¹ ≤ 1 := by
              rw [inv_le_one_iff₀]; right; norm_num
            linarith)
        have h2 : (1 - ((2 : ℚ) ^ (53 : ℕ))⁻¹) * (2 : ℚ) ^ (53 : ℕ) = (2 : ℚ) ^ (53 : ℕ) - 1 := by
          field_simp
        linarith
      have hinvpos : (0 : ℚ) < ((2 : ℚ) ^ (53 : ℕ))⁻¹ := by positivity
      obtain ⟨y, hy, hlo, hhi⟩ := ofRat_floor_nonneg ((p : ℚ) / S) 0
        (div_nonneg hp0 hSpos.le) (by simpa using div_nonneg hp0 hSpos.le) (by norm_num)
        (by
          have h1 : (p : ℚ) / S / (2 : ℚ) ^ (53 : ℕ) < ((2 : ℚ) ^ (53 : ℕ))⁻¹ := by
            rw [div_lt_iff₀ hpow53, inv_mul_cancel₀ hpow53.ne']
            linarith
          push_cast
          linarith)
        (by push_cast; linarith)
      simp only [Double.div, hSpos.ne', if_false, hy]
      exact toSizeT_finite y 0 hlo hhi (by norm_num)

/-- The conversion of the quotient to `size_t` is defined exactly when the
divisor is at least 2, or is 1 with a dividend below 2^64 - 1024. -/
theorem quotient_toSizeT_isSome (p s : ℕ) (hp : p < 2 ^ 64) :
    ((Double.ofNat p).div (Double.ofNat s)).toSizeT.isSome = true ↔
      (2 ≤ s ∨ (s = 1 ∧ p < 2 ^ 64 - 1024)) := by
  have hpq : (p : ℚ) ≤ (2 : ℚ) ^ (64 : ℕ) := by
    have : p ≤ 2 ^ 64 := hp.le
    exact_mod_cast this
  have hp0 : (0 : ℚ) ≤ (p : ℚ) := by positivity
  obtain ⟨P, hP, hP0, hPle⟩ := ofRat_le_two_pow (p : ℚ) 64 hp0 hpq (by norm_num)
  have hPnat : Double.ofNat p = Double.finite P := hP
  rcases Nat.lt_or_ge s 2 with hs | hs
  · rcases Nat.lt_or_ge s 1 with hs0 | hs1
    · have hzero : s = 0 := by omega
      subst hzero
      have h0 : Double.ofNat 0 = Double.finite 0 := by
        have := ofNat_exact 0 (by norm_num)
        simpa using this
      rw [hPnat, h0]
      constructor
      · intro h
        exfalso
        simp only [Double.div, if_true] at h
        split_ifs at h <;> simp [Double.toSizeT] at h
      · intro h
        omega
    · have hone : s = 1 := by omega
      subst hone
      have h1 : Double.ofNat 1 = Double.finite 1 := by
        have := ofNat_exact 1 (by norm_num)
        simpa using this
      by_cases hsmall : p < 2 ^ 64 - 1024
      · have hsmallq : (p : ℚ) < (2 : ℚ) ^ (64 : ℕ) - 1024 := by
          have h : (p : ℚ) < ((2 ^ 64 - 1024 : ℕ) : ℚ) := by exact_mod_cast hsmall
          norm_num at h ⊢
          exact h
        obtain ⟨Q, hQ, hQ0, hQle⟩ := ofRat_lt_size_max (p : ℚ) hp0 hsmallq
        have hQnat : Double.ofNat p = Double.finite Q := hQ
        obtain ⟨y, hy, hy0, hyle⟩ := ofRat_lt_size_max Q hQ0 (by linarith)
        obtain ⟨k, hk⟩ := toSizeT_isSome y hy0 (by linarith)
        rw [hQnat, h1]
        refine ⟨fun _ => Or.inr ⟨rfl, hsmall⟩, fun _ => ?_⟩
        simp only [Double.div, one_ne_zero, if_false, div_one, hy, hk, Option.isSome_some]
      · have hnear := ofNat_near_size_max p (not_lt.mp hsmall) hp
        rw [hnear, h1]
        simp only [Double.div, one_ne_zero, if_false, div_one, ofRat_two_pow_64]
        constructor
        · intro h
          exfalso
          have hfloor : ⌊((2 : ℚ) ^ (64 : ℕ))⌋ = (2 : ℤ) ^ (64 : ℕ) := by
            rw [Int.floor_eq_iff]
            constructor <;> norm_num
          have h0 : (0 : ℚ) ≤ (2 : ℚ) ^ (64 : ℕ) := by positivity
          unfold Double.toSizeT at h
          simp only [h0, if_true, hfloor] at h
          norm_num at h
        · intro h
          omega
  · have hsq : (2 : ℚ) ^ (1 : ℕ) ≤ (s : ℚ) := by
      have : (2 : ℕ) ^ 1 ≤ s := by simpa using hs
      exact_mod_cast this
    have hright : (2 ≤ s ∨ (s = 1 ∧ p < 2 ^ 64 - 1024)) := Or.inl hs
    simp only [hright, iff_true]
    rw [hPnat]
    rcases ofRat_ge_two_pow (s : ℚ) 1 hsq with hinf | ⟨S, hS, hSge⟩
    · have hinf2 : Double.ofNat s = Double.pos_inf := hinf
      rw [hinf2]
      obtain ⟨k, hk⟩ := toSizeT_isSome 0 (le_refl _) (by positivity)
      simp only [Double.div, hk, Option.isSome_some]
    · have hS2 : Double.ofNat s = Double.finite S := hS
      rw [hS2]
      have hSpos : (0 : ℚ) < S := by
        have : (0 : ℚ) < (2 : ℚ) ^ (1 : ℕ) := by positivity
        linarith
      have hquot : P / S ≤ (2 : ℚ) ^ (63 : ℕ) := by
        rw [div_le_iff₀ hSpos]
        have h1 : (2 : ℚ) ^ (63 : ℕ) * (2 : ℚ) ^ (1 : ℕ) ≤ (2 : ℚ) ^ (63 : ℕ) * S :=
          mul_le_mul_of_nonneg_left hSge (by positivity)
        have h2 : (2 : ℚ) ^ (63 : ℕ) * (2 : ℚ) ^ (1 : ℕ) = (2 : ℚ) ^ (64 : ℕ) := by norm_num
        linarith
      obtain ⟨y, hy, hy0, hyle⟩ := ofRat_le_two_pow (P / S) 63 (div_nonneg hP0 hSpos.le) hquot
        (by norm_num)
      obtain ⟨k, hk⟩ := toSizeT_isSome y hy0
        (lt_of_le_of_lt hyle (pow_lt_pow_right₀ (by norm_num) (by norm_num)))
      simp only [Double.div, hSpos.ne', if_false, hy, hk, Option.isSome_some]

/-- No double is less than itself. -/
theorem Double_lt_irrefl (a : Double) : a.lt a = false := by
  cases a <;> simp [Double.lt]

/-- A double other than a NaN is at most itself. -/
theorem Double_le_refl (a : Double) (ha : a ≠ Double.nan) : a.le a = true := by
  cases a <;> simp [Double.le] at ha ⊢

/-- For doubles other than a NaN, `b` is at most `a` when `a` is not less than
`b`. -/
theorem Double_le_of_not_lt (a b : Double) (ha : a ≠ Double.nan) (hb : b ≠ Double.nan)
    (h : a.lt b = false) : b.le a = true := by
  cases a <;> cases b <;> simp [Double.lt, Double.le] at ha hb h ⊢
  exact h

/-! ### The join-side update -/

/-- The state after `UpdateJoinStats` when the quotient converts to the
`size_t` value `estimated_card`. -/
theorem UpdateJoinStats_of_toSizeT (stats : ColumnStats)
    (table_num_rows sample_size sample_card estimated_card : Nat)
    (h : ((Double.ofNat ((sample_card * table_num_rows) % 2 ^ 64)).div
      (Double.ofNat sample_size)).toSizeT = some estimated_card) :
    stats.UpdateJoinStats table_num_rows sample_size sample_card =
      some { stats with
        num_rows_ := table_num_rows
        cardinality_ :=
          if stats.cardinality_.lt (Double.ofNat estimated_card) then stats.cardinality_
          else Double.ofNat estimated_card } := by
  unfold ColumnStats.UpdateJoinStats
  simp only [ColumnStats.SIZE_MAX_PLUS_ONE, h]

/-- The call `UpdateJoinStats` returns exactly when the sample size is at
least 2, or is 1 with a `size_t` product below 2^64 - 1024: otherwise the
conversion of the quotient to `size_t` is undefined. -/
theorem UpdateJoinStats_isSome_iff (stats : ColumnStats)
    (table_num_rows sample_size sample_card : Nat) :
    (stats.UpdateJoinStats table_num_rows sample_size sample_card).isSome = true ↔
      (2 ≤ sample_size ∨
        (sample_size = 1 ∧ (sample_card * table_num_rows) % 2 ^ 64 < 2 ^ 64 - 1024)) := by
  rw [← quotient_toSizeT_isSome ((sample_card * table_num_rows) % 2 ^ 64) sample_size
    (Nat.mod_lt _ (by norm_num))]
  unfold ColumnStats.UpdateJoinStats
  simp only [ColumnStats.SIZE_MAX_PLUS_ONE]
  cases ((Double.ofNat ((sample_card * table_num_rows) % 2 ^ 64)).div
    (Double.ofNat sample_size)).toSizeT <;> simp

/-- The state after `UpdateJoinStats` when the sample size is positive and
the product is below 2^53: the estimate is the integer quotient. -/
theorem UpdateJoinStats_eq (stats : ColumnStats) (table_num_rows sample_size sample_card : Nat)
    (hsize : 0 < sample_size) (hproduct : sample_card * table_num_rows < 2 ^ 53) :
    stats.UpdateJoinStats table_num_rows sample_size sample_card =
      some { stats with
        num_rows_ := table_num_rows
        cardinality_ :=
          if stats.cardinality_.lt
              (Double.finite ((sample_card * table_num_rows / sample_size : Nat) : ℚ))
          then stats.cardinality_
          else Double.finite ((sample_card * table_num_rows / sample_size : Nat) : ℚ) } := by
  have hmod : (sample_card * table_num_rows) % 2 ^ 64 = sample_card * table_num_rows :=
    Nat.mod_eq_of_lt (lt_trans hproduct (by norm_num))
  have hquot := div_toSizeT (sample_card * table_num_rows) sample_size hproduct hsize
  rw [UpdateJoinStats_of_toSizeT stats table_num_rows sample_size sample_card
    (sample_card * table_num_rows / sample_size) (by rw [hmod]; exact hquot)]
  rw [ofNat_exact _ (lt_of_le_of_lt (Nat.div_le_self _ _) hproduct)]

/-- C29, counterexample: on statistics with cardinality 10, the call
`UpdateJoinStats(1, 2, 1)` sets the cardinality to 0, the truncation of 1/2,
whereas the minimum of 10 and the exact ratio 1 * 1 / 2 is 1/2; the call
`UpdateJoinStats(2, 1, 2^63)`, whose product wraps around to 0 in `size_t`,
sets the cardinality to 0, whereas the minimum of 10 and the exact ratio is
10; and on statistics with cardinality 2^60 the call
`UpdateJoinStats(2^53 + 1, 1, 1)`, whose product 2^53 + 1 is rounded to 2^53
by the conversion to `double`, sets the cardinality to 2^53, whereas the
minimum of 2^60 and the exact ratio is 2^53 + 1. -/
theorem UpdateJoinStats_truncates :
    (sampleColumnStats.UpdateJoinStats 1 2 1).map (fun stats => stats.cardinality_) =
      some (Double.finite 0) ∧
    sampleColumnStats.cardinality_ = Double.finite 10 ∧
    min (10 : ℚ) (((1 : Nat) : ℚ) * ((1 : Nat) : ℚ) / ((2 : Nat) : ℚ)) = 1 / 2 ∧
    (sampleColumnStats.UpdateJoinStats 2 1 (2 ^ 63)).map (fun stats => stats.cardinality_) =
      some (Double.finite 0) ∧
    min (10 : ℚ) (((2 ^ 63 : Nat) : ℚ) * ((2 : Nat) : ℚ) / ((1 : Nat) : ℚ)) = 10 ∧
    (sampleLargeColumnStats.UpdateJoinStats (2 ^ 53 + 1) 1 1).map
        (fun stats => stats.cardinality_) = some (Double.finite (2 ^ 53)) ∧
    sampleLargeColumnStats.cardinality_ = Double.finite (2 ^ 60) ∧
    min ((2 : ℚ) ^ 60) (((1 : Nat) : ℚ) * ((2 ^ 53 + 1 : Nat) : ℚ) / ((1 : Nat) : ℚ)) =
      2 ^ 53 + 1 := by
  refine ⟨?_, rfl, by norm_num, ?_, by norm_num, ?_, rfl, by norm_num⟩
  · rw [UpdateJoinStats_eq sampleColumnStats 1 2 1 (by decide) (by decide)]
    norm_num [sampleColumnStats, Double.lt]
  · have hquot := div_toSizeT 0 1 (by norm_num) (by norm_num)
    rw [UpdateJoinStats_of_toSizeT sampleColumnStats 2 1 (2 ^ 63) 0 (by
      have hmod : (2 ^ 63 * 2) % 2 ^ 64 = 0 := by norm_num
      rw [hmod]
      exact hquot)]
    rw [ofNat_exact 0 (by norm_num)]
    norm_num [sampleColumnStats, Double.lt]
  · have hquot : ((Double.ofNat ((1 * (2 ^ 53 + 1)) % 2 ^ 64)).div
        (Double.ofNat 1)).toSizeT = some (2 ^ 53) := by
      have hmod : (1 * (2 ^ 53 + 1)) % 2 ^ 64 = 2 ^ 53 + 1 := by norm_num
      rw [hmod, ofNat_two_pow_53_add_one, ofNat_exact 1 (by norm_num)]
      simp only [Double.div, Nat.cast_one, one_ne_zero, if_false, div_one, ofRat_two_pow_53]
      exact toSizeT_finite _ (2 ^ 53) (by norm_num) (by norm_num) (by norm_num)
    rw [UpdateJoinStats_of_toSizeT sampleLargeColumnStats (2 ^ 53 + 1) 1 1 (2 ^ 53) hquot]
    have hof : Double.ofNat (2 ^ 53) = Double.finite ((2 : ℚ) ^ (53 : ℕ)) := by
      unfold Double.ofNat
      have := ofRat_two_pow_53
      simpa using this
    rw [hof]
    norm_num [sampleLargeColumnStats, sampleColumnStats, Double.lt]

/-- C29, amended: for every state and every `sample_size > 0` such that
`sample_card * table_num_rows` is below 2^53,
`ColumnStats::UpdateJoinStats(table_num_rows, sample_size, sample_card)`
returns, sets `num_rows` to `table_num_rows` and sets the cardinality to the
old cardinality when that is less than the quotient
`sample_card * table_num_rows / sample_size` truncated to an integer, and to
the truncated quotient otherwise: to the minimum of the two for a finite old
cardinality (a NaN is replaced by the truncated quotient); no other field
changes. -/
theorem UpdateJoinStats_truncated_min (stats : ColumnStats)
    (table_num_rows sample_size sample_card : Nat) (hsize : 0 < sample_size)
    (hproduct : sample_card * table_num_rows < 2 ^ 53) :
    ∃ after : ColumnStats,
      stats.UpdateJoinStats table_num_rows sample_size sample_card = some after ∧
      after.num_rows_ = table_num_rows ∧
      after.cardinality_ =
        (if stats.cardinality_.lt (Double.finite
            ((Nat.floor (((sample_card : ℚ) * (table_num_rows : ℚ)) / (sample_size : ℚ)) : Nat) :
              ℚ))
          then stats.cardinality_
          else Double.finite
            ((Nat.floor (((sample_card : ℚ) * (table_num_rows : ℚ)) / (sample_size : ℚ)) : Nat) :
              ℚ)) ∧
      (∀ old : ℚ, stats.cardinality_ = Double.finite old →
        after.cardinality_ = Double.finite (min old
          ((Nat.floor (((sample_card : ℚ) * (table_num_rows : ℚ)) / (sample_size : ℚ)) : Nat) :
            ℚ))) ∧
      after = { stats with num_rows_ := after.num_rows_, cardinality_ := after.cardinality_ } := by
  have hfloor : Nat.floor (((sample_card : ℚ) * (table_num_rows : ℚ)) / (sample_size : ℚ)) =
      sample_card * table_num_rows / sample_size := by
    rw [← Nat.cast_mul]
    exact Nat.floor_div_eq_div _ _
  rw [hfloor]
  refine ⟨_, UpdateJoinStats_eq stats table_num_rows sample_size sample_card hsize hproduct,
    rfl, rfl, ?_, rfl⟩
  intro old hold
  simp only [hold, Double.lt]
  by_cases h : old < ((sample_card * table_num_rows / sample_size : Nat) : ℚ)
  · simp only [h, decide_True, if_true, min_eq_left (le_of_lt h)]
  · simp only [h, decide_False, Bool.false_eq_true, if_false, min_eq_right (not_lt.mp h)]

/-- Witness of C29: on statistics with cardinality 10, the call
`UpdateJoinStats(50, 20, 3)` sets the number of rows to 50 and the cardinality
to 7, the truncation of 150 / 20, and the call `UpdateJoinStats(50, 8, 3)`
keeps the cardinality 10 (the truncated quotient is 18). -/
theorem UpdateJoinStats_truncated_min_witness :
    (0 < 20 ∧ 3 * 50 < 2 ^ 53) ∧
    (∃ after : ColumnStats,
      sampleColumnStats.UpdateJoinStats 50 20 3 = some after ∧
      after.num_rows_ = 50 ∧
      after.cardinality_ =
        (if sampleColumnStats.cardinality_.lt (Double.finite
            ((Nat.floor ((((3 : Nat) : ℚ) * ((50 : Nat) : ℚ)) / ((20 : Nat) : ℚ)) : Nat) : ℚ))
          then sampleColumnStats.cardinality_
          else Double.finite
            ((Nat.floor ((((3 : Nat) : ℚ) * ((50 : Nat) : ℚ)) / ((20 : Nat) : ℚ)) : Nat) : ℚ)) ∧
      (∀ old : ℚ, sampleColumnStats.cardinality_ = Double.finite old →
        after.cardinality_ = Double.finite (min old
          ((Nat.floor ((((3 : Nat) : ℚ) * ((50 : Nat) : ℚ)) / ((20 : Nat) : ℚ)) : Nat) : ℚ))) ∧
      after = { sampleColumnStats with
        num_rows_ := after.num_rows_, cardinality_ := after.cardinality_ }) ∧
    (sampleColumnStats.UpdateJoinStats 50 20 3).map
        (fun stats => (stats.num_rows_, stats.cardinality_)) = some (50, Double.finite 7) ∧
    (sampleColumnStats.UpdateJoinStats 50 8 3).map
        (fun stats => (stats.num_rows_, stats.cardinality_)) = some (50, Double.finite 10) := by
  refine ⟨⟨by decide, by decide⟩,
    UpdateJoinStats_truncated_min sampleColumnStats 50 20 3 (by decide) (by decide), ?_, ?_⟩
  · rw [UpdateJoinStats_eq sampleColumnStats 50 20 3 (by decide) (by decide)]
    norm_num [sampleColumnStats, Double.lt]
  · rw [UpdateJoinStats_eq sampleColumnStats 50 8 3 (by decide) (by decide)]
    norm_num [sampleColumnStats, Double.lt]

/-- Reading back the JSON array of a vector of numbers gives the vector. -/
theorem getDoubleVector_ofDoubleVector (xs : List Double) :
    (Json.ofDoubleVector xs).getDoubleVector = some xs := by
  unfold Json.ofDoubleVector Json.getDoubleVector
  induction xs with
  | nil => rfl
  | cons x xs ih =>
    simp only [List.map_cons, List.mapM_cons, Json.getDouble] at ih ⊢
    rw [ih]
    rfl

/-- The JSON object `ToJson` builds: the twelve members in the order of the
assignments. -/
theorem ToJson_eq (stats : ColumnStats) :
    stats.ToJson = some (Json.object
      [("namespace_id", Json.number_unsigned stats.namespace_id_),
       ("database_id", Json.number_unsigned stats.database_id_),
       ("table_id", Json.number_unsigned stats.table_id_),
       ("column_id", Json.number_unsigned stats.column_id_),
       ("column_name", Json.string stats.column_name_),
       ("num_rows", Json.number_unsigned stats.num_rows_),
       ("cardinality", Json.number_float stats.cardinality_),
       ("frac_null", Json.number_float stats.frac_null_),
       ("most_common_vals", Json.ofDoubleVector stats.most_common_vals_),
       ("most_common_freqs", Json.ofDoubleVector stats.most_common_freqs_),
       ("histogram_bounds", Json.ofDoubleVector stats.histogram_bounds_),
       ("is_basetable", Json.boolean stats.is_base_table_)]) := by
  simp [ColumnStats.ToJson, Json.set, Json.setMember]

/-- C30: the JSON round trip of column statistics.  For every ColumnStats
value c, `ToJson` returns a JSON value, and `FromJson` on that value, called
on any ColumnStats object, leaves the object with its twelve fields equal to
those of c. -/
theorem ColumnStats_json_round_trip (c target : ColumnStats) :
    ∃ (j : Json) (after : ColumnStats),
      c.ToJson = some j ∧ target.FromJson j = some after ∧
      after.namespace_id_ = c.namespace_id_ ∧
      after.database_id_ = c.database_id_ ∧
      after.table_id_ = c.table_id_ ∧
      after.column_id_ = c.column_id_ ∧
      after.column_name_ = c.column_name_ ∧
      after.num_rows_ = c.num_rows_ ∧
      after.cardinality_ = c.cardinality_ ∧
      after.frac_null_ = c.frac_null_ ∧
      after.most_common_vals_ = c.most_common_vals_ ∧
      after.most_common_freqs_ = c.most_common_freqs_ ∧
      after.histogram_bounds_ = c.histogram_bounds_ ∧
      after.is_base_table_ = c.is_base_table_ := by
  refine ⟨_, c, ToJson_eq c, ?_, rfl, rfl, rfl, rfl, rfl, rfl, rfl, rfl, rfl, rfl, rfl, rfl⟩
  simp [ColumnStats.FromJson, Json.at_, Json.findMember, Json.getUnsigned, Json.getString,
    Json.getDouble, Json.getBool, getDoubleVector_ofDoubleVector]

/-! ## Statistics storage -/

/-- The contains-check of the storage is true exactly when a lookup finds
statistics. -/
theorem StatsStorage_Contains_eq (storage : StatsStorage) (database_id table_id : Nat) :
    storage.Contains database_id table_id =
      (storage.GetTableStats database_id table_id).isSome := by
  unfold StatsStorage.Contains StatsStorage.GetTableStats
  induction storage.table_stats_storage with
  | nil => rfl
  | cons entry entries ih =>
    by_cases h : entry.1 = (database_id, table_id)
    · simp [List.find?_cons, h]
    · simp [List.find?_cons, h] at ih ⊢
      exact ih

/-- A lookup of the key `other` among the entries left after removing the
entries of `key`. -/
theorem StatsStorage_find_filter (entries : List (StatsStorageKey × TableStats))
    (key other : StatsStorageKey) :
    (entries.filter (fun entry => !decide (entry.1 = key))).find?
        (fun entry => decide (entry.1 = other)) =
      if other = key then none else entries.find? (fun entry => decide (entry.1 = other)) := by
  induction entries with
  | nil => simp
  | cons entry entries ih =>
    by_cases hk : entry.1 = key
    · by_cases ho : other = key
      · simp [List.filter_cons, hk, ho, ih]
      · have hne : ¬ key = other := fun h => ho h.symm
        simp [List.filter_cons, hk, ho, ih, List.find?_cons, hne]
    · by_cases ho : other = key
      · have hne : ¬ entry.1 = other := fun h => hk (h.trans ho)
        simp [List.filter_cons, hk, ho, ih, List.find?_cons, hne]
      · by_cases he : entry.1 = other
        · simp [List.filter_cons, hk, ho, List.find?_cons, he]
        · simp [List.filter_cons, hk, ho, ih, List.find?_cons, he]

/-- C31: StatsStorage behaves as a finite map keyed by (database oid, table
oid).  GetTableStats returns null exactly for an absent key.
InsertTableStats returns true exactly when the key is absent; after it a
lookup of the key gives the inserted statistics when the key was absent and
the statistics already stored when it was present, and the lookup of every
other key is unchanged.  DeleteTableStats returns true exactly when the key is
present; after it the key is absent and the lookup of every other key is
unchanged. -/
theorem StatsStorage_finite_map (storage : StatsStorage) (database_id table_id : Nat)
    (table_stats : TableStats) :
    (storage.GetTableStats database_id table_id = none ↔
      storage.Contains database_id table_id = false) ∧
    (storage.InsertTableStats database_id table_id table_stats).1 =
      !storage.Contains database_id table_id ∧
    ((storage.InsertTableStats database_id table_id table_stats).2.GetTableStats
        database_id table_id =
      if storage.Contains database_id table_id then storage.GetTableStats database_id table_id
      else some table_stats) ∧
    (∀ other_database other_table : Nat,
      (other_database, other_table) ≠ (database_id, table_id) →
      (storage.InsertTableStats database_id table_id table_stats).2.GetTableStats
          other_database other_table =
        storage.GetTableStats other_database other_table) ∧
    (storage.DeleteTableStats database_id table_id).1 =
      storage.Contains database_id table_id ∧
    (storage.DeleteTableStats database_id table_id).2.GetTableStats database_id table_id =
      none ∧
    (∀ other_database other_table : Nat,
      (other_database, other_table) ≠ (database_id, table_id) →
      (storage.DeleteTableStats database_id table_id).2.GetTableStats
          other_database other_table =
        storage.GetTableStats other_database other_table) := by
  have hc := StatsStorage_Contains_eq storage database_id table_id
  refine ⟨?_, ?_, ?_, ?_, ?_, ?_, ?_⟩
  · rw [hc]; cases storage.GetTableStats database_id table_id <;> simp
  · unfold StatsStorage.InsertTableStats
    cases storage.Contains database_id table_id <;> simp
  · unfold StatsStorage.InsertTableStats
    cases h : storage.Contains database_id table_id
    · simp [StatsStorage.GetTableStats, List.find?_cons]
    · simp
  · intro other_database other_table hne
    unfold StatsStorage.InsertTableStats
    cases h : storage.Contains database_id table_id
    · have hne' : ¬ (database_id = other_database ∧ table_id = other_table) := by
        rintro ⟨h1, h2⟩; exact hne (by rw [h1, h2])
      simp [StatsStorage.GetTableStats, List.find?_cons, hne']
    · simp
  · unfold StatsStorage.DeleteTableStats
    cases storage.Contains database_id table_id <;> simp
  · unfold StatsStorage.DeleteTableStats
    cases h : storage.Contains database_id table_id
    · rw [hc] at h
      cases hg : storage.GetTableStats database_id table_id
      · simpa using hg
      · rw [hg] at h; simp at h
    · simp only [if_true, StatsStorage.GetTableStats, StatsStorage_find_filter]
      simp
  · intro other_database other_table hne
    unfold StatsStorage.DeleteTableStats
    cases h : storage.Contains database_id table_id
    · simp
    · simp only [if_true, StatsStorage.GetTableStats, StatsStorage_find_filter]
      simp [hne]

/-- Witness of C31, the scenarios of the test of the storage: on the empty
storage InsertTableStats(1, 1, stats) returns true; after it GetTableStats(1,
1) is not null, GetTableStats(2, 1) is null and a second insert under (1, 1)
returns false; DeleteTableStats(1, 1) then returns true, and after it
DeleteTableStats(2, 1) and a second DeleteTableStats(1, 1) return false. -/
theorem StatsStorage_finite_map_witness :
    ((StatsStorage.mk []).InsertTableStats 1 1 sampleTableStats).1 = true ∧
    (((StatsStorage.mk []).InsertTableStats 1 1 sampleTableStats).2.GetTableStats 1 1).isSome =
      true ∧
    ((StatsStorage.mk []).InsertTableStats 1 1 sampleTableStats).2.GetTableStats 2 1 = none ∧
    (((StatsStorage.mk []).InsertTableStats 1 1 sampleTableStats).2.InsertTableStats 1 1
      sampleTableStats).1 = false ∧
    (((StatsStorage.mk []).InsertTableStats 1 1 sampleTableStats).2.DeleteTableStats 1 1).1 =
      true ∧
    ((((StatsStorage.mk []).InsertTableStats 1 1 sampleTableStats).2.DeleteTableStats
      1 1).2.DeleteTableStats 2 1).1 = false ∧
    ((((StatsStorage.mk []).InsertTableStats 1 1 sampleTableStats).2.DeleteTableStats
      1 1).2.DeleteTableStats 1 1).1 = false := by
  refine ⟨(StatsStorage_finite_map (StatsStorage.mk []) 1 1 sampleTableStats).2.1.trans
    (by rfl), by rfl,
    ((StatsStorage_finite_map (StatsStorage.mk []) 1 1 sampleTableStats).2.2.2.1 2 1
      (by decide)).trans (by rfl), by rfl, by rfl, by rfl, by rfl⟩

/-! ## Constant expressions -/

/-- C32: equality of constant expressions is structural and consistent with
the hash.  Given that base parts that compare equal hash equally and that
held values that compare equal hash equally, `operator==` of a constant
expression on another constant expression returns true exactly when the base
parts compare equal and the held values compare equal, and whenever it returns
true the two `Hash()` results are equal. -/
theorem ConstantValueExpression_equality_and_hash {TransientValue : Type}
    (collaborators : ExpressionCollaborators TransientValue)
    (first second : ConstantValueExpression TransientValue)
    (hbase : ∀ x y : AbstractExpression, collaborators.BaseEquals x y = true →
      collaborators.BaseHash x = collaborators.BaseHash y)
    (hvalue : ∀ v w : TransientValue, collaborators.ValueEquals v w = true →
      collaborators.ValueHash v = collaborators.ValueHash w) :
    first.Equals collaborators (ExpressionObject.Constant second) =
        some (collaborators.BaseEquals first.base second.base &&
          collaborators.ValueEquals first.value_ second.value_) ∧
    (first.Equals collaborators (ExpressionObject.Constant second) = some true →
      first.Hash collaborators = second.Hash collaborators) := by
  have heq : first.Equals collaborators (ExpressionObject.Constant second) =
      some (collaborators.BaseEquals first.base second.base &&
        collaborators.ValueEquals first.value_ second.value_) := by
    unfold ConstantValueExpression.Equals ExpressionObject.base ConstantValueExpression.GetValue
    cases collaborators.BaseEquals first.base second.base <;> simp
  refine ⟨heq, ?_⟩
  intro h
  rw [heq] at h
  simp only [Option.some.injEq, Bool.and_eq_true] at h
  unfold ConstantValueExpression.Hash
  rw [hbase _ _ h.1, hvalue _ _ h.2]

/-- Witness of C32: with integer values, the constant 5 compares equal to a
constant 5 carrying another alias (the sample base parts compare by depth) and
both hash to 5; it does not compare equal to the constant 7, which hashes to
7. -/
theorem ConstantValueExpression_equality_and_hash_witness :
    ((sampleConstant 5).Equals sampleExpressionCollaborators
        (ExpressionObject.Constant
          ⟨AbstractExpression.mk ExpressionType.VALUE_CONSTANT "five" 0 [], 5⟩) = some true ∧
      (sampleConstant 5).Hash sampleExpressionCollaborators =
        ConstantValueExpression.Hash sampleExpressionCollaborators
          ⟨AbstractExpression.mk ExpressionType.VALUE_CONSTANT "five" 0 [], 5⟩) ∧
    (sampleConstant 5).Equals sampleExpressionCollaborators
        (ExpressionObject.Constant (sampleConstant 7)) = some false ∧
    (sampleConstant 5).Hash sampleExpressionCollaborators = 5 ∧
    (sampleConstant 7).Hash sampleExpressionCollaborators = 7 := by
  have h := ConstantValueExpression_equality_and_hash sampleExpressionCollaborators
    (sampleConstant 5) ⟨AbstractExpression.mk ExpressionType.VALUE_CONSTANT "five" 0 [], 5⟩
    (by intro x y hxy; simp [sampleExpressionCollaborators] at hxy ⊢; rw [hxy])
    (by intro v w hvw; simp [sampleExpressionCollaborators] at hvw ⊢; rw [hvw])
  have h7 := ConstantValueExpression_equality_and_hash sampleExpressionCollaborators
    (sampleConstant 5) (sampleConstant 7)
    (by intro x y hxy; simp [sampleExpressionCollaborators] at hxy ⊢; rw [hxy])
    (by intro v w hvw; simp [sampleExpressionCollaborators] at hvw ⊢; rw [hvw])
  exact ⟨⟨h.1.trans (by rfl), h.2 (h.1.trans (by rfl))⟩, h7.1.trans (by rfl), by rfl, by rfl⟩

/-! ## Join associativity under the reference semantics -/

/-- The cells of given aliases in a combined row are those of its two
parts. -/
theorem specCellsOf_append (aliases : Finset String) (row other : Row) :
    specCellsOf aliases (row ++ other) =
      specCellsOf aliases row ++ specCellsOf aliases other := by
  simp [specCellsOf]

/-- A row that holds no column of the aliases `avoided` has no cell of a
subset of them. -/
theorem specCellsOf_eq_nil (aliases avoided : Finset String) (row : Row)
    (hrow : ∀ cell ∈ row, cell.table_alias ∉ avoided) (hsub : aliases ⊆ avoided) :
    specCellsOf aliases row = [] := by
  unfold specCellsOf
  rw [List.filter_eq_nil_iff]
  intro cell hcell h
  have h1 : cell.table_alias ∈ aliases := by simpa using h
  exact hrow cell hcell (hsub h1)

/-- The rows of an inner join: the combinations of a left row and a right row
on which every predicate holds. -/
theorem mem_specInnerJoinRows (holds : AbstractExpression → Row → Bool)
    (predicates : List AnnotatedExpression) (left_rows right_rows : List Row) (row : Row) :
    row ∈ specInnerJoinRows holds predicates left_rows right_rows ↔
      ∃ left_row ∈ left_rows, ∃ right_row ∈ right_rows,
        row = left_row ++ right_row ∧ ∀ p ∈ predicates, holds p.expr row = true := by
  unfold specInnerJoinRows
  simp only [List.mem_filter, List.mem_flatMap, List.mem_map, List.all_eq_true]
  constructor
  · rintro ⟨⟨left_row, hl, right_row, hr, rfl⟩, hp⟩
    exact ⟨left_row, hl, right_row, hr, rfl, hp⟩
  · rintro ⟨left_row, hl, right_row, hr, rfl, hp⟩
    exact ⟨⟨left_row, hl, right_row, hr, rfl⟩, hp⟩

/-- The rows of a pattern leaf are the rows of its group. -/
theorem specRows_LeafNode (leaf_rows : group_id_t → List Row)
    (holds : AbstractExpression → Row → Bool) (g : group_id_t) :
    specRows leaf_rows holds (LeafNode g) = leaf_rows g := rfl

/-- The rows of an inner join over two plans. -/
theorem specRows_inner_join (leaf_rows : group_id_t → List Row)
    (holds : AbstractExpression → Row → Bool) (predicates : List AnnotatedExpression)
    (first second : OperatorNode) :
    specRows leaf_rows holds
        (OperatorNode.mk (Operator.Join ⟨LogicalJoinType.INNER, predicates⟩) [first, second]) =
      specInnerJoinRows holds predicates (specRows leaf_rows holds first)
        (specRows leaf_rows holds second) := by
  simp [specRows, specRowsOfChildren, specOperatorRows]

/-- On a combination of a left, a middle and a right row, the predicates of
the two input joins hold where the input evaluates them exactly when the
redistributed predicates hold where the output evaluates them. -/
theorem redistribute_holds (holds : AbstractExpression → Row → Bool)
    (ls ms rs : Finset String) (parent_predicates child_predicates : List AnnotatedExpression)
    (hreads : ∀ p ∈ parent_predicates ++ child_predicates, specReadsOnly holds p)
    (hscope : ∀ p ∈ child_predicates, p.table_alias_set ⊆ ls ∪ ms)
    (a b c : Row)
    (ha : ∀ cell ∈ a, cell.table_alias ∉ ms ∪ rs)
    (hc : ∀ cell ∈ c, cell.table_alias ∉ ls ∪ ms) :
    ((∀ p ∈ child_predicates, holds p.expr (a ++ b) = true) ∧
      (∀ p ∈ parent_predicates, holds p.expr ((a ++ b) ++ c) = true)) ↔
    ((∀ p ∈ specInnerList ms rs (parent_predicates ++ child_predicates),
        holds p.expr (b ++ c) = true) ∧
      (∀ p ∈ specOuterList ms rs (parent_predicates ++ child_predicates),
        holds p.expr (a ++ (b ++ c)) = true)) := by
  have hchild : ∀ p ∈ child_predicates,
      holds p.expr (a ++ b) = holds p.expr ((a ++ b) ++ c) := by
    intro p hp
    apply hreads p (List.mem_append_right _ hp)
    rw [specCellsOf_append _ (a ++ b) c,
      specCellsOf_eq_nil p.table_alias_set (ls ∪ ms) c hc (hscope p hp), List.append_nil]
  have hinner : ∀ p ∈ parent_predicates ++ child_predicates,
      p.table_alias_set ⊆ ms ∪ rs →
      holds p.expr (b ++ c) = holds p.expr (a ++ (b ++ c)) := by
    intro p hp hsub
    apply hreads p hp
    rw [specCellsOf_append _ a (b ++ c),
      specCellsOf_eq_nil p.table_alias_set (ms ∪ rs) a ha hsub, List.nil_append]
  have hall : ((∀ p ∈ child_predicates, holds p.expr (a ++ b) = true) ∧
      (∀ p ∈ parent_predicates, holds p.expr ((a ++ b) ++ c) = true)) ↔
      ∀ p ∈ parent_predicates ++ child_predicates, holds p.expr (a ++ (b ++ c)) = true := by
    rw [← List.append_assoc]
    constructor
    · rintro ⟨h1, h2⟩ p hp
      rcases List.mem_append.mp hp with hp | hp
      · exact h2 p hp
      · rw [← hchild p hp]; exact h1 p hp
    · intro h
      refine ⟨fun p hp => ?_, fun p hp => h p (List.mem_append_left _ hp)⟩
      rw [hchild p hp]; exact h p (List.mem_append_right _ hp)
  rw [hall]
  unfold specInnerList specOuterList
  constructor
  · intro h
    refine ⟨fun p hp => ?_, fun p hp => ?_⟩
    · rw [List.mem_filter] at hp
      rw [hinner p hp.1 (by simpa using hp.2)]
      exact h p hp.1
    · rw [List.mem_filter] at hp
      exact h p hp.1
  · rintro ⟨h1, h2⟩ p hp
    by_cases hsub : p.table_alias_set ⊆ ms ∪ rs
    · rw [← hinner p hp hsub]
      exact h1 p (List.mem_filter.mpr ⟨hp, by simpa using hsub⟩)
    · exact h2 p (List.mem_filter.mpr ⟨hp, by simpa using hsub⟩)

/-- The toy evaluation reads only the cells of the tables the expression
references. -/
theorem sampleHolds_reads_only (p : AnnotatedExpression)
    (h : ∀ name ∈ sampleTableNames p.expr, name ∈ p.table_alias_set) :
    specReadsOnly sampleHolds p := by
  intro row other heq
  have hfilter : ∀ r : Row,
      r.filter (fun cell => decide (cell.table_alias ∈ sampleTableNames p.expr)) =
        (specCellsOf p.table_alias_set r).filter
          (fun cell => decide (cell.table_alias ∈ sampleTableNames p.expr)) := by
    intro r
    unfold specCellsOf
    rw [List.filter_filter]
    apply List.filter_congr
    intro cell _
    by_cases hc : cell.table_alias ∈ sampleTableNames p.expr
    · simp [hc, h _ hc]
    · simp [hc]
  unfold sampleHolds
  rw [hfilter row, hfilter other, heq]

/-- C33, counterexample: the emitted plan can return other rows than the
input.  First, on the three-way inner join whose inner join over the groups a
and b carries `b.y = c.z` (a predicate that reads only columns of its alias
set, but over an alias that is not among those of the inner join's inputs),
the rule moves the predicate to the new inner join over b and c; the row (a.x
= 1, b.y = 1, c.z = 2) is returned by the input and not by the emitted plan.
Second, in a memo in which the middle and the right group both cover the alias
b, on the join whose inner join carries `a.x = b.y`, the predicate stays at
the outer join, where it also reads the column `b.y` of the right input; the
row (a.x = 1, b.y = 1, b.y = 2) is returned by the input and not by the
emitted plan. -/
theorem Associativity_ill_scoped_changes_rows :
    (specReadsOnly sampleHolds samplePredBC ∧
      LogicalInnerJoinAssociativity.Transform sampleIllScopedJoin [] sampleMemo =
        some [OperatorNode.mk (Operator.Join ⟨LogicalJoinType.INNER, []⟩)
          [LeafNode 0, OperatorNode.mk (Operator.Join ⟨LogicalJoinType.INNER, [samplePredBC]⟩)
            [LeafNode 1, LeafNode 2]]] ∧
      (sampleRow "a" "x" 1 ++ sampleRow "b" "y" 1 ++ sampleRow "c" "z" 2) ∈
        specRows sampleLeafRows sampleHolds sampleIllScopedJoin ∧
      (sampleRow "a" "x" 1 ++ sampleRow "b" "y" 1 ++ sampleRow "c" "z" 2) ∉
        specRows sampleLeafRows sampleHolds
          (OperatorNode.mk (Operator.Join ⟨LogicalJoinType.INNER, []⟩)
            [LeafNode 0,
             OperatorNode.mk (Operator.Join ⟨LogicalJoinType.INNER, [samplePredBC]⟩)
              [LeafNode 1, LeafNode 2]])) ∧
    (specReadsOnly sampleHolds samplePredAB ∧
      LogicalInnerJoinAssociativity.Transform
          (OperatorNode.mk (Operator.Join ⟨LogicalJoinType.INNER, []⟩)
            [OperatorNode.mk (Operator.Join ⟨LogicalJoinType.INNER, [samplePredAB]⟩)
              [LeafNode 0, LeafNode 1], LeafNode 2]) [] sampleOverlapMemo =
        some [OperatorNode.mk (Operator.Join ⟨LogicalJoinType.INNER, [samplePredAB]⟩)
          [LeafNode 0, OperatorNode.mk (Operator.Join ⟨LogicalJoinType.INNER, []⟩)
            [LeafNode 1, LeafNode 2]]] ∧
      (sampleRow "a" "x" 1 ++ sampleRow "b" "y" 1 ++ sampleRow "b" "y" 2) ∈
        specRows sampleOverlapRows sampleHolds
          (OperatorNode.mk (Operator.Join ⟨LogicalJoinType.INNER, []⟩)
            [OperatorNode.mk (Operator.Join ⟨LogicalJoinType.INNER, [samplePredAB]⟩)
              [LeafNode 0, LeafNode 1], LeafNode 2]) ∧
      (sampleRow "a" "x" 1 ++ sampleRow "b" "y" 1 ++ sampleRow "b" "y" 2) ∉
        specRows sampleOverlapRows sampleHolds
          (OperatorNode.mk (Operator.Join ⟨LogicalJoinType.INNER, [samplePredAB]⟩)
            [LeafNode 0, OperatorNode.mk (Operator.Join ⟨LogicalJoinType.INNER, []⟩)
              [LeafNode 1, LeafNode 2]])) := by
  exact ⟨⟨sampleHolds_reads_only _ (by decide), by rfl, by decide, by decide⟩,
    ⟨sampleHolds_reads_only _ (by decide), by rfl, by decide, by decide⟩⟩

/-- C33, amended: join associativity preserves query results on well-scoped
joins.  Under the reference semantics (an inner join returns the combined rows
of its two inputs that satisfy all of its predicates, and each predicate reads
only columns of the aliases in its alias set), for every three-way inner join
Join(Join(A, B), C) over three leaf groups of the memo such that every
predicate of the inner join (A, B) has its alias set within the aliases of A
and B, the rows of A hold no column of an alias covered by B or C, and the
rows of C hold no column of an alias covered by A or B, the rule emits exactly
one plan, and that plan returns the same set of rows as the input plan. -/
theorem Associativity_preserves_rows
    (memo : Memo) (gl gm gr : group_id_t) (Gl Gm Gr : Group)
    (hl : memo.GetGroupByID gl = some Gl) (hm : memo.GetGroupByID gm = some Gm)
    (hr : memo.GetGroupByID gr = some Gr)
    (parent_predicates child_predicates : List AnnotatedExpression)
    (leaf_rows : group_id_t → List Row) (holds : AbstractExpression → Row → Bool)
    (hreads : ∀ p ∈ parent_predicates ++ child_predicates, specReadsOnly holds p)
    (hscope : ∀ p ∈ child_predicates, p.table_alias_set ⊆ Gl.table_aliases ∪ Gm.table_aliases)
    (hleft : specRowsAvoid (Gm.table_aliases ∪ Gr.table_aliases) (leaf_rows gl))
    (hright : specRowsAvoid (Gl.table_aliases ∪ Gm.table_aliases) (leaf_rows gr)) :
    ∃ output : OperatorNode,
      LogicalInnerJoinAssociativity.Transform
          (OperatorNode.mk (Operator.Join ⟨LogicalJoinType.INNER, parent_predicates⟩)
            [OperatorNode.mk (Operator.Join ⟨LogicalJoinType.INNER, child_predicates⟩)
              [LeafNode gl, LeafNode gm], LeafNode gr]) [] memo = some [output] ∧
      ∀ row : Row,
        row ∈ specRows leaf_rows holds output ↔
          row ∈ specRows leaf_rows holds
            (OperatorNode.mk (Operator.Join ⟨LogicalJoinType.INNER, parent_predicates⟩)
              [OperatorNode.mk (Operator.Join ⟨LogicalJoinType.INNER, child_predicates⟩)
                [LeafNode gl, LeafNode gm], LeafNode gr]) := by
  have _ := hl
  refine ⟨_, by rw [Associativity_Transform_eq memo gm gr Gm Gr hm hr]; rfl, ?_⟩
  intro row
  simp only [specRows_inner_join, specRows_LeafNode, mem_specInnerJoinRows]
  have key := fun a b c ha hc => redistribute_holds holds Gl.table_aliases Gm.table_aliases
    Gr.table_aliases parent_predicates child_predicates hreads hscope a b c ha hc
  constructor
  · rintro ⟨a, ha, bc, ⟨b, hb, c, hc, rfl, hin⟩, rfl, hout⟩
    have h := (key a b c (hleft a ha) (hright c hc)).mpr ⟨hin, hout⟩
    exact ⟨a ++ b, ⟨a, ha, b, hb, rfl, h.1⟩, c, hc, (List.append_assoc a b c).symm,
      by rw [← List.append_assoc]; exact h.2⟩
  · rintro ⟨ab, ⟨a, ha, b, hb, rfl, hch⟩, c, hc, rfl, hpa⟩
    have h := (key a b c (hleft a ha) (hright c hc)).mp ⟨hch, hpa⟩
    exact ⟨a, ha, b ++ c, ⟨b, hb, c, hc, rfl, h.1⟩, List.append_assoc a b c,
      by rw [List.append_assoc]; exact h.2⟩

/-- Witness of C33: on Join[b.y = c.z](Join[a.x = b.y](a, b), c) over the
sample rows, the rule emits Join[a.x = b.y](a, Join[b.y = c.z](b, c)); both
plans return the single row (a.x = 2, b.y = 2, c.z = 2). -/
theorem Associativity_preserves_rows_witness :
    (∃ output : OperatorNode,
      LogicalInnerJoinAssociativity.Transform
          (OperatorNode.mk (Operator.Join ⟨LogicalJoinType.INNER, [samplePredBC]⟩)
            [OperatorNode.mk (Operator.Join ⟨LogicalJoinType.INNER, [samplePredAB]⟩)
              [LeafNode 0, LeafNode 1], LeafNode 2]) [] sampleMemo = some [output] ∧
      ∀ row : Row,
        row ∈ specRows sampleLeafRows sampleHolds output ↔
          row ∈ specRows sampleLeafRows sampleHolds
            (OperatorNode.mk (Operator.Join ⟨LogicalJoinType.INNER, [samplePredBC]⟩)
              [OperatorNode.mk (Operator.Join ⟨LogicalJoinType.INNER, [samplePredAB]⟩)
                [LeafNode 0, LeafNode 1], LeafNode 2])) ∧
    specRows sampleLeafRows sampleHolds
        (OperatorNode.mk (Operator.Join ⟨LogicalJoinType.INNER, [samplePredBC]⟩)
          [OperatorNode.mk (Operator.Join ⟨LogicalJoinType.INNER, [samplePredAB]⟩)
            [LeafNode 0, LeafNode 1], LeafNode 2]) =
      [sampleRow "a" "x" 2 ++ sampleRow "b" "y" 2 ++ sampleRow "c" "z" 2] ∧
    specRows sampleLeafRows sampleHolds
        (OperatorNode.mk (Operator.Join ⟨LogicalJoinType.INNER, [samplePredAB]⟩)
          [LeafNode 0, OperatorNode.mk (Operator.Join ⟨LogicalJoinType.INNER, [samplePredBC]⟩)
            [LeafNode 1, LeafNode 2]]) =
      [sampleRow "a" "x" 2 ++ sampleRow "b" "y" 2 ++ sampleRow "c" "z" 2] := by
  refine ⟨Associativity_preserves_rows sampleMemo 0 1 2 ⟨{"a"}⟩ ⟨{"b"}⟩ ⟨{"c"}⟩ rfl rfl rfl
    [samplePredBC] [samplePredAB] sampleLeafRows sampleHolds ?_ (by decide)
    (by unfold specRowsAvoid; decide) (by unfold specRowsAvoid; decide), by decide, by decide⟩
  intro p hp
  simp only [List.cons_append, List.nil_append, List.mem_cons, List.mem_singleton,
    List.not_mem_nil, or_false] at hp
  rcases hp with rfl | rfl
  · exact sampleHolds_reads_only _ (by decide)
  · exact sampleHolds_reads_only _ (by decide)

/-! ## Guards of the rules -/

/-- C34, the code at the failing inputs: a LEFT join over two pattern leaves
matches the pattern Join(LEAF, LEAF) of the commutativity rule and of the
implicit filter push, and `Check` of both returns true, yet the assertion on
the join type in `Transform` fails and the call aborts.  The same holds for
the explicit filter push on a Filter over the LEFT join, and for the
associativity rule on an INNER join whose left child is the LEFT join.  An
INNER join over a leaf and a Filter matches the pattern Join(LEAF,
Filter(LEAF)) of the pull above a mark join, whose `Transform` aborts on it as
well. -/
theorem join_type_assertions_unguarded :
    (sampleLeftJoin.GetOp.AsLogicalJoin.map (fun join => join.join_type)) =
      some LogicalJoinType.LEFT ∧
    (LogicalInnerJoinCommutativity.match_pattern.Matches sampleLeftJoin = true ∧
      LogicalInnerJoinCommutativity.Check sampleLeftJoin = true ∧
      LogicalInnerJoinCommutativity.Transform sampleLeftJoin [] = none) ∧
    (RewritePushImplicitFilterThroughJoin.match_pattern.Matches sampleLeftJoin = true ∧
      RewritePushImplicitFilterThroughJoin.Check sampleLeftJoin = true ∧
      RewritePushImplicitFilterThroughJoin.Transform sampleLeftJoin [] sampleMemo = none) ∧
    (RewritePushExplicitFilterThroughJoin.match_pattern.Matches
        (OperatorNode.mk (Operator.Filter ⟨[samplePredA]⟩) [sampleLeftJoin]) = true ∧
      RewritePushExplicitFilterThroughJoin.Check
        (OperatorNode.mk (Operator.Filter ⟨[samplePredA]⟩) [sampleLeftJoin]) = true ∧
      RewritePushExplicitFilterThroughJoin.Transform
        (OperatorNode.mk (Operator.Filter ⟨[samplePredA]⟩) [sampleLeftJoin]) [] sampleMemo =
          none) ∧
    (LogicalInnerJoinAssociativity.match_pattern.Matches
        (OperatorNode.mk (Operator.Join ⟨LogicalJoinType.INNER, [samplePredBC]⟩)
          [sampleLeftJoin, LeafNode 2]) = true ∧
      LogicalInnerJoinAssociativity.Check
        (OperatorNode.mk (Operator.Join ⟨LogicalJoinType.INNER, [samplePredBC]⟩)
          [sampleLeftJoin, LeafNode 2]) = true ∧
      LogicalInnerJoinAssociativity.Transform
        (OperatorNode.mk (Operator.Join ⟨LogicalJoinType.INNER, [samplePredBC]⟩)
          [sampleLeftJoin, LeafNode 2]) [] sampleMemo = none) ∧
    (RewritePullFilterThroughMarkJoin.match_pattern.Matches
        (OperatorNode.mk (Operator.Join ⟨LogicalJoinType.INNER, []⟩)
          [LeafNode 0, OperatorNode.mk (Operator.Filter ⟨[samplePredB]⟩) [LeafNode 1]]) =
          true ∧
      RewritePullFilterThroughMarkJoin.Transform
        (OperatorNode.mk (Operator.Join ⟨LogicalJoinType.INNER, []⟩)
          [LeafNode 0, OperatorNode.mk (Operator.Filter ⟨[samplePredB]⟩) [LeafNode 1]]) [] =
          none) := by
  exact ⟨by rfl, ⟨by decide, by rfl, by rfl⟩, ⟨by decide, by rfl, by rfl⟩,
    ⟨by decide, by rfl, by rfl⟩, ⟨by decide, by rfl, by rfl⟩, ⟨by decide, by rfl⟩⟩

/-- C35, the code on the bindings of its pattern: every plan Join(LEAF,
Filter(LEAF)) whose two pattern leaves are bound to groups matches the pattern
of RewritePullFilterThroughMarkJoin, and `Check` aborts on it: the child it
inspects as the Filter is child 0, the left leaf, which has no child, so the
assertion that it has exactly one child fails. -/
theorem PullMarkJoin_Check_aborts_on_bindings (join : LogicalJoin) (filter : LogicalFilter)
    (left_group right_group : group_id_t) :
    RewritePullFilterThroughMarkJoin.match_pattern.Matches
        (OperatorNode.mk (Operator.Join join)
          [LeafNode left_group,
           OperatorNode.mk (Operator.Filter filter) [LeafNode right_group]]) = true ∧
    RewritePullFilterThroughMarkJoin.Check
        (OperatorNode.mk (Operator.Join join)
          [LeafNode left_group,
           OperatorNode.mk (Operator.Filter filter) [LeafNode right_group]]) = none := by
  constructor
  · simp [RewritePullFilterThroughMarkJoin.match_pattern, Pattern.AddChild, Pattern.Matches,
      Pattern.MatchesChildren, OperatorNode.GetOp, OperatorNode.GetChildren, Operator.GetType]
  · simp [RewritePullFilterThroughMarkJoin.Check, OperatorNode.GetChildren, TERRIER_ASSERT,
      LeafNode]

/-- C36, the code on the bindings of its pattern: every plan
AggregateAndGroupBy(Filter(LEAF)) matches the pattern of
RewritePullFilterThroughAggregation, and `Check` aborts on it, as it does on
every plan: once the child list is asserted to have exactly one element, the
read of child 1 is past its end. -/
theorem PullAggregation_Check_reads_past_the_end (aggregation : LogicalAggregateAndGroupBy)
    (filter : LogicalFilter) (child_group : group_id_t) (plan : OperatorNode) :
    RewritePullFilterThroughAggregation.match_pattern.Matches
        (OperatorNode.mk (Operator.AggregateAndGroupBy aggregation)
          [OperatorNode.mk (Operator.Filter filter) [LeafNode child_group]]) = true ∧
    RewritePullFilterThroughAggregation.Check
        (OperatorNode.mk (Operator.AggregateAndGroupBy aggregation)
          [OperatorNode.mk (Operator.Filter filter) [LeafNode child_group]]) = none ∧
    RewritePullFilterThroughAggregation.Check plan = none := by
  have hcheck : ∀ node : OperatorNode,
      RewritePullFilterThroughAggregation.Check node = none := by
    intro node
    unfold RewritePullFilterThroughAggregation.Check TERRIER_ASSERT
    by_cases h : node.GetChildren.length = 1
    · have h1 : node.GetChildren[1]? = none := by
        rw [List.getElem?_eq_none_iff]; omega
      simp [h, h1]
    · simp [h]
  refine ⟨?_, hcheck _, hcheck plan⟩
  simp [RewritePullFilterThroughAggregation.match_pattern, Pattern.AddChild, Pattern.Matches,
    Pattern.MatchesChildren, OperatorNode.GetOp, OperatorNode.GetChildren, Operator.GetType]

/-- C37, counterexample: for an inner hash join whose probe group covers the
alias b only, and the requirement holding the two sort properties
`ORDER BY a.x DESC` and `ORDER BY b.y ASC`, the second property passes the
probe test and the first does not, and `GetProperties` returns the base entry
followed by an entry whose provided set is the whole requirement: the provided
set of that entry holds the Sort property by `a.x`, a column of the build
side. -/
theorem GetProperties_join_claims_build_side_ordering :
    (ChildPropertyDeriver.GetProperties sampleCollaborators sampleFreshDeriver
        ⟨PhysicalOperator.InnerHashJoin, [0, 1]⟩ sampleSortTwo sampleMemo sampleAccessor).map
          Prod.fst =
      some [(PropertySet.mk [], [PropertySet.mk [], PropertySet.mk []]),
        (sampleSortTwo, [PropertySet.mk [], sampleSortTwo])] ∧
    sampleMemo.GetGroupByID 1 = some ⟨{"b"}⟩ ∧
    sampleSortTwo.properties.map (specPropertyFromProbe sampleCollaborators ⟨{"b"}⟩) =
      [false, true] ∧
    ((ChildPropertyDeriver.GetProperties sampleCollaborators sampleFreshDeriver
        ⟨PhysicalOperator.InnerHashJoin, [0, 1]⟩ sampleSortTwo sampleMemo sampleAccessor).map
          (fun result => specOnlyProbeOrderings sampleCollaborators ⟨{"b"}⟩ result.1)) =
      some false := by
  exact ⟨by rfl, by rfl, by decide, by decide⟩

/-- C37, amended: a join claims what it requires of its probe side.  For an
InnerNLJoin or an InnerHashJoin whose probe (second) child group is in the
memo, in every entry `GetProperties` returns the provided set is the property
set required of the right (probe) child and the left child is required
nothing; every Sort property of every provided set has all of its column
references drawn from the probe group's covered aliases exactly when the Sort
properties of the requirement all pass that test or all fail it, as they do
for every requirement that holds at most one Sort property. -/
theorem GetProperties_join_claims_probe_requirement (collaborators : DeriverCollaborators)
    (deriver : ChildPropertyDeriver) (op : PhysicalOperator) (child_groups : List group_id_t)
    (requirements : PropertySet) (memo : Memo) (accessor : CatalogAccessor)
    (probe_group_id : group_id_t) (probe_group : Group)
    (hop : op = PhysicalOperator.InnerNLJoin ∨ op = PhysicalOperator.InnerHashJoin)
    (hchild : child_groups[1]? = some probe_group_id)
    (hgroup : memo.GetGroupByID probe_group_id = some probe_group) :
    ∃ out : List PropertyEntry,
      (ChildPropertyDeriver.GetProperties collaborators deriver ⟨op, child_groups⟩
        requirements memo accessor).map Prod.fst = some out ∧
      (∀ entry ∈ out, entry.2 = [PropertySet.mk [], entry.1]) ∧
      (specOnlyProbeOrderings collaborators probe_group out = true ↔
        (requirements.properties.all (specPropertyFromProbe collaborators probe_group) = true ∨
          requirements.properties.all
            (fun property => !specPropertyFromProbe collaborators probe_group property) =
              true)) ∧
      (requirements.properties.length ≤ 1 →
        specOnlyProbeOrderings collaborators probe_group out = true) := by
  have hloop := DeriveForJoinLoop_eq collaborators requirements memo ⟨op, child_groups⟩
    probe_group_id probe_group hchild hgroup requirements.properties
    [(PropertySet.mk [], [PropertySet.mk [], PropertySet.mk []])]
  have hiff : specOnlyProbeOrderings collaborators probe_group
      ((PropertySet.mk [], [PropertySet.mk [], PropertySet.mk []]) ::
        (requirements.properties.filter (specPropertyFromProbe collaborators probe_group)).map
          (fun _ => (requirements, [PropertySet.mk [], requirements]))) = true ↔
      (requirements.properties.all (specPropertyFromProbe collaborators probe_group) = true ∨
        requirements.properties.all
          (fun property => !specPropertyFromProbe collaborators probe_group property) =
            true) := by
    unfold specOnlyProbeOrderings
    rcases hfilter : requirements.properties.filter
        (specPropertyFromProbe collaborators probe_group) with _ | ⟨first, rest⟩
    · have hnone := List.filter_eq_nil_iff.mp hfilter
      constructor
      · intro _
        right
        rw [List.all_eq_true]
        intro property hmem
        have := hnone property hmem
        simpa using this
      · intro _
        rfl
    · have hfirst : first ∈ requirements.properties.filter
          (specPropertyFromProbe collaborators probe_group) := by
        rw [hfilter]
        exact List.mem_cons_self _ _
      obtain ⟨hmem, hpass⟩ := List.mem_filter.mp hfirst
      constructor
      · intro h
        left
        rw [List.all_eq_true] at h
        exact h (requirements, [PropertySet.mk [], requirements])
          (List.mem_cons_of_mem _ (List.mem_map.mpr ⟨first, List.mem_cons_self _ _, rfl⟩))
      · intro h
        rcases h with h | h
        · rw [List.all_eq_true]
          intro entry hentry
          rcases List.mem_cons.mp hentry with he | he
          · rw [he]
            rfl
          · obtain ⟨_, _, hq⟩ := List.mem_map.mp he
            rw [← hq]
            exact h
        · rw [List.all_eq_true] at h
          have := h first hmem
          rw [hpass] at this
          exact absurd this (by decide)
  refine ⟨_, ?_, ?_, hiff, ?_⟩
  · rcases hop with hop | hop <;>
    · subst hop
      simp [ChildPropertyDeriver.GetProperties, ChildPropertyDeriver.Visit,
        ChildPropertyDeriver.DeriveForJoin, PropertySet.Properties, hloop]
  · intro entry hentry
    rcases List.mem_cons.mp hentry with h | h
    · rw [h]
    · obtain ⟨_, _, hq⟩ := List.mem_map.mp h
      rw [← hq]
  · intro hlen
    rw [hiff]
    rcases hprops : requirements.properties with _ | ⟨property, rest⟩
    · left
      rfl
    · have hrest : rest = [] := by
        rw [hprops] at hlen
        cases rest
        · rfl
        · simp at hlen
      subst hrest
      cases hp : specPropertyFromProbe collaborators probe_group property
      · right
        simp [hp]
      · left
        simp [hp]

/-- Witness of C37: for an InnerHashJoin of the groups a and b and the
requirement `ORDER BY b.y ASC`, whose single Sort property is over the probe
group, the entries are the base entry and the entry whose provided set is the
requirement, required of the right child, and every provided Sort property is
drawn from the probe group. -/
theorem GetProperties_join_claims_probe_requirement_witness :
    (∃ out : List PropertyEntry,
      (ChildPropertyDeriver.GetProperties sampleCollaborators sampleFreshDeriver
        ⟨PhysicalOperator.InnerHashJoin, [0, 1]⟩ sampleSortB sampleMemo
        sampleAccessor).map Prod.fst = some out ∧
      (∀ entry ∈ out, entry.2 = [PropertySet.mk [], entry.1]) ∧
      (specOnlyProbeOrderings sampleCollaborators ⟨{"b"}⟩ out = true ↔
        (sampleSortB.properties.all (specPropertyFromProbe sampleCollaborators ⟨{"b"}⟩) = true ∨
          sampleSortB.properties.all
            (fun property => !specPropertyFromProbe sampleCollaborators ⟨{"b"}⟩ property) =
              true)) ∧
      (sampleSortB.properties.length ≤ 1 →
        specOnlyProbeOrderings sampleCollaborators ⟨{"b"}⟩ out = true)) ∧
    (ChildPropertyDeriver.GetProperties sampleCollaborators sampleFreshDeriver
        ⟨PhysicalOperator.InnerHashJoin, [0, 1]⟩ sampleSortB sampleMemo
        sampleAccessor).map Prod.fst =
      some [(PropertySet.mk [], [PropertySet.mk [], PropertySet.mk []]),
        (sampleSortB, [PropertySet.mk [], sampleSortB])] ∧
    sampleSortB.properties.length ≤ 1 ∧
    specOnlyProbeOrderings sampleCollaborators ⟨{"b"}⟩
      [(PropertySet.mk [], [PropertySet.mk [], PropertySet.mk []]),
        (sampleSortB, [PropertySet.mk [], sampleSortB])] = true :=
  ⟨GetProperties_join_claims_probe_requirement sampleCollaborators sampleFreshDeriver
      PhysicalOperator.InnerHashJoin [0, 1] sampleSortB sampleMemo sampleAccessor 1
      ⟨{"b"}⟩ (Or.inr rfl) rfl rfl,
   by rfl, by decide, by decide⟩

/-! ## Conservation of the leaf groups -/

/-- The leaf groups of a pattern leaf. -/
theorem leafGroups_LeafNode (g : group_id_t) : (LeafNode g).leafGroups = [g] := rfl

/-- The leaf groups of a plan with one child. -/
theorem leafGroups_one (op : Operator) (child : OperatorNode) :
    (OperatorNode.mk op [child]).leafGroups = op.leafGroups ++ child.leafGroups := by
  simp [OperatorNode.leafGroups, OperatorNode.leafGroupsOfChildren]

/-- The leaf groups of a plan with two children. -/
theorem leafGroups_two (op : Operator) (first second : OperatorNode) :
    (OperatorNode.mk op [first, second]).leafGroups =
      op.leafGroups ++ (first.leafGroups ++ second.leafGroups) := by
  simp [OperatorNode.leafGroups, OperatorNode.leafGroupsOfChildren]

/-- A Filter placed over a plan adds no leaf. -/
theorem leafGroups_specMaybeFilter (predicates : List AnnotatedExpression)
    (child : OperatorNode) :
    (specMaybeFilter predicates child).leafGroups = child.leafGroups := by
  cases predicates with
  | nil => rfl
  | cons p ps => simp [specMaybeFilter, leafGroups_one, Operator.leafGroups]

/-- The leaf groups of the join the filter-push rules emit. -/
theorem leafGroups_specPushedJoin (ls rs : Finset String) (gl gr : group_id_t)
    (predicates : List AnnotatedExpression) :
    (specPushedJoin ls rs gl gr predicates).leafGroups = [gl, gr] := by
  simp [specPushedJoin, leafGroups_two, leafGroups_specMaybeFilter, leafGroups_LeafNode,
    Operator.leafGroups]

/-- Leaf groups of the plans RewritePushImplicitFilterThroughJoin emits. -/
theorem PushImplicit_leafGroups (memo : Memo) (join : LogicalJoin) (gl gr : group_id_t)
    (transformed : List OperatorNode) :
    specEmitsOver [gl, gr] transformed
      (RewritePushImplicitFilterThroughJoin.Transform
        (OperatorNode.mk (Operator.Join join) [LeafNode gl, LeafNode gr]) transformed memo) := by
  intro result h
  obtain ⟨type, predicates⟩ := join
  cases hl : memo.GetGroupByID gl with
  | none =>
    simp [RewritePushImplicitFilterThroughJoin.Transform, OperatorNode.GetChildren,
      OperatorNode.GetOp, LeafNode, Operator.AsLeafOperator, hl] at h
  | some Gl =>
    cases hr : memo.GetGroupByID gr with
    | none =>
      simp [RewritePushImplicitFilterThroughJoin.Transform, OperatorNode.GetChildren,
        OperatorNode.GetOp, LeafNode, Operator.AsLeafOperator, hl, hr] at h
    | some Gr =>
      by_cases ht : type = LogicalJoinType.INNER
      · subst ht
        rw [PushImplicit_Transform_eq memo gl gr Gl Gr hl hr] at h
        simp only [Option.some.injEq] at h
        subst h
        split
        · exact ⟨[], by simp, by simp⟩
        · exact ⟨[_], rfl, by simp [leafGroups_specPushedJoin]⟩
      · simp [RewritePushImplicitFilterThroughJoin.Transform, OperatorNode.GetChildren,
          OperatorNode.GetOp, LeafNode, Operator.AsLeafOperator, Operator.AsLogicalJoin, hl, hr,
          TERRIER_ASSERT, ht] at h

/-- Leaf groups of the plans RewritePushExplicitFilterThroughJoin emits. -/
theorem PushExplicit_leafGroups (memo : Memo) (filter : LogicalFilter) (join : LogicalJoin)
    (gl gr : group_id_t) (transformed : List OperatorNode) :
    specEmitsOver [gl, gr] transformed
      (RewritePushExplicitFilterThroughJoin.Transform
        (OperatorNode.mk (Operator.Filter filter)
          [OperatorNode.mk (Operator.Join join) [LeafNode gl, LeafNode gr]])
        transformed memo) := by
  intro result h
  obtain ⟨type, predicates⟩ := join
  obtain ⟨filter_predicates⟩ := filter
  cases hl : memo.GetGroupByID gl with
  | none =>
    simp [RewritePushExplicitFilterThroughJoin.Transform, OperatorNode.GetChildren,
      OperatorNode.GetOp, LeafNode, Operator.AsLeafOperator, hl] at h
  | some Gl =>
    cases hr : memo.GetGroupByID gr with
    | none =>
      simp [RewritePushExplicitFilterThroughJoin.Transform, OperatorNode.GetChildren,
        OperatorNode.GetOp, LeafNode, Operator.AsLeafOperator, hl, hr] at h
    | some Gr =>
      by_cases ht : type = LogicalJoinType.INNER
      · subst ht
        rw [PushExplicit_Transform_eq memo gl gr Gl Gr hl hr] at h
        simp only [Option.some.injEq] at h
        subst h
        exact ⟨[_], rfl, by simp [leafGroups_specPushedJoin]⟩
      · simp [RewritePushExplicitFilterThroughJoin.Transform, OperatorNode.GetChildren,
          OperatorNode.GetOp, LeafNode, Operator.AsLeafOperator, Operator.AsLogicalJoin, hl, hr,
          TERRIER_ASSERT, ht] at h

/-- Leaf groups of the plans RewritePushFilterThroughAggregation emits. -/
theorem PushAggregation_leafGroups (filter : LogicalFilter)
    (aggregation : LogicalAggregateAndGroupBy) (g : group_id_t)
    (transformed : List OperatorNode) :
    specEmitsOver [g] transformed
      (RewritePushFilterThroughAggregation.Transform
        (OperatorNode.mk (Operator.Filter filter)
          [OperatorNode.mk (Operator.AggregateAndGroupBy aggregation) [LeafNode g]])
        transformed) := by
  intro result h
  obtain ⟨filter_predicates⟩ := filter
  obtain ⟨columns, having⟩ := aggregation
  rw [PushAggregation_Transform_eq] at h
  simp only [Option.some.injEq] at h
  subst h
  exact ⟨[_], rfl, by simp [leafGroups_one, leafGroups_specMaybeFilter, leafGroups_LeafNode,
    Operator.leafGroups]⟩

/-- Leaf groups of the plans RewriteCombineConsecutiveFilter emits. -/
theorem CombineConsecutiveFilter_leafGroups (outer inner : LogicalFilter) (g : group_id_t)
    (transformed : List OperatorNode) :
    specEmitsOver [g] transformed
      (RewriteCombineConsecutiveFilter.Transform
        (OperatorNode.mk (Operator.Filter outer)
          [OperatorNode.mk (Operator.Filter inner) [LeafNode g]])
        transformed) := by
  intro result h
  simp [RewriteCombineConsecutiveFilter.Transform, OperatorNode.GetChildren, OperatorNode.GetOp,
    Operator.AsLogicalFilter, OperatorNode.Copy_eq, LogicalFilter.Make] at h
  subst h
  exact ⟨[_], rfl, by simp [leafGroups_one, leafGroups_LeafNode, Operator.leafGroups]⟩

/-- Leaf groups of the plans RewritePullFilterThroughMarkJoin emits. -/
theorem PullMarkJoin_leafGroups (join : LogicalJoin) (filter : LogicalFilter)
    (gl gr : group_id_t) (transformed : List OperatorNode) :
    specEmitsOver [gl, gr] transformed
      (RewritePullFilterThroughMarkJoin.Transform
        (OperatorNode.mk (Operator.Join join)
          [LeafNode gl, OperatorNode.mk (Operator.Filter filter) [LeafNode gr]])
        transformed) := by
  intro result h
  obtain ⟨type, predicates⟩ := join
  by_cases ht : type = LogicalJoinType.MARK
  · cases predicates with
    | nil =>
      simp [RewritePullFilterThroughMarkJoin.Transform, OperatorNode.GetChildren,
        OperatorNode.GetOp, Operator.AsLogicalJoin, OperatorNode.Copy_eq, TERRIER_ASSERT, ht] at h
      subst h
      exact ⟨[_], rfl, by simp [leafGroups_one, leafGroups_two, leafGroups_LeafNode,
        Operator.leafGroups]⟩
    | cons p ps =>
      simp [RewritePullFilterThroughMarkJoin.Transform, OperatorNode.GetChildren,
        OperatorNode.GetOp, Operator.AsLogicalJoin, TERRIER_ASSERT, ht] at h
  · simp [RewritePullFilterThroughMarkJoin.Transform, OperatorNode.GetChildren,
      OperatorNode.GetOp, Operator.AsLogicalJoin, TERRIER_ASSERT, ht] at h

/-- Leaf groups of the plans RewritePullFilterThroughAggregation emits. -/
theorem PullAggregation_leafGroups (memo : Memo) (aggregation : LogicalAggregateAndGroupBy)
    (filter : LogicalFilter) (g : group_id_t) (transformed : List OperatorNode) :
    specEmitsOver [g] transformed
      (RewritePullFilterThroughAggregation.Transform
        (OperatorNode.mk (Operator.AggregateAndGroupBy aggregation)
          [OperatorNode.mk (Operator.Filter filter) [LeafNode g]])
        transformed memo) := by
  intro result h
  cases hg : memo.GetGroupByID g with
  | none =>
    simp [RewritePullFilterThroughAggregation.Transform, OperatorNode.GetChildren,
      OperatorNode.GetOp, LeafNode, Operator.AsLeafOperator, hg] at h
  | some G =>
    cases hloop : RewritePullFilterThroughAggregation.PullLoop G.GetTableAliases
        filter.predicates ⟨[], [], []⟩ with
    | none =>
      simp [RewritePullFilterThroughAggregation.Transform, OperatorNode.GetChildren,
        OperatorNode.GetOp, LeafNode, Operator.AsLeafOperator, Operator.AsLogicalFilter, hg,
        hloop] at h
    | some lists =>
      by_cases hc : lists.correlated_predicates.isEmpty
      · simp [RewritePullFilterThroughAggregation.Transform, OperatorNode.GetChildren,
          OperatorNode.GetOp, LeafNode, Operator.AsLeafOperator, Operator.AsLogicalFilter, hg,
          hloop, hc] at h
        exact ⟨[], by simp [h], by simp⟩
      · by_cases hn : lists.normal_predicates.isEmpty
        · simp [RewritePullFilterThroughAggregation.Transform, OperatorNode.GetChildren,
            OperatorNode.GetOp, LeafNode, Operator.AsLeafOperator, Operator.AsLogicalFilter, hg,
            hloop, hc, hn, Operator.AsLogicalAggregateAndGroupBy, OperatorNode.Copy_eq,
            LogicalFilter.Make, LogicalAggregateAndGroupBy.Make] at h
          subst h
          exact ⟨[_], rfl, by simp [leafGroups_one, OperatorNode.leafGroups,
            OperatorNode.leafGroupsOfChildren, Operator.leafGroups]⟩
        · simp [RewritePullFilterThroughAggregation.Transform, OperatorNode.GetChildren,
            OperatorNode.GetOp, LeafNode, Operator.AsLeafOperator, Operator.AsLogicalFilter, hg,
            hloop, hc, hn, Operator.AsLogicalAggregateAndGroupBy, OperatorNode.Copy_eq,
            LogicalFilter.Make, LogicalAggregateAndGroupBy.Make] at h
          subst h
          exact ⟨[_], rfl, by simp [leafGroups_one, OperatorNode.leafGroups,
            OperatorNode.leafGroupsOfChildren, Operator.leafGroups]⟩

/-- Leaf groups of the plans LogicalInnerJoinCommutativity emits. -/
theorem Commutativity_leafGroups (join : LogicalJoin) (gl gr : group_id_t)
    (transformed : List OperatorNode) :
    specEmitsOver [gr, gl] transformed
      (LogicalInnerJoinCommutativity.Transform
        (OperatorNode.mk (Operator.Join join) [LeafNode gl, LeafNode gr]) transformed) := by
  intro result h
  obtain ⟨type, predicates⟩ := join
  by_cases ht : type = LogicalJoinType.INNER
  · subst ht
    rw [Commutativity_Transform_eq] at h
    simp only [Option.some.injEq] at h
    subst h
    exact ⟨[_], rfl, by simp [leafGroups_two, leafGroups_LeafNode, Operator.leafGroups]⟩
  · simp [LogicalInnerJoinCommutativity.Transform, OperatorNode.GetOp, Operator.AsLogicalJoin,
      TERRIER_ASSERT, ht] at h

/-- Leaf groups of the plans LogicalInnerJoinAssociativity emits. -/
theorem Associativity_leafGroups (memo : Memo) (parent child : LogicalJoin)
    (gl gm gr : group_id_t) (transformed : List OperatorNode) :
    specEmitsOver [gl, gm, gr] transformed
      (LogicalInnerJoinAssociativity.Transform
        (OperatorNode.mk (Operator.Join parent)
          [OperatorNode.mk (Operator.Join child) [LeafNode gl, LeafNode gm], LeafNode gr])
        transformed memo) := by
  intro result h
  obtain ⟨parent_type, parent_predicates⟩ := parent
  obtain ⟨child_type, child_predicates⟩ := child
  by_cases hp : parent_type = LogicalJoinType.INNER
  · by_cases hc : child_type = LogicalJoinType.INNER
    · subst hp hc
      cases hm : memo.GetGroupByID gm with
      | none =>
        simp [LogicalInnerJoinAssociativity.Transform, OperatorNode.GetChildren,
          OperatorNode.GetOp, LeafNode, Operator.AsLeafOperator, Operator.AsLogicalJoin,
          TERRIER_ASSERT, hm] at h
      | some Gm =>
        cases hr : memo.GetGroupByID gr with
        | none =>
          simp [LogicalInnerJoinAssociativity.Transform, OperatorNode.GetChildren,
            OperatorNode.GetOp, LeafNode, Operator.AsLeafOperator, Operator.AsLogicalJoin,
            TERRIER_ASSERT, hm, hr] at h
        | some Gr =>
          rw [Associativity_Transform_eq memo gm gr Gm Gr hm hr] at h
          simp only [Option.some.injEq] at h
          subst h
          exact ⟨[_], rfl, by simp [leafGroups_two, leafGroups_LeafNode, Operator.leafGroups]⟩
    · simp [LogicalInnerJoinAssociativity.Transform, OperatorNode.GetChildren,
        OperatorNode.GetOp, Operator.AsLogicalJoin, TERRIER_ASSERT, hp, hc] at h
  · simp [LogicalInnerJoinAssociativity.Transform, OperatorNode.GetOp, Operator.AsLogicalJoin,
      TERRIER_ASSERT, hp] at h

/-- C38: no rule drops or duplicates a leaf group.  For each of the eight
rules, on every matched input plan (the shape of the rule's pattern with its
pattern leaves bound to groups), whenever `Transform` returns, every plan it
emitted has the same LEAF origin-group ids at its leaves as the input, in the
same left-to-right order; for the commutativity rule they are those of the
input in reversed order.  In both cases the multiset of the ids is that of the
input. -/
theorem rules_conserve_leaf_groups (memo : Memo) (outer inner : LogicalFilter)
    (parent join : LogicalJoin) (aggregation : LogicalAggregateAndGroupBy)
    (gl gm gr : group_id_t) (transformed : List OperatorNode) :
    specEmitsOver
      (OperatorNode.mk (Operator.Join join) [LeafNode gl, LeafNode gr]).leafGroups transformed
      (RewritePushImplicitFilterThroughJoin.Transform
        (OperatorNode.mk (Operator.Join join) [LeafNode gl, LeafNode gr]) transformed memo) ∧
    specEmitsOver
      (OperatorNode.mk (Operator.Filter outer)
        [OperatorNode.mk (Operator.Join join) [LeafNode gl, LeafNode gr]]).leafGroups
      transformed
      (RewritePushExplicitFilterThroughJoin.Transform
        (OperatorNode.mk (Operator.Filter outer)
          [OperatorNode.mk (Operator.Join join) [LeafNode gl, LeafNode gr]])
        transformed memo) ∧
    specEmitsOver
      (OperatorNode.mk (Operator.Filter outer)
        [OperatorNode.mk (Operator.AggregateAndGroupBy aggregation) [LeafNode gl]]).leafGroups
      transformed
      (RewritePushFilterThroughAggregation.Transform
        (OperatorNode.mk (Operator.Filter outer)
          [OperatorNode.mk (Operator.AggregateAndGroupBy aggregation) [LeafNode gl]])
        transformed) ∧
    specEmitsOver
      (OperatorNode.mk (Operator.Filter outer)
        [OperatorNode.mk (Operator.Filter inner) [LeafNode gl]]).leafGroups
      transformed
      (RewriteCombineConsecutiveFilter.Transform
        (OperatorNode.mk (Operator.Filter outer)
          [OperatorNode.mk (Operator.Filter inner) [LeafNode gl]])
        transformed) ∧
    specEmitsOver
      (OperatorNode.mk (Operator.Join join)
        [LeafNode gl, OperatorNode.mk (Operator.Filter inner) [LeafNode gr]]).leafGroups
      transformed
      (RewritePullFilterThroughMarkJoin.Transform
        (OperatorNode.mk (Operator.Join join)
          [LeafNode gl, OperatorNode.mk (Operator.Filter inner) [LeafNode gr]])
        transformed) ∧
    specEmitsOver
      (OperatorNode.mk (Operator.AggregateAndGroupBy aggregation)
        [OperatorNode.mk (Operator.Filter inner) [LeafNode gl]]).leafGroups
      transformed
      (RewritePullFilterThroughAggregation.Transform
        (OperatorNode.mk (Operator.AggregateAndGroupBy aggregation)
          [OperatorNode.mk (Operator.Filter inner) [LeafNode gl]])
        transformed memo) ∧
    specEmitsOver
      (OperatorNode.mk (Operator.Join join) [LeafNode gl, LeafNode gr]).leafGroups.reverse
      transformed
      (LogicalInnerJoinCommutativity.Transform
        (OperatorNode.mk (Operator.Join join) [LeafNode gl, LeafNode gr]) transformed) ∧
    specEmitsOver
      (OperatorNode.mk (Operator.Join parent)
        [OperatorNode.mk (Operator.Join join) [LeafNode gl, LeafNode gm],
         LeafNode gr]).leafGroups
      transformed
      (LogicalInnerJoinAssociativity.Transform
        (OperatorNode.mk (Operator.Join parent)
          [OperatorNode.mk (Operator.Join join) [LeafNode gl, LeafNode gm], LeafNode gr])
        transformed memo) :=
  ⟨PushImplicit_leafGroups memo join gl gr transformed,
    PushExplicit_leafGroups memo outer join gl gr transformed,
    PushAggregation_leafGroups outer aggregation gl transformed,
    CombineConsecutiveFilter_leafGroups outer inner gl transformed,
    PullMarkJoin_leafGroups join inner gl gr transformed,
    PullAggregation_leafGroups memo aggregation inner gl transformed,
    Commutativity_leafGroups join gl gr transformed,
    Associativity_leafGroups memo parent join gl gm gr transformed⟩

/-- Witness of C38: the commutativity rule on Join[a.x = b.y](LEAF 0, LEAF 1)
emits one plan, whose leaf groups are 1, 0; the associativity rule on
Join[b.y = c.z](Join[a.x = b.y](LEAF 0, LEAF 1), LEAF 2) emits one plan, whose
leaf groups are 0, 1, 2. -/
theorem rules_conserve_leaf_groups_witness :
    (∃ emitted : List OperatorNode,
      [OperatorNode.mk (Operator.Join ⟨LogicalJoinType.INNER, [samplePredAB]⟩)
        [LeafNode 1, LeafNode 0]] = [] ++ emitted ∧
      ∀ out ∈ emitted, out.leafGroups = [1, 0]) ∧
    (∃ emitted : List OperatorNode,
      [OperatorNode.mk (Operator.Join ⟨LogicalJoinType.INNER, [samplePredAB]⟩)
        [LeafNode 0, OperatorNode.mk (Operator.Join ⟨LogicalJoinType.INNER, [samplePredBC]⟩)
          [LeafNode 1, LeafNode 2]]] = [] ++ emitted ∧
      ∀ out ∈ emitted, out.leafGroups = [0, 1, 2]) :=
  ⟨(rules_conserve_leaf_groups sampleMemo ⟨[]⟩ ⟨[]⟩ ⟨LogicalJoinType.INNER, []⟩
      ⟨LogicalJoinType.INNER, [samplePredAB]⟩ ⟨[], []⟩ 0 1 1 []).2.2.2.2.2.2.1 _ (by rfl),
    (rules_conserve_leaf_groups sampleMemo ⟨[]⟩ ⟨[]⟩ ⟨LogicalJoinType.INNER, [samplePredBC]⟩
      ⟨LogicalJoinType.INNER, [samplePredAB]⟩ ⟨[], []⟩ 0 1 2 []).2.2.2.2.2.2.2 _ (by rfl)⟩

/-! ## Repeated calls -/

/-- C39, counterexample: on statistics whose cardinality is a NaN, the call
`UpdateJoinStats(50, 20, 3)` replaces the NaN by the estimate 7, and 7 is not
at most a NaN; and the call `UpdateJoinStats(2^64 - 1, 1, 1)`, whose sample
size is positive, has no state after it: the product 2^64 - 1 converts to the
double 2^64, and the conversion of the quotient 2^64 to `size_t` is
undefined. -/
theorem UpdateJoinStats_nan_and_undefined_conversion :
    (sampleNanColumnStats.UpdateJoinStats 50 20 3).map (fun stats => stats.cardinality_) =
      some (Double.finite 7) ∧
    sampleNanColumnStats.cardinality_ = Double.nan ∧
    (Double.finite 7).le Double.nan = false ∧
    0 < 1 ∧
    sampleColumnStats.UpdateJoinStats (2 ^ 64 - 1) 1 1 = none := by
  refine ⟨?_, rfl, rfl, by decide, ?_⟩
  · rw [UpdateJoinStats_eq sampleNanColumnStats 50 20 3 (by decide) (by decide)]
    norm_num [sampleNanColumnStats, sampleColumnStats, Double.lt]
  · have h := (UpdateJoinStats_isSome_iff sampleColumnStats (2 ^ 64 - 1) 1 1).not
    have hnot : ¬ (2 ≤ 1 ∨ (1 = 1 ∧ (1 * (2 ^ 64 - 1)) % 2 ^ 64 < 2 ^ 64 - 1024)) := by
      norm_num
    have hnone := h.mpr hnot
    simpa using hnone

/-- C39, amended: UpdateJoinStats is idempotent and never raises an estimate
that is a number.  For every state and every argument triple whose sample
size is at least 2, or is 1 with a `size_t` product
`sample_card * table_num_rows` below 2^64 - 1024 (the triples for which the
conversion of the quotient to `size_t` is defined), the call returns a state
whose cardinality is at most the cardinality before the call unless that was
a NaN, in which every field other than `num_rows` and `cardinality` is
unchanged, and on which a second call with the same arguments returns that
same state. -/
theorem UpdateJoinStats_idempotent_never_raises (stats : ColumnStats)
    (table_num_rows sample_size sample_card : Nat)
    (hdefined : 2 ≤ sample_size ∨
      (sample_size = 1 ∧ (sample_card * table_num_rows) % 2 ^ 64 < 2 ^ 64 - 1024)) :
    ∃ after : ColumnStats,
      stats.UpdateJoinStats table_num_rows sample_size sample_card = some after ∧
      (stats.cardinality_ ≠ Double.nan → after.cardinality_.le stats.cardinality_ = true) ∧
      after = { stats with num_rows_ := after.num_rows_, cardinality_ := after.cardinality_ } ∧
      after.UpdateJoinStats table_num_rows sample_size sample_card = some after := by
  have hsome := (quotient_toSizeT_isSome ((sample_card * table_num_rows) % 2 ^ 64) sample_size
    (Nat.mod_lt _ (by norm_num))).mpr hdefined
  obtain ⟨estimated_card, hquot⟩ := Option.isSome_iff_exists.mp hsome
  refine ⟨_, UpdateJoinStats_of_toSizeT stats table_num_rows sample_size sample_card
    estimated_card hquot, ?_, rfl, ?_⟩
  · intro hnan
    dsimp only
    cases hlt : stats.cardinality_.lt (Double.ofNat estimated_card)
    · simp only [Bool.false_eq_true, if_false]
      exact Double_le_of_not_lt _ _ hnan (ofNat_ne_nan _) hlt
    · simp only [if_true]
      exact Double_le_refl _ hnan
  · rw [UpdateJoinStats_of_toSizeT _ table_num_rows sample_size sample_card
      estimated_card hquot]
    dsimp only
    cases hlt : stats.cardinality_.lt (Double.ofNat estimated_card)
    · simp only [Bool.false_eq_true, if_false, Double_lt_irrefl]
    · simp only [if_true, hlt]

/-- Witness of C39: on statistics with 100 rows and cardinality 10, the call
`UpdateJoinStats(50, 20, 3)` gives 50 rows and cardinality 7, and a second
call with the same arguments gives 50 rows and cardinality 7 again. -/
theorem UpdateJoinStats_idempotent_never_raises_witness :
    (2 ≤ 20 ∨ (20 = 1 ∧ (3 * 50) % 2 ^ 64 < 2 ^ 64 - 1024)) ∧
    (∃ after : ColumnStats,
      sampleColumnStats.UpdateJoinStats 50 20 3 = some after ∧
      (sampleColumnStats.cardinality_ ≠ Double.nan →
        after.cardinality_.le sampleColumnStats.cardinality_ = true) ∧
      after = { sampleColumnStats with
        num_rows_ := after.num_rows_, cardinality_ := after.cardinality_ } ∧
      after.UpdateJoinStats 50 20 3 = some after) ∧
    sampleColumnStats.cardinality_ ≠ Double.nan ∧
    (sampleColumnStats.UpdateJoinStats 50 20 3).map
        (fun stats => (stats.num_rows_, stats.cardinality_)) = some (50, Double.finite 7) ∧
    ((sampleColumnStats.UpdateJoinStats 50 20 3).bind
        (fun stats => stats.UpdateJoinStats 50 20 3)).map
        (fun stats => (stats.num_rows_, stats.cardinality_)) = some (50, Double.finite 7) := by
  refine ⟨Or.inl (by decide),
    UpdateJoinStats_idempotent_never_raises sampleColumnStats 50 20 3 (Or.inl (by decide)),
    by simp [sampleColumnStats], ?_, ?_⟩
  · rw [UpdateJoinStats_eq sampleColumnStats 50 20 3 (by decide) (by decide)]
    norm_num [sampleColumnStats, Double.lt]
  · rw [UpdateJoinStats_eq sampleColumnStats 50 20 3 (by decide) (by decide)]
    simp only [Option.some_bind]
    rw [UpdateJoinStats_eq _ 50 20 3 (by decide) (by decide)]
    norm_num [sampleColumnStats, Double.lt]

/-- C40: `GetProperties` is a function of its arguments alone.  Whatever the
state of the deriver object before the call, in particular whatever its output
list holds, the call returns the same result as the call with the same group
expression, requirement, memo and catalog on a fresh deriver; and after every
sequence of earlier calls on a deriver, the call returns the same list of
entries as on a fresh deriver. -/
theorem GetProperties_independent_of_earlier_calls (collaborators : DeriverCollaborators)
    (deriver : ChildPropertyDeriver) (earlier : List DeriverCall) (gexpr : GroupExpression)
    (requirements : PropertySet) (memo : Memo) (accessor : CatalogAccessor) :
    ChildPropertyDeriver.GetProperties collaborators deriver gexpr requirements memo accessor =
      ChildPropertyDeriver.GetProperties collaborators sampleFreshDeriver gexpr requirements
        memo accessor ∧
    ∀ after : ChildPropertyDeriver,
      specAfterCalls collaborators sampleFreshDeriver earlier = some after →
      (ChildPropertyDeriver.GetProperties collaborators after gexpr requirements memo
          accessor).map Prod.fst =
        (ChildPropertyDeriver.GetProperties collaborators sampleFreshDeriver gexpr requirements
          memo accessor).map Prod.fst :=
  ⟨rfl, fun _ _ => rfl⟩

/-- Witness of C40: on a deriver whose output list still holds an entry, and
on the deriver left by a call for an inner hash join, the call for a
sequential scan returns the single entry of a sequential scan, as on a fresh
deriver. -/
theorem GetProperties_independent_of_earlier_calls_witness :
    (ChildPropertyDeriver.GetProperties sampleCollaborators
        ⟨some sampleSortA, [(sampleSortA, [sampleSortA])], none, none, none⟩
        ⟨PhysicalOperator.SeqScan, []⟩ sampleSortB sampleMemo sampleAccessor).map Prod.fst =
      some [(PropertySet.mk [], [])] ∧
    (specAfterCalls sampleCollaborators sampleFreshDeriver
        [⟨⟨PhysicalOperator.InnerHashJoin, [0, 1]⟩, sampleSortB, sampleMemo,
          sampleAccessor⟩]).isSome = true ∧
    (ChildPropertyDeriver.GetProperties sampleCollaborators sampleFreshDeriver
        ⟨PhysicalOperator.SeqScan, []⟩ sampleSortB sampleMemo sampleAccessor).map Prod.fst =
      some [(PropertySet.mk [], [])] :=
  ⟨(congrArg (Option.map Prod.fst)
      (GetProperties_independent_of_earlier_calls sampleCollaborators
        ⟨some sampleSortA, [(sampleSortA, [sampleSortA])], none, none, none⟩ []
        ⟨PhysicalOperator.SeqScan, []⟩ sampleSortB sampleMemo sampleAccessor).1).trans (by rfl),
    by rfl, by rfl⟩

end optimizer

end terrier
